import Mathlib

/-!
Zombie Escape: the turn engine (`engine.js`).

A shallow embedding of `GameEngine`: the grid state, the level loader, the
move validators, the greedy pursuer step and the turn resolver.  Coordinates
are integers, mutation of `this` is explicit state passing: every method takes
the engine and gives back the engine after the call next to its return value.
-/

namespace ZombieEscape

/-! ## Data model -/

/-- The module constant `CONFIG`. -/
structure Config where
  gridSize : Nat
  zombieMoveSpeed : Nat
deriving DecidableEq, Repr

/-- The value of `CONFIG` in `engine.js`. -/
def CONFIG : Config := { gridSize := 10, zombieMoveSpeed := 2 }

/-- The field `status`: `'playing'`, `'lost'`, `'won'`. -/
inductive Status where
  | playing
  | lost
  | won
deriving DecidableEq, Repr

/-- A cell `{ x, y }`. -/
structure Pos where
  x : Int
  y : Int
deriving DecidableEq, Repr

/-- A pursuer `{ x, y, id }`. -/
structure Zombie where
  x : Int
  y : Int
  id : Nat
deriving DecidableEq, Repr

/-- The object `this.state`. -/
structure State where
  turn : Nat
  player : Pos
  exit : Pos
  zombies : List Zombie
  walls : List Pos
  isGameOver : Bool
  status : Status
deriving DecidableEq, Repr

/-- The engine object: `this.width`, `this.height`, `this.state`. -/
structure GameEngine where
  width : Int
  height : Int
  state : State
deriving DecidableEq, Repr

/-- The object returned by `movePlayer`; `trapEvents` is absent on the paths
that return early or through `gameOver`. -/
structure MoveResult where
  moved : Bool
  status : Status
  trapEvents : Option Nat
deriving DecidableEq, Repr

/-- A level layout: the rows, each the sequence of its characters. -/
abbrev Layout := List (List Char)

/-- What a call can throw: the `TypeError` of the runtime, and the
`LevelFormatError` the specification names (no code of the engine raises it). -/
inductive EngineError where
  | typeError
  | levelFormatError
deriving DecidableEq, Repr

/-! ## Construction and level loading -/

/-- The method `getInitialState()`. -/
def getInitialState : State :=
  { turn := 0
    player := { x := 0, y := 0 }
    exit := { x := 0, y := 0 }
    zombies := []
    walls := []
    isGameOver := false
    status := Status.playing }

/-- The expression `v || CONFIG.gridSize` for an optional integer argument. -/
def orGridSize (v : Option Int) : Int :=
  match v with
  | none => CONFIG.gridSize
  | some w => if w = 0 then CONFIG.gridSize else w

/-- The constructor `new GameEngine(width, height)`. -/
def GameEngine.new (width height : Option Int) : GameEngine :=
  { width := orGridSize width
    height := orGridSize height
    state := getInitialState }

/-- The `switch (char)` of `loadLevel` at cell `(x, y)`; the second component
is `zombieIdCounter`. -/
def loadCell (x y : Nat) (char : Option Char) (acc : State × Nat) : State × Nat :=
  match char with
  | some 'P' => ({ acc.1 with player := { x := x, y := y } }, acc.2)
  | some 'Z' =>
      ({ acc.1 with zombies := acc.1.zombies ++ [{ x := x, y := y, id := acc.2 }] }, acc.2 + 1)
  | some '#' => ({ acc.1 with walls := acc.1.walls ++ [{ x := x, y := y }] }, acc.2)
  | some 'E' => ({ acc.1 with exit := { x := x, y := y } }, acc.2)
  | _ => acc

/-- The inner loop of `loadLevel`: `for (x = 0; x < this.width; x++)` over `row`. -/
def loadRow (width y : Nat) (row : List Char) (acc : State × Nat) : State × Nat :=
  (List.range width).foldl (fun a x => loadCell x y row[x]? a) acc

/-- The outer loop of `loadLevel`: `for (y = 0; y < this.height; y++)`. -/
def loadRows (width height : Nat) (layout : Layout) (acc : State × Nat) : State × Nat :=
  (List.range height).foldl
    (fun a y =>
      match layout[y]? with
      | some row => loadRow width y row a
      | none => a)
    acc

/-- The method `loadLevel(layout)`.  On the empty layout `layout[0].length`
throws a `TypeError`. -/
def loadLevel (_e : GameEngine) (layout : Layout) : Except EngineError GameEngine :=
  match layout with
  | [] => Except.error EngineError.typeError
  | row0 :: _ =>
      let height := layout.length
      let width := row0.length
      Except.ok
        { width := width
          height := height
          state := (loadRows width height layout (getInitialState, 0)).1 }

/-! ## Validators -/

/-- The method `isWall(x, y)`. -/
def isWall (e : GameEngine) (x y : Int) : Bool :=
  e.state.walls.any (fun w => decide (w.x = x) && decide (w.y = y))

/-- The method `isZombieAt(x, y, excludeId)`; `excludeId` is `none` when the
argument is omitted. -/
def isZombieAt (e : GameEngine) (x y : Int) (excludeId : Option Nat) : Bool :=
  e.state.zombies.any
    (fun z => decide (z.x = x) && decide (z.y = y) && decide (some z.id ≠ excludeId))

/-- The method `checkLoss()`. -/
def checkLoss (e : GameEngine) : Bool :=
  e.state.zombies.any
    (fun z => decide (z.x = e.state.player.x) && decide (z.y = e.state.player.y))

/-- The method `isValidMove(x, y)`. -/
def isValidMove (e : GameEngine) (x y : Int) : Bool :=
  if x < 0 ∨ x ≥ e.width ∨ y < 0 ∨ y ≥ e.height then false
  else if isWall e x y then false
  else true

/-- The method `canZombieMoveTo(x, y, myId)`. -/
def canZombieMoveTo (e : GameEngine) (x y : Int) (myId : Nat) : Bool :=
  if x < 0 ∨ x ≥ e.width ∨ y < 0 ∨ y ≥ e.height then false
  else if isWall e x y then false
  else if isZombieAt e x y (some myId) then false
  else true

/-- The method `gameOver(win)`. -/
def gameOver (e : GameEngine) (win : Bool) : GameEngine × MoveResult :=
  let status := if win then Status.won else Status.lost
  ({ e with state := { e.state with isGameOver := true, status := status } },
   { moved := true, status := status, trapEvents := none })

/-! ## The pursuer sub-step -/

/-- The method `tryMoveZombie(z, move)`, where `z` is the object stored at
index `i` of `this.state.zombies`. -/
def tryMoveZombie (e : GameEngine) (i : Nat) (z : Zombie) (move : Pos) : GameEngine × Bool :=
  let targetX := z.x + move.x
  let targetY := z.y + move.y
  if canZombieMoveTo e targetX targetY z.id then
    ({ e with state :=
        { e.state with zombies := e.state.zombies.set i { z with x := targetX, y := targetY } } },
     true)
  else (e, false)

/-- The first candidate step of a pursuer `z` (`primaryMove`). -/
def primaryMove (e : GameEngine) (z : Zombie) : Pos :=
  let dx := e.state.player.x - z.x
  let dy := e.state.player.y - z.y
  if dx.natAbs > dy.natAbs then { x := Int.sign dx, y := 0 } else { x := 0, y := Int.sign dy }

/-- The second candidate step of a pursuer `z` (`secondaryMove`); `{0, 0}`
when there is none. -/
def secondaryMove (e : GameEngine) (z : Zombie) : Pos :=
  let dx := e.state.player.x - z.x
  let dy := e.state.player.y - z.y
  if dx.natAbs > dy.natAbs then
    (if dy ≠ 0 then { x := 0, y := Int.sign dy } else { x := 0, y := 0 })
  else
    (if dx ≠ 0 then { x := Int.sign dx, y := 0 } else { x := 0, y := 0 })

/-- The body of the `forEach` callback of `moveZombiesSingleStep` for the
pursuer at index `i`, on the live engine; the second component is `traps`. -/
def zombieStep (acc : GameEngine × Nat) (i : Nat) : GameEngine × Nat :=
  match acc.1.state.zombies[i]? with
  | none => acc
  | some z =>
      let primary := primaryMove acc.1 z
      let secondary := secondaryMove acc.1 z
      let r1 := tryMoveZombie acc.1 i z primary
      if r1.2 then (r1.1, acc.2)
      else if secondary.x ≠ 0 ∨ secondary.y ≠ 0 then
        let r2 := tryMoveZombie r1.1 i z secondary
        if r2.2 then (r2.1, acc.2) else (r2.1, acc.2 + 1)
      else (r1.1, acc.2 + 1)

/-- The engine and `traps` when the callback has run for the pursuers at
indices `0 .. k - 1`. -/
def subStepUpTo (e : GameEngine) (k : Nat) : GameEngine × Nat :=
  (List.range k).foldl zombieStep (e, 0)

/-- The method `moveZombiesSingleStep()`. -/
def moveZombiesSingleStep (e : GameEngine) : GameEngine × Nat :=
  subStepUpTo e e.state.zombies.length

/-! ## The turn resolver -/

/-- The `for` loop of `processZombieTurn` with `steps` iterations left. -/
def processZombieLoop (steps : Nat) (e : GameEngine) (totalTraps : Nat) : GameEngine × Nat :=
  match steps with
  | 0 => (e, totalTraps)
  | n + 1 =>
      if e.state.isGameOver then (e, totalTraps)
      else
        let r := moveZombiesSingleStep e
        let total := totalTraps + r.2
        if checkLoss r.1 then ((gameOver r.1 false).1, total)
        else processZombieLoop n r.1 total

/-- The method `processZombieTurn()`. -/
def processZombieTurn (e : GameEngine) : GameEngine × Nat :=
  processZombieLoop CONFIG.zombieMoveSpeed e 0

/-- The engine once `movePlayer` has committed the agent's step to `(newX, newY)`. -/
def commitMove (e : GameEngine) (newX newY : Int) : GameEngine :=
  { e with state := { e.state with player := { x := newX, y := newY }, turn := e.state.turn + 1 } }

/-- The method `movePlayer(dx, dy)`. -/
def movePlayer (e : GameEngine) (dx dy : Int) : GameEngine × MoveResult :=
  if e.state.isGameOver then (e, { moved := false, status := e.state.status, trapEvents := none })
  else
    let newX := e.state.player.x + dx
    let newY := e.state.player.y + dy
    if !isValidMove e newX newY then
      (e, { moved := false, status := e.state.status, trapEvents := none })
    else
      let e1 := commitMove e newX newY
      if isZombieAt e1 newX newY none then gameOver e1 false
      else if e1.state.player.x = e1.state.exit.x ∧ e1.state.player.y = e1.state.exit.y then
        gameOver e1 true
      else
        let r := processZombieTurn e1
        if checkLoss r.1 then gameOver r.1 false
        else (r.1, { moved := true, status := r.1.state.status, trapEvents := some r.2 })

/-- The engines reachable from `loadLevel` by `movePlayer` calls. -/
inductive Reachable : GameEngine → Prop where
  | load (e0 : GameEngine) (layout : Layout) (e : GameEngine) :
      loadLevel e0 layout = Except.ok e → Reachable e
  | move (e : GameEngine) (dx dy : Int) : Reachable e → Reachable (movePlayer e dx dy).1

/-- The game is in progress: the status is `'playing'` and `isGameOver` is not set. -/
def InProgress (e : GameEngine) : Prop :=
  e.state.status = Status.playing ∧ e.state.isGameOver = false

instance (e : GameEngine) : Decidable (InProgress e) := by
  unfold InProgress; infer_instance

/-- Pursuers are listed in strictly increasing id order. -/
def IdOrdered (e : GameEngine) : Prop :=
  (e.state.zombies.map (fun z => z.id)).Pairwise (fun a b => a < b)

instance (e : GameEngine) : Decidable (IdOrdered e) := by
  unfold IdOrdered; infer_instance

/-- The layout given as strings. -/
def layoutOf (rows : List String) : Layout := rows.map String.toList

/-- An engine before any level is loaded: `new GameEngine()`. -/
def fresh : GameEngine := GameEngine.new none none

/-- The engine after `loadLevel`, or the unchanged engine when loading throws. -/
def loaded (rows : List String) : GameEngine :=
  match loadLevel fresh (layoutOf rows) with
  | Except.ok e => e
  | Except.error _ => fresh

/-- The engine `e` with the pursuer list replaced by `zs`. -/
def setZombies (e : GameEngine) (zs : List Zombie) : GameEngine :=
  { e with state := { e.state with zombies := zs } }

/-- The cell `(x, y)` lies inside the grid. -/
def InBounds (e : GameEngine) (x y : Int) : Prop :=
  0 ≤ x ∧ x < e.width ∧ 0 ≤ y ∧ y < e.height

instance (e : GameEngine) (x y : Int) : Decidable (InBounds e x y) := by
  unfold InBounds; infer_instance

/-- The cell `(x, y)` is in the wall list. -/
def WallAt (e : GameEngine) (x y : Int) : Prop :=
  ∃ w ∈ e.state.walls, w.x = x ∧ w.y = y

instance (e : GameEngine) (x y : Int) : Decidable (WallAt e x y) := by
  unfold WallAt; infer_instance

/-- Some pursuer stands on the cell `(x, y)`. -/
def PursuerAt (e : GameEngine) (x y : Int) : Prop :=
  ∃ z ∈ e.state.zombies, z.x = x ∧ z.y = y

instance (e : GameEngine) (x y : Int) : Decidable (PursuerAt e x y) := by
  unfold PursuerAt; infer_instance

/-- The flag `isGameOver` agrees with the status being terminal. -/
def Consistent (e : GameEngine) : Prop :=
  e.state.isGameOver = true ↔ e.state.status ≠ Status.playing

/-! ## Notions used in the statements -/

/-- The pursuer `z` after the step `m`. -/
def moved (z : Zombie) (m : Pos) : Zombie := { x := z.x + m.x, y := z.y + m.y, id := z.id }

/-- The engine after `k` sub-steps run one after the other. -/
def subSteps (k : Nat) (e : GameEngine) : GameEngine :=
  match k with
  | 0 => e
  | n + 1 => (moveZombiesSingleStep (subSteps n e)).1

/-- Some pursuer stands on the agent's cell. -/
def Caught (e : GameEngine) : Prop :=
  PursuerAt e e.state.player.x e.state.player.y

instance (e : GameEngine) : Decidable (Caught e) := by
  unfold Caught; infer_instance

/-- The delta along the minor axis of pursuer `z`: `dy` when `|dx| > |dy|`,
else `dx`. -/
def minorDelta (e : GameEngine) (z : Zombie) : Int :=
  if (e.state.player.x - z.x).natAbs > (e.state.player.y - z.y).natAbs then
    e.state.player.y - z.y
  else e.state.player.x - z.x

/-- Pursuer `i` is trapped in the sub-step started on `e`: when it is handled,
its first candidate is refused and its second is missing or refused. -/
def trappedAt (e : GameEngine) (i : Nat) : Bool :=
  match e.state.zombies[i]? with
  | none => false
  | some z =>
      !canZombieMoveTo (subStepUpTo e i).1 (z.x + (primaryMove e z).x)
          (z.y + (primaryMove e z).y) z.id &&
      (decide ((secondaryMove e z).x = 0 ∧ (secondaryMove e z).y = 0) ||
        !canZombieMoveTo (subStepUpTo e i).1 (z.x + (secondaryMove e z).x)
          (z.y + (secondaryMove e z).y) z.id)

/-- A well-formed layout: at least one row, every row as long as the first. -/
def WellFormed (layout : Layout) : Prop :=
  layout ≠ [] ∧ ∀ row ∈ layout, row.length = (layout.headD []).length

instance (layout : Layout) : Decidable (WellFormed layout) := by
  unfold WellFormed; infer_instance

/-- The cells of row `y` that hold the character `c`, left to right. -/
def rowCells (c : Char) (y : Nat) (row : List Char) : List (Nat × Nat) :=
  ((List.range row.length).filter (fun x => decide (row[x]? = some c))).map (fun x => (x, y))

/-- The cells `(x, y)` of the layout that hold the character `c`, in row-major
order (rows top to bottom, each row left to right). -/
def cellsOf (c : Char) (layout : Layout) : List (Nat × Nat) :=
  (List.range layout.length).flatMap
    (fun y =>
      match layout[y]? with
      | some row => rowCells c y row
      | none => [])

/-- The layout holds the character `c` nowhere. -/
def Lacks (c : Char) (layout : Layout) : Prop :=
  ∀ row ∈ layout, c ∉ row

instance (c : Char) (layout : Layout) : Decidable (Lacks c layout) := by
  unfold Lacks; infer_instance

/-- A sequence of `movePlayer` calls on the same engine; the results are listed
in call order. -/
def runMoves (e : GameEngine) (intents : List (Int × Int)) : GameEngine × List MoveResult :=
  match intents with
  | [] => (e, [])
  | d :: rest =>
      ((runMoves (movePlayer e d.1 d.2).1 rest).1,
       (movePlayer e d.1 d.2).2 :: (runMoves (movePlayer e d.1 d.2).1 rest).2)

/-- No two pursuers stand on the same cell. -/
def NoStack (e : GameEngine) : Prop :=
  (e.state.zombies.map (fun z => (z.x, z.y))).Nodup

instance (e : GameEngine) : Decidable (NoStack e) := by
  unfold NoStack; infer_instance

/-- A scanned cell as a pair of integer coordinates. -/
def cellPos (c : Nat × Nat) : Int × Int := ((c.1 : Int), (c.2 : Int))

/-- The position `p` overwritten in turn by each of `cells`: the last of them,
or `p` when there is none. -/
def lastOr (p : Pos) (cells : List (Nat × Nat)) : Pos :=
  cells.foldl (fun _ c => { x := (c.1 : Int), y := (c.2 : Int) }) p

/-- The number of pursuers trapped in the sub-step started on `e`. -/
def trapsIn (e : GameEngine) : Nat :=
  (List.range e.state.zombies.length).countP (trappedAt e)

/-- The cells of row `y` holding `Z` among the first `width` columns: what the
inner loop of the loader scans, whatever the length of the row. -/
def scannedZ (width : Nat) (layout : Layout) (y : Nat) : List (Nat × Nat) :=
  match layout[y]? with
  | some row =>
      ((List.range width).filter (fun x => decide (row[x]? = some 'Z'))).map (fun x => (x, y))
  | none => []

/-- The engines reachable from `new GameEngine(width, height)` or from
`loadLevel` (on any engine) by `movePlayer` calls. -/
inductive ReachableAny : GameEngine → Prop where
  | new (width height : Option Int) : ReachableAny (GameEngine.new width height)
  | load (e0 : GameEngine) (layout : Layout) (e : GameEngine) :
      loadLevel e0 layout = Except.ok e → ReachableAny e
  | move (e : GameEngine) (dx dy : Int) : ReachableAny e → ReachableAny (movePlayer e dx dy).1

/-- The engines reachable from `loadLevel(layout)` by `movePlayer` calls. -/
inductive ReachableFrom (layout : Layout) : GameEngine → Prop where
  | load (e0 : GameEngine) (e : GameEngine) :
      loadLevel e0 layout = Except.ok e → ReachableFrom layout e
  | move (e : GameEngine) (dx dy : Int) :
      ReachableFrom layout e → ReachableFrom layout (movePlayer e dx dy).1

/-- The Manhattan distance from the cell of `z` to the agent. -/
def dist (e : GameEngine) (z : Zombie) : Nat :=
  (e.state.player.x - z.x).natAbs + (e.state.player.y - z.y).natAbs

/-- The step `m` is one cell along one axis and brings `z` one cell closer to
the agent. -/
def StepsToward (e : GameEngine) (z : Zombie) (m : Pos) : Prop :=
  ((m.x = 0 ∧ m.y.natAbs = 1) ∨ (m.y = 0 ∧ m.x.natAbs = 1)) ∧
  dist e (moved z m) + 1 = dist e z

/-- The character `serialize()` appends for the cell `(x, y)`: the chain of
`if ... else if` of its inner loop. -/
def serializeCell (e : GameEngine) (x y : Nat) : Char :=
  if e.state.player.x = (x : Int) ∧ e.state.player.y = (y : Int) then 'P'
  else if e.state.zombies.any (fun z => decide (z.x = (x : Int)) && decide (z.y = (y : Int)))
    then 'Z'
  else if e.state.walls.any (fun w => decide (w.x = (x : Int)) && decide (w.y = (y : Int)))
    then '#'
  else if e.state.exit.x = (x : Int) ∧ e.state.exit.y = (y : Int) then 'E'
  else '.'

/-- The inner loop of `serialize()`: the string built for row `y`. -/
def serializeRow (e : GameEngine) (y : Nat) : List Char :=
  (List.range e.width.toNat).foldl (fun row x => row ++ [serializeCell e x y]) []

/-- The method `serialize()`. -/
def serialize (e : GameEngine) : Layout :=
  (List.range e.height.toNat).foldl (fun rows y => rows ++ [serializeRow e y]) []

/-- The label of the cell `(x, y)` by the precedence agent, pursuer, wall,
exit, empty. -/
def labelOf (e : GameEngine) (x y : Nat) : Char :=
  if e.state.player = { x := (x : Int), y := (y : Int) } then 'P'
  else if PursuerAt e (x : Int) (y : Int) then 'Z'
  else if WallAt e (x : Int) (y : Int) then '#'
  else if e.state.exit = { x := (x : Int), y := (y : Int) } then 'E'
  else '.'

/-- The text appended by `row += layout[y][x]` in `transposeLayout` (`game.js`):
the character, or the word `undefined` when row `y` has no column `x`. -/
def cellText (layout : Layout) (x y : Nat) : List Char :=
  match layout[y]? with
  | some row =>
      match row[x]? with
      | some c => [c]
      | none => "undefined".toList
  | none => []

/-- The function `transposeLayout(layout)` of `game.js`.  On the empty layout
`layout[0].length` throws a `TypeError`. -/
def transposeLayout (layout : Layout) : Except EngineError Layout :=
  match layout with
  | [] => Except.error EngineError.typeError
  | row0 :: _ =>
      let rows := layout.length
      let cols := row0.length
      Except.ok
        ((List.range cols).foldl
          (fun result x =>
            result ++ [(List.range rows).foldl (fun row y => row ++ cellText layout x y) []])
          [])

/-- The function `fitLayoutToScreen(layout)` of `game.js`, with
`window.innerWidth` and `window.innerHeight` as the inputs `screenW`, `screenH`. -/
def fitLayoutToScreen (screenW screenH : Int) (layout : Layout) : Except EngineError Layout :=
  match layout with
  | [] => Except.error EngineError.typeError
  | row0 :: _ =>
      let gridW := row0.length
      let gridH := layout.length
      if gridW = gridH then Except.ok layout
      else if screenW = screenH then Except.ok layout
      else
        let gridIsWide := decide (gridW > gridH)
        let screenIsWide := decide (screenW > screenH)
        if gridIsWide ≠ screenIsWide then transposeLayout layout
        else Except.ok layout

/-- The character of the layout at column `x` of row `y`, if there is one. -/
def charAt (layout : Layout) (x y : Nat) : Option Char :=
  match layout[y]? with
  | some row => row[x]?
  | none => none

/-- The layout of `r` rows and `c` columns with the character `g x y` at
column `x` of row `y`. -/
def grid (r c : Nat) (g : Nat → Nat → Char) : Layout :=
  (List.range r).map (fun y => (List.range c).map (fun x => g x y))

/-- The layout has `r` rows, each of `c` characters. -/
def Rect (r c : Nat) (layout : Layout) : Prop :=
  layout.length = r ∧ ∀ row ∈ layout, row.length = c

instance (r c : Nat) (layout : Layout) : Decidable (Rect r c layout) := by
  unfold Rect; infer_instance

/-- The layout is a non-empty list of rows and its first row is longer than
the layout has rows. -/
def WiderThanTall (layout : Layout) : Prop :=
  (layout.headD []).length > layout.length

instance (layout : Layout) : Decidable (WiderThanTall layout) := by
  unfold WiderThanTall; infer_instance

/-- The layout holds the character `c` somewhere. -/
def Contains (c : Char) (layout : Layout) : Prop :=
  ∃ row ∈ layout, c ∈ row

instance (c : Char) (layout : Layout) : Decidable (Contains c layout) := by
  unfold Contains; infer_instance

/-- The agent is inside the grid and not on a wall. -/
def AgentSafe (e : GameEngine) : Prop :=
  InBounds e e.state.player.x e.state.player.y ∧ ¬ WallAt e e.state.player.x e.state.player.y

/-- Every pursuer is inside the grid and not on a wall. -/
def ZSafe (e : GameEngine) : Prop :=
  ∀ z ∈ e.state.zombies, InBounds e z.x z.y ∧ ¬ WallAt e z.x z.y

/-- The agent stands on the exit. -/
def OnExit (e : GameEngine) : Prop :=
  e.state.player.x = e.state.exit.x ∧ e.state.player.y = e.state.exit.y

instance (e : GameEngine) : Decidable (OnExit e) := by
  unfold OnExit; infer_instance

/-- The status says what the board shows: `'lost'` with a pursuer on the
agent's cell, `'won'` with the agent on the exit and no pursuer on its cell,
`'playing'` with neither. -/
def StatusMatches (e : GameEngine) : Prop :=
  (e.state.status = Status.lost → Caught e) ∧
  (e.state.status = Status.won → OnExit e ∧ ¬ Caught e) ∧
  (e.state.status = Status.playing → ¬ Caught e ∧ ¬ OnExit e)

/-- Every character of the layout is one of `P`, `Z`, `#`, `E`, `.`. -/
def Alphabet (layout : Layout) : Prop :=
  ∀ row ∈ layout, ∀ ch ∈ row, ch = 'P' ∨ ch = 'Z' ∨ ch = '#' ∨ ch = 'E' ∨ ch = '.'

instance (layout : Layout) : Decidable (Alphabet layout) := by
  unfold Alphabet; infer_instance

/-! ## Basic facts about the validators -/

theorem isWall_iff (e : GameEngine) (x y : Int) : isWall e x y = true ↔ WallAt e x y := by
  simp [isWall, WallAt, List.any_eq_true]

theorem isZombieAt_none_iff (e : GameEngine) (x y : Int) :
    isZombieAt e x y none = true ↔ PursuerAt e x y := by
  simp [isZombieAt, PursuerAt, List.any_eq_true]

theorem checkLoss_iff (e : GameEngine) :
    checkLoss e = true ↔ PursuerAt e e.state.player.x e.state.player.y := by
  simp [checkLoss, PursuerAt, List.any_eq_true]

theorem isValidMove_iff (e : GameEngine) (x y : Int) :
    isValidMove e x y = true ↔ InBounds e x y ∧ ¬ WallAt e x y := by
  unfold isValidMove InBounds
  rw [← isWall_iff]
  by_cases hb : x < 0 ∨ x ≥ e.width ∨ y < 0 ∨ y ≥ e.height
  · simp only [hb, if_true]
    constructor
    · intro h; cases h
    · rintro ⟨h, -⟩; omega
  · simp only [hb, if_false]
    have hb2 : 0 ≤ x ∧ x < e.width ∧ 0 ≤ y ∧ y < e.height := by omega
    cases hw : isWall e x y <;> simp [hb2]

/-! ## The sub-step changes pursuer coordinates only -/

theorem foldl_preserves {α β : Type} (P : β → Prop) (f : β → α → β)
    (hf : ∀ b a, P b → P (f b a)) (l : List α) (b : β) (hb : P b) : P (l.foldl f b) := by
  induction l generalizing b with
  | nil => exact hb
  | cons a t ih => exact ih (f b a) (hf b a hb)

theorem setZombies_self (e : GameEngine) : setZombies e e.state.zombies = e := rfl

theorem setZombies_setZombies (e : GameEngine) (zs ws : List Zombie) :
    setZombies (setZombies e zs) ws = setZombies e ws := rfl

theorem tryMoveZombie_eq (e : GameEngine) (i : Nat) (z : Zombie) (m : Pos) :
    tryMoveZombie e i z m =
      if canZombieMoveTo e (z.x + m.x) (z.y + m.y) z.id = true then
        (setZombies e (e.state.zombies.set i { x := z.x + m.x, y := z.y + m.y, id := z.id }), true)
      else (e, false) := rfl

/-- The callback takes the first candidate when `canZombieMoveTo` accepts it. -/
theorem zombieStep_primary (acc : GameEngine × Nat) (i : Nat) (z : Zombie)
    (hz : acc.1.state.zombies[i]? = some z)
    (hc : canZombieMoveTo acc.1 (z.x + (primaryMove acc.1 z).x) (z.y + (primaryMove acc.1 z).y)
      z.id = true) :
    zombieStep acc i =
      (setZombies acc.1 (acc.1.state.zombies.set i (moved z (primaryMove acc.1 z))), acc.2) := by
  simp [zombieStep, hz, tryMoveZombie_eq, hc, moved]

/-- The callback takes the second candidate when the first is refused, a second
exists and `canZombieMoveTo` accepts it. -/
theorem zombieStep_secondary (acc : GameEngine × Nat) (i : Nat) (z : Zombie)
    (hz : acc.1.state.zombies[i]? = some z)
    (hc : canZombieMoveTo acc.1 (z.x + (primaryMove acc.1 z).x) (z.y + (primaryMove acc.1 z).y)
      z.id = false)
    (hs : (secondaryMove acc.1 z).x ≠ 0 ∨ (secondaryMove acc.1 z).y ≠ 0)
    (hc2 : canZombieMoveTo acc.1 (z.x + (secondaryMove acc.1 z).x)
      (z.y + (secondaryMove acc.1 z).y) z.id = true) :
    zombieStep acc i =
      (setZombies acc.1 (acc.1.state.zombies.set i (moved z (secondaryMove acc.1 z))), acc.2) := by
  simp [zombieStep, hz, tryMoveZombie_eq, hc, hc2, moved, hs]

/-- The callback leaves the engine alone and counts a trap when the first
candidate is refused and the second is missing or refused. -/
theorem zombieStep_trapped (acc : GameEngine × Nat) (i : Nat) (z : Zombie)
    (hz : acc.1.state.zombies[i]? = some z)
    (hc : canZombieMoveTo acc.1 (z.x + (primaryMove acc.1 z).x) (z.y + (primaryMove acc.1 z).y)
      z.id = false)
    (hs : ((secondaryMove acc.1 z).x = 0 ∧ (secondaryMove acc.1 z).y = 0) ∨
      canZombieMoveTo acc.1 (z.x + (secondaryMove acc.1 z).x)
        (z.y + (secondaryMove acc.1 z).y) z.id = false) :
    zombieStep acc i = (acc.1, acc.2 + 1) := by
  by_cases h0 : (secondaryMove acc.1 z).x ≠ 0 ∨ (secondaryMove acc.1 z).y ≠ 0
  · rcases hs with hs | hs
    · exfalso
      rcases h0 with h0 | h0
      · exact h0 hs.1
      · exact h0 hs.2
    · simp [zombieStep, hz, tryMoveZombie_eq, hc, hs, h0]
  · simp [zombieStep, hz, tryMoveZombie_eq, hc, h0]

theorem zombieStep_none (acc : GameEngine × Nat) (i : Nat)
    (hz : acc.1.state.zombies[i]? = none) : zombieStep acc i = acc := by
  simp [zombieStep, hz]

/-- The three outcomes of the callback for a pursuer `z` stored at index `i`. -/
theorem zombieStep_cases (acc : GameEngine × Nat) (i : Nat) (z : Zombie)
    (hz : acc.1.state.zombies[i]? = some z) :
    (zombieStep acc i = (acc.1, acc.2 + 1)) ∨
    (∃ m : Pos, zombieStep acc i = (setZombies acc.1 (acc.1.state.zombies.set i (moved z m)), acc.2)) := by
  cases hc : canZombieMoveTo acc.1 (z.x + (primaryMove acc.1 z).x) (z.y + (primaryMove acc.1 z).y) z.id
  · by_cases h0 : (secondaryMove acc.1 z).x ≠ 0 ∨ (secondaryMove acc.1 z).y ≠ 0
    · cases hc2 : canZombieMoveTo acc.1 (z.x + (secondaryMove acc.1 z).x)
        (z.y + (secondaryMove acc.1 z).y) z.id
      · exact Or.inl (zombieStep_trapped acc i z hz hc (Or.inr hc2))
      · exact Or.inr ⟨_, zombieStep_secondary acc i z hz hc h0 hc2⟩
    · refine Or.inl (zombieStep_trapped acc i z hz hc (Or.inl ?_))
      constructor
      · by_contra h; exact h0 (Or.inl h)
      · by_contra h; exact h0 (Or.inr h)
  · exact Or.inr ⟨_, zombieStep_primary acc i z hz hc⟩

theorem zombieStep_frame (acc : GameEngine × Nat) (i : Nat) :
    (zombieStep acc i).1 = setZombies acc.1 (zombieStep acc i).1.state.zombies := by
  cases hz : acc.1.state.zombies[i]? with
  | none => rw [zombieStep_none acc i hz]; rfl
  | some z =>
    rcases zombieStep_cases acc i z hz with h | ⟨m, h⟩
    · rw [h]; rfl
    · rw [h]; rfl

theorem subStepUpTo_frame (e : GameEngine) (k : Nat) :
    (subStepUpTo e k).1 = setZombies e (subStepUpTo e k).1.state.zombies := by
  unfold subStepUpTo
  refine foldl_preserves (fun acc => acc.1 = setZombies e acc.1.state.zombies) zombieStep
    ?_ (List.range k) (e, 0) rfl
  intro b a hb
  have h := zombieStep_frame b a
  rw [hb] at h
  rw [h]
  rfl

theorem moveZombiesSingleStep_frame (e : GameEngine) :
    (moveZombiesSingleStep e).1 = setZombies e (moveZombiesSingleStep e).1.state.zombies :=
  subStepUpTo_frame e _

/-! ## The turn resolver: shape of the result -/

theorem checkLoss_setZombies_iff (e : GameEngine) (zs : List Zombie) :
    checkLoss (setZombies e zs) = true ↔
      ∃ z ∈ zs, z.x = e.state.player.x ∧ z.y = e.state.player.y := by
  simp [checkLoss, setZombies, List.any_eq_true]

theorem processZombieLoop_over (n : Nat) (e : GameEngine) (t : Nat)
    (hg : e.state.isGameOver = true) : processZombieLoop (n + 1) e t = (e, t) := by
  simp [processZombieLoop, hg]

theorem processZombieLoop_caught (n : Nat) (e : GameEngine) (t : Nat)
    (hg : e.state.isGameOver = false) (hl : checkLoss (moveZombiesSingleStep e).1 = true) :
    processZombieLoop (n + 1) e t =
      ((gameOver (moveZombiesSingleStep e).1 false).1, t + (moveZombiesSingleStep e).2) := by
  simp [processZombieLoop, hg, hl]

theorem processZombieLoop_continue (n : Nat) (e : GameEngine) (t : Nat)
    (hg : e.state.isGameOver = false) (hl : checkLoss (moveZombiesSingleStep e).1 = false) :
    processZombieLoop (n + 1) e t =
      processZombieLoop n (moveZombiesSingleStep e).1 (t + (moveZombiesSingleStep e).2) := by
  simp [processZombieLoop, hg, hl]

/-- The loop of `processZombieTurn` ends on the engine with new pursuer
coordinates, either untouched otherwise or closed by `gameOver(false)`. -/
theorem processZombieLoop_shape (n : Nat) (e : GameEngine) (t : Nat) :
    ∃ zs : List Zombie,
      (processZombieLoop n e t).1 = setZombies e zs ∨
      (processZombieLoop n e t).1 = (gameOver (setZombies e zs) false).1 := by
  induction n generalizing e t with
  | zero => exact ⟨e.state.zombies, Or.inl rfl⟩
  | succ n ih =>
    cases hg : e.state.isGameOver with
    | true =>
      rw [processZombieLoop_over n e t hg]
      exact ⟨e.state.zombies, Or.inl rfl⟩
    | false =>
      have hf := moveZombiesSingleStep_frame e
      cases hl : checkLoss (moveZombiesSingleStep e).1 with
      | true =>
        rw [processZombieLoop_caught n e t hg hl]
        refine ⟨(moveZombiesSingleStep e).1.state.zombies, Or.inr ?_⟩
        rw [← hf]
      | false =>
        rw [processZombieLoop_continue n e t hg hl]
        obtain ⟨zs, h⟩ := ih (moveZombiesSingleStep e).1 (t + (moveZombiesSingleStep e).2)
        refine ⟨zs, ?_⟩
        rcases h with h | h
        · left; rw [h, hf]; rfl
        · right; rw [h, hf]; rfl

theorem processZombieTurn_shape (e : GameEngine) :
    ∃ zs : List Zombie,
      (processZombieTurn e).1 = setZombies e zs ∨
      (processZombieTurn e).1 = (gameOver (setZombies e zs) false).1 :=
  processZombieLoop_shape _ e 0

/-- The pursuer phase leaves the status as it was or sets it to `'lost'`. -/
theorem processZombieTurn_status (e : GameEngine) :
    (processZombieTurn e).1.state.status = e.state.status ∨
    (processZombieTurn e).1.state.status = Status.lost := by
  obtain ⟨zs, h | h⟩ := processZombieTurn_shape e
  · left; rw [h]; rfl
  · right; rw [h]; rfl

theorem processZombieTurn_consistent (e : GameEngine) (h : Consistent e) :
    Consistent (processZombieTurn e).1 := by
  obtain ⟨zs, h1 | h1⟩ := processZombieTurn_shape e
  · rw [h1]; exact h
  · rw [h1]; simp [Consistent, gameOver]

theorem gameOver_consistent (e : GameEngine) (win : Bool) : Consistent (gameOver e win).1 := by
  cases win <;> simp [Consistent, gameOver]

theorem movePlayer_consistent (e : GameEngine) (dx dy : Int) (h : Consistent e) :
    Consistent (movePlayer e dx dy).1 := by
  unfold movePlayer
  split
  · exact h
  · dsimp only
    split
    · exact h
    · split
      · exact gameOver_consistent _ _
      · split
        · exact gameOver_consistent _ _
        · split
          · exact gameOver_consistent _ _
          · exact processZombieTurn_consistent _ h

/-! ## The loader leaves the flags of the initial state -/

theorem loadCell_flags (x y : Nat) (c : Option Char) (acc : State × Nat) :
    (loadCell x y c acc).1.isGameOver = acc.1.isGameOver ∧
    (loadCell x y c acc).1.status = acc.1.status ∧
    (loadCell x y c acc).1.turn = acc.1.turn := by
  unfold loadCell
  split <;> simp

theorem loadRows_flags (width height : Nat) (layout : Layout) (acc : State × Nat) :
    (loadRows width height layout acc).1.isGameOver = acc.1.isGameOver ∧
    (loadRows width height layout acc).1.status = acc.1.status ∧
    (loadRows width height layout acc).1.turn = acc.1.turn := by
  unfold loadRows
  refine foldl_preserves
    (fun a : State × Nat => a.1.isGameOver = acc.1.isGameOver ∧ a.1.status = acc.1.status ∧
      a.1.turn = acc.1.turn) _ ?_ _ acc ⟨rfl, rfl, rfl⟩
  intro b y hb
  dsimp only
  split
  · unfold loadRow
    refine foldl_preserves
      (fun a : State × Nat => a.1.isGameOver = acc.1.isGameOver ∧ a.1.status = acc.1.status ∧
        a.1.turn = acc.1.turn) _ ?_ _ b hb
    intro b2 x hb2
    obtain ⟨h1, h2, h3⟩ := loadCell_flags x y ‹List Char›[x]? b2
    exact ⟨h1.trans hb2.1, h2.trans hb2.2.1, h3.trans hb2.2.2⟩
  · exact hb

theorem loadLevel_consistent (e0 : GameEngine) (layout : Layout) (e : GameEngine)
    (h : loadLevel e0 layout = Except.ok e) : Consistent e := by
  unfold loadLevel at h
  split at h
  · cases h
  · injection h with h
    subst h
    have hf := loadRows_flags (List.length ‹List Char›) (List.length (‹List Char› :: ‹List (List Char)›))
      (‹List Char› :: ‹List (List Char)›) (getInitialState, 0)
    simp only [Consistent, hf.1, hf.2.1]
    simp [getInitialState]

/-- On every engine reachable from `loadLevel`, `isGameOver` is set exactly
when the status is terminal. -/
theorem reachable_consistent (e : GameEngine) (h : Reachable e) : Consistent e := by
  induction h with
  | load e0 layout e hl => exact loadLevel_consistent e0 layout e hl
  | move e dx dy _ ih => exact movePlayer_consistent e dx dy ih

/-- On a reachable engine the status `'playing'` means the game is in progress. -/
theorem reachable_playing_inProgress (e : GameEngine) (h : Reachable e)
    (hs : e.state.status = Status.playing) : InProgress e := by
  refine ⟨hs, ?_⟩
  have hc := reachable_consistent e h
  cases hg : e.state.isGameOver
  · rfl
  · exact absurd hs (hc.1 hg)

/-! ## The branches of `movePlayer` -/

theorem movePlayer_over (e : GameEngine) (dx dy : Int) (hg : e.state.isGameOver = true) :
    movePlayer e dx dy = (e, { moved := false, status := e.state.status, trapEvents := none }) := by
  simp [movePlayer, hg]

theorem movePlayer_invalid (e : GameEngine) (dx dy : Int)
    (hv : isValidMove e (e.state.player.x + dx) (e.state.player.y + dy) = false) :
    movePlayer e dx dy = (e, { moved := false, status := e.state.status, trapEvents := none }) := by
  simp [movePlayer, hv]

theorem movePlayer_onZombie (e : GameEngine) (dx dy : Int) (hg : e.state.isGameOver = false)
    (hv : isValidMove e (e.state.player.x + dx) (e.state.player.y + dy) = true)
    (hz : isZombieAt e (e.state.player.x + dx) (e.state.player.y + dy) none = true) :
    movePlayer e dx dy =
      gameOver (commitMove e (e.state.player.x + dx) (e.state.player.y + dy)) false := by
  have hz2 : isZombieAt (commitMove e (e.state.player.x + dx) (e.state.player.y + dy))
      (e.state.player.x + dx) (e.state.player.y + dy) none = true := hz
  simp [movePlayer, hg, hv, hz2]

theorem movePlayer_onExit (e : GameEngine) (dx dy : Int) (hg : e.state.isGameOver = false)
    (hv : isValidMove e (e.state.player.x + dx) (e.state.player.y + dy) = true)
    (hz : isZombieAt e (e.state.player.x + dx) (e.state.player.y + dy) none = false)
    (hx : e.state.player.x + dx = e.state.exit.x ∧ e.state.player.y + dy = e.state.exit.y) :
    movePlayer e dx dy =
      gameOver (commitMove e (e.state.player.x + dx) (e.state.player.y + dy)) true := by
  have hz2 : isZombieAt (commitMove e (e.state.player.x + dx) (e.state.player.y + dy))
      (e.state.player.x + dx) (e.state.player.y + dy) none = false := hz
  have hx2 : (commitMove e (e.state.player.x + dx) (e.state.player.y + dy)).state.player.x =
      (commitMove e (e.state.player.x + dx) (e.state.player.y + dy)).state.exit.x ∧
      (commitMove e (e.state.player.x + dx) (e.state.player.y + dy)).state.player.y =
      (commitMove e (e.state.player.x + dx) (e.state.player.y + dy)).state.exit.y := hx
  simp only [movePlayer, hg, hv, hz2]
  simp [hx2]

theorem movePlayer_pursuit (e : GameEngine) (dx dy : Int) (hg : e.state.isGameOver = false)
    (hv : isValidMove e (e.state.player.x + dx) (e.state.player.y + dy) = true)
    (hz : isZombieAt e (e.state.player.x + dx) (e.state.player.y + dy) none = false)
    (hx : ¬ (e.state.player.x + dx = e.state.exit.x ∧ e.state.player.y + dy = e.state.exit.y)) :
    movePlayer e dx dy =
      if checkLoss (processZombieTurn
          (commitMove e (e.state.player.x + dx) (e.state.player.y + dy))).1 = true then
        gameOver (processZombieTurn
          (commitMove e (e.state.player.x + dx) (e.state.player.y + dy))).1 false
      else
        ((processZombieTurn (commitMove e (e.state.player.x + dx) (e.state.player.y + dy))).1,
         { moved := true
           status := (processZombieTurn
             (commitMove e (e.state.player.x + dx) (e.state.player.y + dy))).1.state.status
           trapEvents := some (processZombieTurn
             (commitMove e (e.state.player.x + dx) (e.state.player.y + dy))).2 }) := by
  have hz2 : isZombieAt (commitMove e (e.state.player.x + dx) (e.state.player.y + dy))
      (e.state.player.x + dx) (e.state.player.y + dy) none = false := hz
  have hx2 : ¬ ((commitMove e (e.state.player.x + dx) (e.state.player.y + dy)).state.player.x =
      (commitMove e (e.state.player.x + dx) (e.state.player.y + dy)).state.exit.x ∧
      (commitMove e (e.state.player.x + dx) (e.state.player.y + dy)).state.player.y =
      (commitMove e (e.state.player.x + dx) (e.state.player.y + dy)).state.exit.y) := hx
  simp only [movePlayer, hg, hv, hz2]
  simp only [hx2]
  simp

/-! ## Terminal states and rejected moves -/

/-- C1: on an engine reachable from `loadLevel` by `movePlayer` calls whose
status is `'won'` or `'lost'`, `movePlayer(dx, dy)` returns
`{moved: false, status: <current>}` and leaves the whole engine (turn, agent,
pursuers, status) as it was, for every intent. -/
theorem movePlayer_terminal_noop (e : GameEngine) (hr : Reachable e)
    (ht : e.state.status = Status.won ∨ e.state.status = Status.lost) (dx dy : Int) :
    (movePlayer e dx dy).2 = { moved := false, status := e.state.status, trapEvents := none } ∧
    (movePlayer e dx dy).1.state.turn = e.state.turn ∧
    (movePlayer e dx dy).1.state.player = e.state.player ∧
    (movePlayer e dx dy).1.state.zombies = e.state.zombies ∧
    (movePlayer e dx dy).1.state.status = e.state.status ∧
    (movePlayer e dx dy).1 = e := by
  have hc := reachable_consistent e hr
  have hg : e.state.isGameOver = true := by
    apply hc.2
    rcases ht with h | h <;> rw [h] <;> decide
  rw [movePlayer_over e dx dy hg]
  exact ⟨rfl, rfl, rfl, rfl, rfl, rfl⟩

/-- C2: when the status is `'playing'` and the target cell is outside the grid
or is a wall, `movePlayer` returns `{moved: false, status: 'playing'}` and
leaves turn, agent and pursuers (the whole engine) as they were. -/
theorem movePlayer_rejected_noop (e : GameEngine) (hs : e.state.status = Status.playing)
    (dx dy : Int)
    (hbad : ¬ InBounds e (e.state.player.x + dx) (e.state.player.y + dy) ∨
      WallAt e (e.state.player.x + dx) (e.state.player.y + dy)) :
    (movePlayer e dx dy).2 = { moved := false, status := Status.playing, trapEvents := none } ∧
    (movePlayer e dx dy).1.state.turn = e.state.turn ∧
    (movePlayer e dx dy).1.state.player = e.state.player ∧
    (movePlayer e dx dy).1.state.zombies = e.state.zombies ∧
    (movePlayer e dx dy).1 = e := by
  have hv : isValidMove e (e.state.player.x + dx) (e.state.player.y + dy) = false := by
    cases h : isValidMove e (e.state.player.x + dx) (e.state.player.y + dy)
    · rfl
    · have h2 := (isValidMove_iff e _ _).1 h
      rcases hbad with hb | hb
      · exact absurd h2.1 hb
      · exact absurd hb h2.2
  rw [movePlayer_invalid e dx dy hv, hs]
  exact ⟨rfl, rfl, rfl, rfl, rfl⟩

/-- Witness of C1: after `["PZE"]` and one step onto the pursuer the game is lost,
and a further move request changes nothing. -/
theorem movePlayer_terminal_noop_witness :
    Reachable (movePlayer (loaded ["PZE"]) 1 0).1 ∧
    ((movePlayer (loaded ["PZE"]) 1 0).1.state.status = Status.won ∨
      (movePlayer (loaded ["PZE"]) 1 0).1.state.status = Status.lost) ∧
    (movePlayer (movePlayer (loaded ["PZE"]) 1 0).1 1 0).2 =
      { moved := false, status := Status.lost, trapEvents := none } ∧
    (movePlayer (movePlayer (loaded ["PZE"]) 1 0).1 1 0).1 = (movePlayer (loaded ["PZE"]) 1 0).1 :=
  ⟨Reachable.move _ 1 0 (Reachable.load fresh (layoutOf ["PZE"]) _ rfl),
   Or.inr (by decide),
   (movePlayer_terminal_noop (movePlayer (loaded ["PZE"]) 1 0).1
      (Reachable.move _ 1 0 (Reachable.load fresh (layoutOf ["PZE"]) _ rfl))
      (Or.inr (by decide)) 1 0).1,
   (movePlayer_terminal_noop (movePlayer (loaded ["PZE"]) 1 0).1
      (Reachable.move _ 1 0 (Reachable.load fresh (layoutOf ["PZE"]) _ rfl))
      (Or.inr (by decide)) 1 0).2.2.2.2.2⟩

/-- Witness of C2: in `["P#", ".."]` a step to the right hits a wall. -/
theorem movePlayer_rejected_noop_witness :
    (loaded ["P#", ".."]).state.status = Status.playing ∧
    WallAt (loaded ["P#", ".."]) ((loaded ["P#", ".."]).state.player.x + 1)
      ((loaded ["P#", ".."]).state.player.y + 0) ∧
    (movePlayer (loaded ["P#", ".."]) 1 0).2 =
      { moved := false, status := Status.playing, trapEvents := none } ∧
    (movePlayer (loaded ["P#", ".."]) 1 0).1 = loaded ["P#", ".."] :=
  ⟨by decide, by decide,
   (movePlayer_rejected_noop (loaded ["P#", ".."]) (by decide) 1 0 (Or.inr (by decide))).1,
   (movePlayer_rejected_noop (loaded ["P#", ".."]) (by decide) 1 0 (Or.inr (by decide))).2.2.2.2⟩

/-! ## Capture and escape on the agent's own step -/

/-- C3: in progress, a step onto an in-bounds, non-wall cell that holds a
pursuer returns `{moved: true, status: 'lost'}`, sets the status to `'lost'`,
puts the agent on the target, adds exactly 1 to `turn` and moves no pursuer;
nothing is assumed about the exit, so this holds when the target is the exit. -/
theorem movePlayer_onto_pursuer (e : GameEngine) (hp : InProgress e) (dx dy : Int)
    (hb : InBounds e (e.state.player.x + dx) (e.state.player.y + dy))
    (hw : ¬ WallAt e (e.state.player.x + dx) (e.state.player.y + dy))
    (hz : PursuerAt e (e.state.player.x + dx) (e.state.player.y + dy)) :
    (movePlayer e dx dy).2 = { moved := true, status := Status.lost, trapEvents := none } ∧
    (movePlayer e dx dy).1.state.status = Status.lost ∧
    (movePlayer e dx dy).1.state.player =
      { x := e.state.player.x + dx, y := e.state.player.y + dy } ∧
    (movePlayer e dx dy).1.state.turn = e.state.turn + 1 ∧
    (movePlayer e dx dy).1.state.zombies = e.state.zombies := by
  have hv := (isValidMove_iff e _ _).2 ⟨hb, hw⟩
  have hz2 := (isZombieAt_none_iff e _ _).2 hz
  rw [movePlayer_onZombie e dx dy hp.2 hv hz2]
  exact ⟨rfl, rfl, rfl, rfl, rfl⟩

/-- Witness of C3: in `["ZP"]` the exit is the default cell `(0, 0)`, where the
pursuer stands; stepping left onto it is a capture, not an escape. -/
theorem movePlayer_onto_pursuer_witness :
    InProgress (loaded ["ZP"]) ∧
    (loaded ["ZP"]).state.exit = { x := (loaded ["ZP"]).state.player.x + -1,
                                   y := (loaded ["ZP"]).state.player.y + 0 } ∧
    (movePlayer (loaded ["ZP"]) (-1) 0).2 =
      { moved := true, status := Status.lost, trapEvents := none } ∧
    (movePlayer (loaded ["ZP"]) (-1) 0).1.state.status = Status.lost ∧
    (movePlayer (loaded ["ZP"]) (-1) 0).1.state.player =
      { x := (loaded ["ZP"]).state.player.x + -1, y := (loaded ["ZP"]).state.player.y + 0 } ∧
    (movePlayer (loaded ["ZP"]) (-1) 0).1.state.turn = (loaded ["ZP"]).state.turn + 1 ∧
    (movePlayer (loaded ["ZP"]) (-1) 0).1.state.zombies = (loaded ["ZP"]).state.zombies :=
  ⟨by decide, by decide,
   movePlayer_onto_pursuer (loaded ["ZP"]) (by decide) (-1) 0 (by decide) (by decide) (by decide)⟩

/-- The status after `movePlayer` on the pursuit branch is never `'won'`. -/
theorem pursuit_not_won (e1 : GameEngine) (h1 : e1.state.status ≠ Status.won) :
    (if checkLoss (processZombieTurn e1).1 = true then gameOver (processZombieTurn e1).1 false
     else ((processZombieTurn e1).1,
       ({ moved := true, status := (processZombieTurn e1).1.state.status,
          trapEvents := some (processZombieTurn e1).2 } : MoveResult))).1.state.status
      ≠ Status.won := by
  split
  · simp [gameOver]
  · rcases processZombieTurn_status e1 with h | h
    · simp only [h]; exact h1
    · simp only [h]; decide

/-- C4: in progress, the status after `movePlayer` is `'won'` exactly when the
target cell is in bounds, not a wall, equal to the exit and free of pursuers;
then the result is `{moved: true, status: 'won'}`, `turn` grows by exactly 1
and no pursuer moves.  The pursuer phase never yields `'won'`. -/
theorem movePlayer_won_iff (e : GameEngine) (hp : InProgress e) (dx dy : Int) :
    ((movePlayer e dx dy).1.state.status = Status.won ↔
      (InBounds e (e.state.player.x + dx) (e.state.player.y + dy) ∧
       ¬ WallAt e (e.state.player.x + dx) (e.state.player.y + dy) ∧
       (e.state.player.x + dx = e.state.exit.x ∧ e.state.player.y + dy = e.state.exit.y) ∧
       ¬ PursuerAt e (e.state.player.x + dx) (e.state.player.y + dy))) ∧
    ((movePlayer e dx dy).1.state.status = Status.won →
      (movePlayer e dx dy).2 = { moved := true, status := Status.won, trapEvents := none } ∧
      (movePlayer e dx dy).1.state.turn = e.state.turn + 1 ∧
      (movePlayer e dx dy).1.state.zombies = e.state.zombies ∧
      (movePlayer e dx dy).1.state.player =
        { x := e.state.player.x + dx, y := e.state.player.y + dy }) ∧
    (processZombieTurn (commitMove e (e.state.player.x + dx) (e.state.player.y + dy))).1.state.status
      ≠ Status.won := by
  have hnw : (commitMove e (e.state.player.x + dx) (e.state.player.y + dy)).state.status
      ≠ Status.won := by
    show e.state.status ≠ Status.won
    rw [hp.1]; decide
  have h3 : (processZombieTurn
      (commitMove e (e.state.player.x + dx) (e.state.player.y + dy))).1.state.status
      ≠ Status.won := by
    rcases processZombieTurn_status
      (commitMove e (e.state.player.x + dx) (e.state.player.y + dy)) with h | h
    · rw [h]; exact hnw
    · rw [h]; decide
  refine ⟨?_, ?_, h3⟩
  · cases hv : isValidMove e (e.state.player.x + dx) (e.state.player.y + dy) with
    | false =>
      rw [movePlayer_invalid e dx dy hv]
      constructor
      · intro h; rw [hp.1] at h; cases h
      · rintro ⟨hb, hw, -, -⟩
        rw [(isValidMove_iff e _ _).2 ⟨hb, hw⟩] at hv
        cases hv
    | true =>
      have hbw := (isValidMove_iff e _ _).1 hv
      cases hz : isZombieAt e (e.state.player.x + dx) (e.state.player.y + dy) none with
      | true =>
        rw [movePlayer_onZombie e dx dy hp.2 hv hz]
        constructor
        · intro h; cases h
        · rintro ⟨-, -, -, hn⟩
          exact absurd ((isZombieAt_none_iff e _ _).1 hz) hn
      | false =>
        have hnz : ¬ PursuerAt e (e.state.player.x + dx) (e.state.player.y + dy) := by
          intro h
          rw [(isZombieAt_none_iff e _ _).2 h] at hz
          cases hz
        by_cases hx : e.state.player.x + dx = e.state.exit.x ∧
            e.state.player.y + dy = e.state.exit.y
        · rw [movePlayer_onExit e dx dy hp.2 hv hz hx]
          constructor
          · intro _; exact ⟨hbw.1, hbw.2, hx, hnz⟩
          · intro _; rfl
        · rw [movePlayer_pursuit e dx dy hp.2 hv hz hx]
          constructor
          · intro h; exact absurd h (pursuit_not_won _ hnw)
          · rintro ⟨-, -, hx2, -⟩; exact absurd hx2 hx
  · intro hwon
    cases hv : isValidMove e (e.state.player.x + dx) (e.state.player.y + dy) with
    | false =>
      rw [movePlayer_invalid e dx dy hv] at hwon
      rw [hp.1] at hwon; cases hwon
    | true =>
      cases hz : isZombieAt e (e.state.player.x + dx) (e.state.player.y + dy) none with
      | true =>
        rw [movePlayer_onZombie e dx dy hp.2 hv hz] at hwon
        cases hwon
      | false =>
        by_cases hx : e.state.player.x + dx = e.state.exit.x ∧
            e.state.player.y + dy = e.state.exit.y
        · rw [movePlayer_onExit e dx dy hp.2 hv hz hx]
          exact ⟨rfl, rfl, rfl, rfl⟩
        · rw [movePlayer_pursuit e dx dy hp.2 hv hz hx] at hwon
          exact absurd hwon (pursuit_not_won _ hnw)

/-- Witness of C4: the second step of scenario `["P.E"]` reaches the exit. -/
theorem movePlayer_won_iff_witness :
    InProgress (movePlayer (loaded ["P.E"]) 1 0).1 ∧
    (movePlayer (loaded ["P.E"]) 1 0).2 =
      { moved := true, status := Status.playing, trapEvents := some 0 } ∧
    (movePlayer (movePlayer (loaded ["P.E"]) 1 0).1 1 0).2 =
      { moved := true, status := Status.won, trapEvents := none } ∧
    (movePlayer (movePlayer (loaded ["P.E"]) 1 0).1 1 0).1.state.turn = 2 :=
  ⟨by decide, by decide,
   ((movePlayer_won_iff (movePlayer (loaded ["P.E"]) 1 0).1 (by decide) 1 0).2.1 (by decide)).1,
   ((movePlayer_won_iff (movePlayer (loaded ["P.E"]) 1 0).1 (by decide) 1 0).2.1 (by decide)).2.1⟩

/-! ## The pursuer phase: at most two sub-steps, stopping at the first capture -/

theorem moveZombiesSingleStep_isGameOver (e : GameEngine) :
    (moveZombiesSingleStep e).1.state.isGameOver = e.state.isGameOver := by
  rw [moveZombiesSingleStep_frame e]; rfl

theorem moveZombiesSingleStep_status (e : GameEngine) :
    (moveZombiesSingleStep e).1.state.status = e.state.status := by
  rw [moveZombiesSingleStep_frame e]; rfl

theorem checkLoss_gameOver (e : GameEngine) (win : Bool) :
    checkLoss (gameOver e win).1 = checkLoss e := rfl

/-- The pursuer phase when the first sub-step ends in a capture. -/
theorem processZombieTurn_caught_first (e : GameEngine) (hg : e.state.isGameOver = false)
    (hl : checkLoss (moveZombiesSingleStep e).1 = true) :
    processZombieTurn e =
      ((gameOver (moveZombiesSingleStep e).1 false).1, 0 + (moveZombiesSingleStep e).2) :=
  processZombieLoop_caught 1 e 0 hg hl

/-- The pursuer phase when the first sub-step does not capture, the second does. -/
theorem processZombieTurn_caught_second (e : GameEngine) (hg : e.state.isGameOver = false)
    (hl : checkLoss (moveZombiesSingleStep e).1 = false)
    (hl2 : checkLoss (moveZombiesSingleStep (moveZombiesSingleStep e).1).1 = true) :
    processZombieTurn e =
      ((gameOver (moveZombiesSingleStep (moveZombiesSingleStep e).1).1 false).1,
       0 + (moveZombiesSingleStep e).2 + (moveZombiesSingleStep (moveZombiesSingleStep e).1).2) := by
  have hg1 : (moveZombiesSingleStep e).1.state.isGameOver = false := by
    rw [moveZombiesSingleStep_isGameOver]; exact hg
  show processZombieLoop 2 e 0 = _
  rw [processZombieLoop_continue 1 e 0 hg hl, processZombieLoop_caught 0 _ _ hg1 hl2]

/-- The pursuer phase when neither sub-step captures. -/
theorem processZombieTurn_free (e : GameEngine) (hg : e.state.isGameOver = false)
    (hl : checkLoss (moveZombiesSingleStep e).1 = false)
    (hl2 : checkLoss (moveZombiesSingleStep (moveZombiesSingleStep e).1).1 = false) :
    processZombieTurn e =
      ((moveZombiesSingleStep (moveZombiesSingleStep e).1).1,
       0 + (moveZombiesSingleStep e).2 + (moveZombiesSingleStep (moveZombiesSingleStep e).1).2) := by
  have hg1 : (moveZombiesSingleStep e).1.state.isGameOver = false := by
    rw [moveZombiesSingleStep_isGameOver]; exact hg
  show processZombieLoop 2 e 0 = _
  rw [processZombieLoop_continue 1 e 0 hg hl, processZombieLoop_continue 0 _ _ hg1 hl2]
  rfl

/-- C5: on an accepted move whose target holds no pursuer and is not the exit,
the pursuer phase runs at most `K = 2` sub-steps and stops at the first capture:
if a pursuer is on the agent's cell after the first sub-step, the pursuers end
where one sub-step puts them and the status is `'lost'`; otherwise they end
where two sub-steps put them, and the status is `'lost'` if a pursuer is then
on the agent's cell and `'playing'` if none is. -/
theorem movePlayer_pursuit_substeps (e : GameEngine) (hp : InProgress e) (dx dy : Int)
    (hb : InBounds e (e.state.player.x + dx) (e.state.player.y + dy))
    (hw : ¬ WallAt e (e.state.player.x + dx) (e.state.player.y + dy))
    (hz : ¬ PursuerAt e (e.state.player.x + dx) (e.state.player.y + dy))
    (hx : ¬ (e.state.player.x + dx = e.state.exit.x ∧ e.state.player.y + dy = e.state.exit.y)) :
    CONFIG.zombieMoveSpeed = 2 ∧
    (Caught (subSteps 1 (commitMove e (e.state.player.x + dx) (e.state.player.y + dy))) →
      (movePlayer e dx dy).1.state.zombies =
        (subSteps 1 (commitMove e (e.state.player.x + dx) (e.state.player.y + dy))).state.zombies ∧
      (movePlayer e dx dy).1.state.status = Status.lost ∧
      (movePlayer e dx dy).2.status = Status.lost) ∧
    (¬ Caught (subSteps 1 (commitMove e (e.state.player.x + dx) (e.state.player.y + dy))) →
      (movePlayer e dx dy).1.state.zombies =
        (subSteps 2 (commitMove e (e.state.player.x + dx) (e.state.player.y + dy))).state.zombies ∧
      (Caught (subSteps 2 (commitMove e (e.state.player.x + dx) (e.state.player.y + dy))) →
        (movePlayer e dx dy).1.state.status = Status.lost ∧
        (movePlayer e dx dy).2.status = Status.lost) ∧
      (¬ Caught (subSteps 2 (commitMove e (e.state.player.x + dx) (e.state.player.y + dy))) →
        (movePlayer e dx dy).1.state.status = Status.playing ∧
        (movePlayer e dx dy).2.status = Status.playing)) := by
  have hv := (isValidMove_iff e _ _).2 ⟨hb, hw⟩
  have hz2 : isZombieAt e (e.state.player.x + dx) (e.state.player.y + dy) none = false := by
    cases h : isZombieAt e (e.state.player.x + dx) (e.state.player.y + dy) none
    · rfl
    · exact absurd ((isZombieAt_none_iff e _ _).1 h) hz
  have hg : (commitMove e (e.state.player.x + dx) (e.state.player.y + dy)).state.isGameOver
      = false := hp.2
  have hst : (commitMove e (e.state.player.x + dx) (e.state.player.y + dy)).state.status
      = Status.playing := hp.1
  rw [movePlayer_pursuit e dx dy hp.2 hv hz2 hx]
  generalize commitMove e (e.state.player.x + dx) (e.state.player.y + dy) = e1 at hg hst ⊢
  refine ⟨rfl, ?_, ?_⟩
  · intro hc
    have hl : checkLoss (moveZombiesSingleStep e1).1 = true := (checkLoss_iff _).2 hc
    rw [processZombieTurn_caught_first e1 hg hl]
    simp only [checkLoss_gameOver, hl, if_true]
    exact ⟨rfl, rfl, rfl⟩
  · intro hc
    have hl : checkLoss (moveZombiesSingleStep e1).1 = false := by
      cases h : checkLoss (moveZombiesSingleStep e1).1
      · rfl
      · exact absurd ((checkLoss_iff _).1 h) hc
    refine ⟨?_, ?_, ?_⟩
    · cases hl2 : checkLoss (moveZombiesSingleStep (moveZombiesSingleStep e1).1).1
      · rw [processZombieTurn_free e1 hg hl hl2]
        simp only [hl2]
        rfl
      · rw [processZombieTurn_caught_second e1 hg hl hl2]
        simp only [checkLoss_gameOver, hl2, if_true]
        rfl
    · intro hc2
      have hl2 : checkLoss (moveZombiesSingleStep (moveZombiesSingleStep e1).1).1 = true :=
        (checkLoss_iff _).2 hc2
      rw [processZombieTurn_caught_second e1 hg hl hl2]
      simp only [checkLoss_gameOver, hl2, if_true]
      exact ⟨rfl, rfl⟩
    · intro hc2
      have hl2 : checkLoss (moveZombiesSingleStep (moveZombiesSingleStep e1).1).1 = false := by
        cases h : checkLoss (moveZombiesSingleStep (moveZombiesSingleStep e1).1).1
        · rfl
        · exact absurd ((checkLoss_iff _).1 h) hc2
      rw [processZombieTurn_free e1 hg hl hl2]
      simp only [hl2]
      have h2 : (moveZombiesSingleStep (moveZombiesSingleStep e1).1).1.state.status
          = Status.playing := by
        rw [moveZombiesSingleStep_status, moveZombiesSingleStep_status]; exact hst
      exact ⟨h2, h2⟩

/-- Witness of C5: in `["P.Z"]` the agent steps right and the pursuer reaches it
in the first sub-step; the second sub-step is not run. -/
theorem movePlayer_pursuit_substeps_witness :
    InProgress (loaded ["P.Z"]) ∧
    Caught (subSteps 1 (commitMove (loaded ["P.Z"]) ((loaded ["P.Z"]).state.player.x + 1)
      ((loaded ["P.Z"]).state.player.y + 0))) ∧
    (movePlayer (loaded ["P.Z"]) 1 0).1.state.zombies =
      (subSteps 1 (commitMove (loaded ["P.Z"]) ((loaded ["P.Z"]).state.player.x + 1)
        ((loaded ["P.Z"]).state.player.y + 0))).state.zombies ∧
    (movePlayer (loaded ["P.Z"]) 1 0).1.state.status = Status.lost ∧
    (movePlayer (loaded ["P.Z"]) 1 0).2.status = Status.lost :=
  ⟨by decide, by decide,
   (movePlayer_pursuit_substeps (loaded ["P.Z"]) (by decide) 1 0 (by decide) (by decide)
      (by decide) (by decide)).2.1 (by decide)⟩

/-! ## Inside one sub-step: pursuers are handled in list order on the live engine -/

theorem subStepUpTo_succ (e : GameEngine) (k : Nat) :
    subStepUpTo e (k + 1) = zombieStep (subStepUpTo e k) k := by
  unfold subStepUpTo
  rw [List.range_succ, List.foldl_append]
  rfl

theorem subStepUpTo_player (e : GameEngine) (k : Nat) :
    (subStepUpTo e k).1.state.player = e.state.player := by
  rw [subStepUpTo_frame e k]; rfl

theorem primaryMove_live (e : GameEngine) (k : Nat) (z : Zombie) :
    primaryMove (subStepUpTo e k).1 z = primaryMove e z := by
  unfold primaryMove
  rw [subStepUpTo_player]

theorem secondaryMove_live (e : GameEngine) (k : Nat) (z : Zombie) :
    secondaryMove (subStepUpTo e k).1 z = secondaryMove e z := by
  unfold secondaryMove
  rw [subStepUpTo_player]

/-- The callback for index `i` leaves every other pursuer alone. -/
theorem zombieStep_get_ne (acc : GameEngine × Nat) (i j : Nat) (hij : i ≠ j) :
    (zombieStep acc i).1.state.zombies[j]? = acc.1.state.zombies[j]? := by
  cases hz : acc.1.state.zombies[i]? with
  | none => rw [zombieStep_none acc i hz]
  | some z =>
    rcases zombieStep_cases acc i z hz with h | ⟨m, h⟩
    · rw [h]
    · rw [h]
      show (acc.1.state.zombies.set i (moved z m))[j]? = _
      exact List.getElem?_set_ne hij

/-- A pursuer not yet handled is still where it was at the start of the sub-step. -/
theorem subStepUpTo_get_ge (e : GameEngine) (k j : Nat) (hkj : k ≤ j) :
    (subStepUpTo e k).1.state.zombies[j]? = e.state.zombies[j]? := by
  induction k with
  | zero => rfl
  | succ k ih =>
    rw [subStepUpTo_succ, zombieStep_get_ne _ k j (by omega)]
    exact ih (by omega)

/-- A pursuer already handled stays where its own callback left it. -/
theorem subStepUpTo_get_lt (e : GameEngine) (i k : Nat) (hik : i < k) :
    (subStepUpTo e k).1.state.zombies[i]? = (subStepUpTo e (i + 1)).1.state.zombies[i]? := by
  induction k with
  | zero => omega
  | succ k ih =>
    by_cases h : i = k
    · subst h; rfl
    · rw [subStepUpTo_succ, zombieStep_get_ne _ k i (by omega)]
      exact ih (by omega)

theorem zombieStep_length (acc : GameEngine × Nat) (i : Nat) :
    (zombieStep acc i).1.state.zombies.length = acc.1.state.zombies.length := by
  cases hz : acc.1.state.zombies[i]? with
  | none => rw [zombieStep_none acc i hz]
  | some z =>
    rcases zombieStep_cases acc i z hz with h | ⟨m, h⟩
    · rw [h]
    · rw [h]
      show (acc.1.state.zombies.set i (moved z m)).length = _
      exact List.length_set _ _ _

theorem subStepUpTo_length (e : GameEngine) (k : Nat) :
    (subStepUpTo e k).1.state.zombies.length = e.state.zombies.length := by
  induction k with
  | zero => rfl
  | succ k ih => rw [subStepUpTo_succ, zombieStep_length, ih]

/-- The position of pursuer `i` after the whole sub-step is the one its own
callback gave it. -/
theorem moveZombiesSingleStep_get (e : GameEngine) (i : Nat) (z : Zombie)
    (hz : e.state.zombies[i]? = some z) :
    (moveZombiesSingleStep e).1.state.zombies[i]? =
      (zombieStep (subStepUpTo e i) i).1.state.zombies[i]? := by
  have hi : i < e.state.zombies.length := by
    rcases List.getElem?_eq_some.1 hz with ⟨h, -⟩
    exact h
  unfold moveZombiesSingleStep
  rw [subStepUpTo_get_lt e i _ hi, subStepUpTo_succ]

/-- Pursuer `i` is still at its starting position when its callback runs. -/
theorem live_get_self (e : GameEngine) (i : Nat) :
    (subStepUpTo e i).1.state.zombies[i]? = e.state.zombies[i]? :=
  subStepUpTo_get_ge e i i (le_refl i)

theorem getElem?_set_self_of_some {α : Type} (l : List α) (i : Nat) (a b : α)
    (h : l[i]? = some a) : (l.set i b)[i]? = some b := by
  have hi : i < l.length := by
    rcases List.getElem?_eq_some.1 h with ⟨h, -⟩
    exact h
  rw [List.getElem?_set_self hi]

/-! ## The greedy choice of one pursuer -/

/-- C6: a pursuer at `(zx, zy)` with `|dx| ≤ |dy|` and `dy ≠ 0` (ties included)
whose vertical cell `(zx, zy + sign dy)` passes `canZombieMoveTo` on the live
engine when it is handled ends the sub-step on that vertical cell, which is
not the horizontal candidate `(zx + sign dx, zy)`. -/
theorem substep_prefers_vertical (e : GameEngine) (i : Nat) (z : Zombie)
    (hz : e.state.zombies[i]? = some z)
    (habs : (e.state.player.x - z.x).natAbs ≤ (e.state.player.y - z.y).natAbs)
    (hdy : e.state.player.y - z.y ≠ 0)
    (hcan : canZombieMoveTo (subStepUpTo e i).1 z.x
      (z.y + Int.sign (e.state.player.y - z.y)) z.id = true) :
    (moveZombiesSingleStep e).1.state.zombies[i]? =
      some { x := z.x, y := z.y + Int.sign (e.state.player.y - z.y), id := z.id } ∧
    ({ x := z.x, y := z.y + Int.sign (e.state.player.y - z.y) } : Pos) ≠
      { x := z.x + Int.sign (e.state.player.x - z.x), y := z.y } := by
  have hlive : (subStepUpTo e i).1.state.zombies[i]? = some z := (live_get_self e i).trans hz
  have hprim : primaryMove (subStepUpTo e i).1 z =
      { x := 0, y := Int.sign (e.state.player.y - z.y) } := by
    rw [primaryMove_live]
    have : ¬ (e.state.player.x - z.x).natAbs > (e.state.player.y - z.y).natAbs := by omega
    simp [primaryMove, this]
  have hc : canZombieMoveTo (subStepUpTo e i).1 (z.x + (primaryMove (subStepUpTo e i).1 z).x)
      (z.y + (primaryMove (subStepUpTo e i).1 z).y) z.id = true := by
    rw [hprim]; simpa using hcan
  constructor
  · rw [moveZombiesSingleStep_get e i z hz, zombieStep_primary _ i z hlive hc]
    show ((subStepUpTo e i).1.state.zombies.set i _)[i]? = _
    rw [getElem?_set_self_of_some _ _ _ _ hlive, hprim]
    simp [moved]
  · intro h
    have hy : z.y + Int.sign (e.state.player.y - z.y) = z.y := congrArg Pos.y h
    have h0 : Int.sign (e.state.player.y - z.y) = 0 := by omega
    exact hdy (Int.sign_eq_zero_iff_zero.1 h0)

/-- Witness of C6: agent at `(2, 2)`, single pursuer at `(0, 0)` on an open
3 by 3 grid: the tie `dx = dy = 2` is resolved to `(0, 1)`, not `(1, 0)`. -/
theorem substep_prefers_vertical_witness :
    (loaded ["Z..", "...", "..P"]).state.zombies[0]? = some { x := 0, y := 0, id := 0 } ∧
    (loaded ["Z..", "...", "..P"]).state.player = { x := 2, y := 2 } ∧
    (moveZombiesSingleStep (loaded ["Z..", "...", "..P"])).1.state.zombies[0]? =
      some { x := 0, y := 0 + Int.sign ((loaded ["Z..", "...", "..P"]).state.player.y - 0),
             id := 0 } ∧
    (moveZombiesSingleStep (loaded ["Z..", "...", "..P"])).1.state.zombies =
      [{ x := 0, y := 1, id := 0 }] :=
  ⟨by decide, by decide,
   (substep_prefers_vertical (loaded ["Z..", "...", "..P"]) 0 { x := 0, y := 0, id := 0 }
      (by decide) (by decide) (by decide) (by decide)).1,
   by decide⟩

/-- C7: a pursuer at `(zx, zy)` with `|dx| > |dy|` whose horizontal cell
`(zx + sign dx, zy)` passes `canZombieMoveTo` on the live engine when it is
handled ends the sub-step on that horizontal cell, its `y` unchanged. -/
theorem substep_prefers_horizontal (e : GameEngine) (i : Nat) (z : Zombie)
    (hz : e.state.zombies[i]? = some z)
    (habs : (e.state.player.x - z.x).natAbs > (e.state.player.y - z.y).natAbs)
    (hcan : canZombieMoveTo (subStepUpTo e i).1 (z.x + Int.sign (e.state.player.x - z.x))
      z.y z.id = true) :
    (moveZombiesSingleStep e).1.state.zombies[i]? =
      some { x := z.x + Int.sign (e.state.player.x - z.x), y := z.y, id := z.id } := by
  have hlive : (subStepUpTo e i).1.state.zombies[i]? = some z := (live_get_self e i).trans hz
  have hprim : primaryMove (subStepUpTo e i).1 z =
      { x := Int.sign (e.state.player.x - z.x), y := 0 } := by
    rw [primaryMove_live]
    simp [primaryMove, habs]
  have hc : canZombieMoveTo (subStepUpTo e i).1 (z.x + (primaryMove (subStepUpTo e i).1 z).x)
      (z.y + (primaryMove (subStepUpTo e i).1 z).y) z.id = true := by
    rw [hprim]; simpa using hcan
  rw [moveZombiesSingleStep_get e i z hz, zombieStep_primary _ i z hlive hc]
  show ((subStepUpTo e i).1.state.zombies.set i _)[i]? = _
  rw [getElem?_set_self_of_some _ _ _ _ hlive, hprim]
  simp [moved]

/-- Witness of C7: agent at `(0, 1)`, pursuer at `(2, 0)`: `|dx| = 2 > |dy| = 1`,
the pursuer steps left to `(1, 0)`. -/
theorem substep_prefers_horizontal_witness :
    (loaded ["..Z", "P.."]).state.zombies[0]? = some { x := 2, y := 0, id := 0 } ∧
    (moveZombiesSingleStep (loaded ["..Z", "P.."])).1.state.zombies[0]? =
      some { x := 2 + Int.sign ((loaded ["..Z", "P.."]).state.player.x - 2), y := 0, id := 0 } ∧
    (moveZombiesSingleStep (loaded ["..Z", "P.."])).1.state.zombies =
      [{ x := 1, y := 0, id := 0 }] :=
  ⟨by decide,
   substep_prefers_horizontal (loaded ["..Z", "P.."]) 0 { x := 2, y := 0, id := 0 }
      (by decide) (by decide) (by decide),
   by decide⟩

/-! ## Fallback and trapped pursuers -/

theorem secondaryMove_eq_of_minor (e : GameEngine) (z : Zombie) (h : minorDelta e z ≠ 0) :
    secondaryMove e z =
      (if (e.state.player.x - z.x).natAbs > (e.state.player.y - z.y).natAbs then
        { x := 0, y := Int.sign (e.state.player.y - z.y) }
       else { x := Int.sign (e.state.player.x - z.x), y := 0 }) := by
  unfold minorDelta at h
  unfold secondaryMove
  by_cases hc : (e.state.player.x - z.x).natAbs > (e.state.player.y - z.y).natAbs
  · simp only [hc, if_true] at h ⊢
    simp [h]
  · simp only [hc, if_false] at h ⊢
    simp [h]

theorem secondaryMove_ne_zero_of_minor (e : GameEngine) (z : Zombie) (h : minorDelta e z ≠ 0) :
    (secondaryMove e z).x ≠ 0 ∨ (secondaryMove e z).y ≠ 0 := by
  rw [secondaryMove_eq_of_minor e z h]
  unfold minorDelta at h
  by_cases hc : (e.state.player.x - z.x).natAbs > (e.state.player.y - z.y).natAbs
  · simp only [hc, if_true] at h ⊢
    right
    intro h0
    exact h (Int.sign_eq_zero_iff_zero.1 h0)
  · simp only [hc, if_false] at h ⊢
    left
    intro h0
    exact h (Int.sign_eq_zero_iff_zero.1 h0)

/-- What the callback of pursuer `i` does, in terms of `trappedAt`. -/
theorem zombieStep_live_spec (e : GameEngine) (i : Nat) (z : Zombie)
    (hz : e.state.zombies[i]? = some z) :
    (trappedAt e i = true →
      zombieStep (subStepUpTo e i) i = ((subStepUpTo e i).1, (subStepUpTo e i).2 + 1)) ∧
    (trappedAt e i = false →
      ∃ m : Pos, zombieStep (subStepUpTo e i) i =
        (setZombies (subStepUpTo e i).1 ((subStepUpTo e i).1.state.zombies.set i (moved z m)),
         (subStepUpTo e i).2)) := by
  have hlive : (subStepUpTo e i).1.state.zombies[i]? = some z := (live_get_self e i).trans hz
  have hp := primaryMove_live e i z
  have hs := secondaryMove_live e i z
  simp only [trappedAt, hz]
  cases hc : canZombieMoveTo (subStepUpTo e i).1 (z.x + (primaryMove e z).x)
      (z.y + (primaryMove e z).y) z.id with
  | true =>
    constructor
    · intro h; simp at h
    · intro _
      refine ⟨primaryMove (subStepUpTo e i).1 z, zombieStep_primary _ i z hlive ?_⟩
      rw [hp]; exact hc
  | false =>
    by_cases h0 : (secondaryMove e z).x = 0 ∧ (secondaryMove e z).y = 0
    · constructor
      · intro _
        refine zombieStep_trapped _ i z hlive ?_ (Or.inl ?_)
        · rw [hp]; exact hc
        · rw [hs]; exact h0
      · intro h; simp [h0] at h
    · cases hc2 : canZombieMoveTo (subStepUpTo e i).1 (z.x + (secondaryMove e z).x)
          (z.y + (secondaryMove e z).y) z.id with
      | true =>
        constructor
        · intro h; simp [h0] at h
        · intro _
          refine ⟨secondaryMove (subStepUpTo e i).1 z, zombieStep_secondary _ i z hlive ?_ ?_ ?_⟩
          · rw [hp]; exact hc
          · rw [hs]
            by_contra hn
            push_neg at hn
            exact h0 hn
          · rw [hs]; exact hc2
      | false =>
        constructor
        · intro _
          refine zombieStep_trapped _ i z hlive ?_ (Or.inr ?_)
          · rw [hp]; exact hc
          · rw [hs]; exact hc2
        · intro h; simp [h0] at h

/-- C8: a pursuer whose first candidate is refused when it is handled, whose
minor-axis delta is non-zero and whose second candidate passes
`canZombieMoveTo` ends the sub-step on the second candidate cell, one step
along the minor axis toward the agent, and its callback does not count a trap. -/
theorem substep_falls_back (e : GameEngine) (i : Nat) (z : Zombie)
    (hz : e.state.zombies[i]? = some z)
    (hprim : canZombieMoveTo (subStepUpTo e i).1 (z.x + (primaryMove e z).x)
      (z.y + (primaryMove e z).y) z.id = false)
    (hminor : minorDelta e z ≠ 0)
    (hsec : canZombieMoveTo (subStepUpTo e i).1 (z.x + (secondaryMove e z).x)
      (z.y + (secondaryMove e z).y) z.id = true) :
    (moveZombiesSingleStep e).1.state.zombies[i]? =
      some { x := z.x + (secondaryMove e z).x, y := z.y + (secondaryMove e z).y, id := z.id } ∧
    secondaryMove e z =
      (if (e.state.player.x - z.x).natAbs > (e.state.player.y - z.y).natAbs then
        { x := 0, y := Int.sign (e.state.player.y - z.y) }
       else { x := Int.sign (e.state.player.x - z.x), y := 0 }) ∧
    (subStepUpTo e (i + 1)).2 = (subStepUpTo e i).2 ∧
    trappedAt e i = false := by
  have hlive : (subStepUpTo e i).1.state.zombies[i]? = some z := (live_get_self e i).trans hz
  have hp := primaryMove_live e i z
  have hs := secondaryMove_live e i z
  have hstep : zombieStep (subStepUpTo e i) i =
      (setZombies (subStepUpTo e i).1
        ((subStepUpTo e i).1.state.zombies.set i (moved z (secondaryMove e z))),
       (subStepUpTo e i).2) := by
    have h := zombieStep_secondary (subStepUpTo e i) i z hlive (by rw [hp]; exact hprim)
      (by rw [hs]; exact secondaryMove_ne_zero_of_minor e z hminor) (by rw [hs]; exact hsec)
    rw [hs] at h
    exact h
  refine ⟨?_, secondaryMove_eq_of_minor e z hminor, ?_, ?_⟩
  · rw [moveZombiesSingleStep_get e i z hz, hstep]
    show ((subStepUpTo e i).1.state.zombies.set i _)[i]? = _
    rw [getElem?_set_self_of_some _ _ _ _ hlive]
    rfl
  · rw [subStepUpTo_succ, hstep]
  · have hne := secondaryMove_ne_zero_of_minor e z hminor
    have h0 : ¬ ((secondaryMove e z).x = 0 ∧ (secondaryMove e z).y = 0) := by
      rintro ⟨ha, hb⟩
      rcases hne with h | h
      · exact h ha
      · exact h hb
    simp only [trappedAt, hz, hsec, hprim]
    simp [h0]

/-- Witness of C8: agent at `(0, 2)`, pursuer at `(1, 0)` above a wall at
`(1, 1)`: the vertical first candidate is a wall, the pursuer steps left. -/
theorem substep_falls_back_witness :
    (loaded [".Z", ".#", "P."]).state.zombies[0]? = some { x := 1, y := 0, id := 0 } ∧
    primaryMove (loaded [".Z", ".#", "P."]) { x := 1, y := 0, id := 0 } = { x := 0, y := 1 } ∧
    secondaryMove (loaded [".Z", ".#", "P."]) { x := 1, y := 0, id := 0 } = { x := -1, y := 0 } ∧
    (moveZombiesSingleStep (loaded [".Z", ".#", "P."])).1.state.zombies[0]? =
      some { x := 1 + (secondaryMove (loaded [".Z", ".#", "P."]) { x := 1, y := 0, id := 0 }).x,
             y := 0 + (secondaryMove (loaded [".Z", ".#", "P."]) { x := 1, y := 0, id := 0 }).y,
             id := 0 } ∧
    (moveZombiesSingleStep (loaded [".Z", ".#", "P."])) = (setZombies (loaded [".Z", ".#", "P."])
      [{ x := 0, y := 0, id := 0 }], 0) :=
  ⟨by decide, by decide, by decide,
   (substep_falls_back (loaded [".Z", ".#", "P."]) 0 { x := 1, y := 0, id := 0 }
      (by decide) (by decide) (by decide) (by decide)).1,
   by decide⟩

theorem trappedAt_of_none (e : GameEngine) (i : Nat) (hz : e.state.zombies[i]? = none) :
    trappedAt e i = false := by
  simp [trappedAt, hz]

/-- The callback of pursuer `i` adds 1 to `traps` when the pursuer is trapped
and nothing otherwise. -/
theorem zombieStep_live_count (e : GameEngine) (i : Nat) :
    (subStepUpTo e (i + 1)).2 = (subStepUpTo e i).2 + (if trappedAt e i = true then 1 else 0) := by
  rw [subStepUpTo_succ]
  cases hz : e.state.zombies[i]? with
  | none =>
    rw [zombieStep_none _ i ((live_get_self e i).trans hz), trappedAt_of_none e i hz]
    simp
  | some z =>
    cases ht : trappedAt e i with
    | true => rw [(zombieStep_live_spec e i z hz).1 ht]; simp
    | false =>
      obtain ⟨m, h⟩ := (zombieStep_live_spec e i z hz).2 ht
      rw [h]; simp

theorem subStepUpTo_count (e : GameEngine) (k : Nat) :
    (subStepUpTo e k).2 = (List.range k).countP (trappedAt e) := by
  induction k with
  | zero => rfl
  | succ k ih =>
    rw [zombieStep_live_count, ih, List.range_succ, List.countP_append]
    cases ht : trappedAt e k
    · simp [List.countP_cons, ht]
    · simp [List.countP_cons, ht]

/-- C9: a pursuer whose first candidate is refused and whose second is missing
or refused keeps its position and its callback adds exactly 1 to `traps`; a
pursuer that is not trapped adds nothing; `moveZombiesSingleStep` returns the
number of trapped pursuers, and a pursuer whose position changed is not among
them. -/
theorem substep_trapped_count (e : GameEngine) :
    (∀ i z, e.state.zombies[i]? = some z → trappedAt e i = true →
      (moveZombiesSingleStep e).1.state.zombies[i]? = some z ∧
      (subStepUpTo e (i + 1)).2 = (subStepUpTo e i).2 + 1) ∧
    (∀ i, trappedAt e i = false → (subStepUpTo e (i + 1)).2 = (subStepUpTo e i).2) ∧
    (moveZombiesSingleStep e).2 =
      (List.range e.state.zombies.length).countP (trappedAt e) ∧
    (∀ i, (moveZombiesSingleStep e).1.state.zombies[i]? ≠ e.state.zombies[i]? →
      trappedAt e i = false) := by
  have h1 : ∀ i z, e.state.zombies[i]? = some z → trappedAt e i = true →
      (moveZombiesSingleStep e).1.state.zombies[i]? = some z ∧
      (subStepUpTo e (i + 1)).2 = (subStepUpTo e i).2 + 1 := by
    intro i z hz ht
    constructor
    · rw [moveZombiesSingleStep_get e i z hz, (zombieStep_live_spec e i z hz).1 ht]
      exact (live_get_self e i).trans hz
    · rw [zombieStep_live_count, ht]; simp
  refine ⟨h1, ?_, subStepUpTo_count e _, ?_⟩
  · intro i ht
    rw [zombieStep_live_count, ht]; simp
  · intro i hne
    cases ht : trappedAt e i with
    | false => rfl
    | true =>
      exfalso
      cases hz : e.state.zombies[i]? with
      | none => rw [trappedAt_of_none e i hz] at ht; cases ht
      | some z => exact hne (((h1 i z hz ht).1).trans hz.symm)

/-- Witness of C9: the pursuer at `(2, 2)` has walls on both candidate cells
`(2, 1)` and `(1, 2)`; it stays and is counted once. -/
theorem substep_trapped_count_witness :
    trappedAt (loaded ["P..", "..#", ".#Z"]) 0 = true ∧
    (moveZombiesSingleStep (loaded ["P..", "..#", ".#Z"])).1.state.zombies[0]? =
      some { x := 2, y := 2, id := 0 } ∧
    (moveZombiesSingleStep (loaded ["P..", "..#", ".#Z"])).2 = 1 ∧
    (movePlayer (loaded ["P..", "..#", ".#Z"]) 1 0).2 =
      { moved := true, status := Status.playing, trapEvents := some 2 } :=
  ⟨by decide,
   ((substep_trapped_count (loaded ["P..", "..#", ".#Z"])).1 0 { x := 2, y := 2, id := 0 }
      (by decide) (by decide)).1,
   ((substep_trapped_count (loaded ["P..", "..#", ".#Z"])).2.2.1).trans (by decide),
   by decide⟩

/-! ## Two pursuers contesting one cell -/

theorem canZombieMoveTo_iff (e : GameEngine) (x y : Int) (m : Nat) :
    canZombieMoveTo e x y m = true ↔
      InBounds e x y ∧ ¬ WallAt e x y ∧
      ¬ ∃ z ∈ e.state.zombies, z.x = x ∧ z.y = y ∧ z.id ≠ m := by
  unfold canZombieMoveTo InBounds
  rw [← isWall_iff]
  have hz : isZombieAt e x y (some m) = true ↔
      ∃ z ∈ e.state.zombies, z.x = x ∧ z.y = y ∧ z.id ≠ m := by
    simp [isZombieAt, List.any_eq_true, and_assoc]
  rw [← hz]
  by_cases hb : x < 0 ∨ x ≥ e.width ∨ y < 0 ∨ y ≥ e.height
  · simp only [hb, if_true]
    constructor
    · intro h; cases h
    · rintro ⟨h, -⟩; omega
  · simp only [hb, if_false]
    have hb2 : 0 ≤ x ∧ x < e.width ∧ 0 ≤ y ∧ y < e.height := by omega
    cases hw : isWall e x y <;> cases hzz : isZombieAt e x y (some m) <;> simp [hb2]

theorem inBounds_live (e : GameEngine) (k : Nat) (x y : Int) :
    InBounds (subStepUpTo e k).1 x y ↔ InBounds e x y := by
  rw [subStepUpTo_frame]; exact Iff.rfl

theorem wallAt_live (e : GameEngine) (k : Nat) (x y : Int) :
    WallAt (subStepUpTo e k).1 x y ↔ WallAt e x y := by
  rw [subStepUpTo_frame]; exact Iff.rfl

theorem secondaryMove_zero_of_minor (e : GameEngine) (z : Zombie) (h : minorDelta e z = 0) :
    (secondaryMove e z).x = 0 ∧ (secondaryMove e z).y = 0 := by
  unfold minorDelta at h
  unfold secondaryMove
  by_cases hc : (e.state.player.x - z.x).natAbs > (e.state.player.y - z.y).natAbs
  · simp only [hc, if_true] at h ⊢
    simp [h]
  · simp only [hc, if_false] at h ⊢
    simp [h]

/-- The second candidate cell, when there is one, differs from the first. -/
theorem secondary_cell_ne_primary (e : GameEngine) (z : Zombie) (h : minorDelta e z ≠ 0) :
    ¬ (z.x + (secondaryMove e z).x = z.x + (primaryMove e z).x ∧
       z.y + (secondaryMove e z).y = z.y + (primaryMove e z).y) := by
  rw [secondaryMove_eq_of_minor e z h]
  unfold minorDelta at h
  unfold primaryMove
  by_cases hc : (e.state.player.x - z.x).natAbs > (e.state.player.y - z.y).natAbs
  · simp only [hc, if_true] at h ⊢
    rintro ⟨-, hy⟩
    have h0 : Int.sign (e.state.player.y - z.y) = 0 := by omega
    exact h (Int.sign_eq_zero_iff_zero.1 h0)
  · simp only [hc, if_false] at h ⊢
    rintro ⟨hx, -⟩
    have h0 : Int.sign (e.state.player.x - z.x) = 0 := by omega
    exact h (Int.sign_eq_zero_iff_zero.1 h0)

/-- In an id-ordered list a smaller id sits at a smaller index. -/
theorem index_lt_of_id_lt (e : GameEngine) (hord : IdOrdered e) (i j : Nat) (zi zj : Zombie)
    (hzi : e.state.zombies[i]? = some zi) (hzj : e.state.zombies[j]? = some zj)
    (hid : zi.id < zj.id) : i < j := by
  by_contra hnot
  have hji : j ≤ i := by omega
  rcases Nat.lt_or_eq_of_le hji with hlt | heq
  · unfold IdOrdered at hord
    rw [List.pairwise_map] at hord
    rcases List.getElem?_eq_some.1 hzi with ⟨hi, hi2⟩
    rcases List.getElem?_eq_some.1 hzj with ⟨hj, hj2⟩
    have := (List.pairwise_iff_getElem.1 hord) j i hj hi hlt
    rw [hi2, hj2] at this
    omega
  · subst heq
    rw [hzi] at hzj
    injection hzj with h
    subst h
    omega

/-- Where pursuer `i` ends when it falls back on its second candidate. -/
theorem final_of_secondary (e : GameEngine) (i : Nat) (z : Zombie)
    (hz : e.state.zombies[i]? = some z)
    (hprim : canZombieMoveTo (subStepUpTo e i).1 (z.x + (primaryMove e z).x)
      (z.y + (primaryMove e z).y) z.id = false)
    (hminor : minorDelta e z ≠ 0)
    (hsec : canZombieMoveTo (subStepUpTo e i).1 (z.x + (secondaryMove e z).x)
      (z.y + (secondaryMove e z).y) z.id = true) :
    (moveZombiesSingleStep e).1.state.zombies[i]? = some (moved z (secondaryMove e z)) := by
  have hlive : (subStepUpTo e i).1.state.zombies[i]? = some z := (live_get_self e i).trans hz
  have hp := primaryMove_live e i z
  have hs := secondaryMove_live e i z
  have h := zombieStep_secondary (subStepUpTo e i) i z hlive (by rw [hp]; exact hprim)
    (by rw [hs]; exact secondaryMove_ne_zero_of_minor e z hminor) (by rw [hs]; exact hsec)
  rw [hs] at h
  rw [moveZombiesSingleStep_get e i z hz, h]
  show ((subStepUpTo e i).1.state.zombies.set i _)[i]? = _
  rw [getElem?_set_self_of_some _ _ _ _ hlive]

/-- C10: in a sub-step on an id-ordered pursuer list, let two pursuers with
ids `zi.id < zj.id` have the same first candidate cell `c`, in bounds, not a
wall and free of pursuers when the first of them is handled.  Then the
lower-id pursuer ends on `c` and the higher-id one does not: it ends on its
second candidate cell when it has one that passes `canZombieMoveTo`, and
otherwise stays where it was and is counted trapped. -/
theorem substep_contested_cell (e : GameEngine) (hord : IdOrdered e) (i j : Nat)
    (zi zj : Zombie) (c : Pos)
    (hzi : e.state.zombies[i]? = some zi) (hzj : e.state.zombies[j]? = some zj)
    (hid : zi.id < zj.id)
    (hci : zi.x + (primaryMove e zi).x = c.x ∧ zi.y + (primaryMove e zi).y = c.y)
    (hcj : zj.x + (primaryMove e zj).x = c.x ∧ zj.y + (primaryMove e zj).y = c.y)
    (hb : InBounds e c.x c.y) (hw : ¬ WallAt e c.x c.y)
    (hfree : ¬ PursuerAt (subStepUpTo e i).1 c.x c.y) :
    (moveZombiesSingleStep e).1.state.zombies[i]? = some { x := c.x, y := c.y, id := zi.id } ∧
    (∀ z, (moveZombiesSingleStep e).1.state.zombies[j]? = some z → ¬ (z.x = c.x ∧ z.y = c.y)) ∧
    ((minorDelta e zj ≠ 0 ∧
        canZombieMoveTo (subStepUpTo e j).1 (zj.x + (secondaryMove e zj).x)
          (zj.y + (secondaryMove e zj).y) zj.id = true) →
      (moveZombiesSingleStep e).1.state.zombies[j]? =
        some { x := zj.x + (secondaryMove e zj).x, y := zj.y + (secondaryMove e zj).y,
               id := zj.id } ∧
      trappedAt e j = false) ∧
    (¬ (minorDelta e zj ≠ 0 ∧
        canZombieMoveTo (subStepUpTo e j).1 (zj.x + (secondaryMove e zj).x)
          (zj.y + (secondaryMove e zj).y) zj.id = true) →
      (moveZombiesSingleStep e).1.state.zombies[j]? = some zj ∧ trappedAt e j = true) := by
  have hij : i < j := index_lt_of_id_lt e hord i j zi zj hzi hzj hid
  have hlive_i : (subStepUpTo e i).1.state.zombies[i]? = some zi := (live_get_self e i).trans hzi
  -- the lower-id pursuer takes the cell
  have hcan_i : canZombieMoveTo (subStepUpTo e i).1 (zi.x + (primaryMove e zi).x)
      (zi.y + (primaryMove e zi).y) zi.id = true := by
    rw [hci.1, hci.2, canZombieMoveTo_iff]
    refine ⟨(inBounds_live e i _ _).2 hb, fun h => hw ((wallAt_live e i _ _).1 h), ?_⟩
    rintro ⟨z, hz, hx, hy, -⟩
    exact hfree ⟨z, hz, hx, hy⟩
  have hstep_i := zombieStep_primary (subStepUpTo e i) i zi hlive_i
    (by rw [primaryMove_live]; exact hcan_i)
  have hafter : (subStepUpTo e (i + 1)).1.state.zombies[i]? =
      some { x := c.x, y := c.y, id := zi.id } := by
    rw [subStepUpTo_succ, hstep_i]
    show ((subStepUpTo e i).1.state.zombies.set i _)[i]? = _
    rw [getElem?_set_self_of_some _ _ _ _ hlive_i, primaryMove_live]
    simp [moved, hci.1, hci.2]
  have hfinal_i : (moveZombiesSingleStep e).1.state.zombies[i]? =
      some { x := c.x, y := c.y, id := zi.id } := by
    rw [moveZombiesSingleStep_get e i zi hzi, ← subStepUpTo_succ]
    exact hafter
  -- so the cell is taken when the higher-id pursuer is handled
  have hlj : (subStepUpTo e j).1.state.zombies[i]? = some { x := c.x, y := c.y, id := zi.id } :=
    (subStepUpTo_get_lt e i j hij).trans hafter
  have hprim_j : canZombieMoveTo (subStepUpTo e j).1 (zj.x + (primaryMove e zj).x)
      (zj.y + (primaryMove e zj).y) zj.id = false := by
    rw [hcj.1, hcj.2]
    cases h : canZombieMoveTo (subStepUpTo e j).1 c.x c.y zj.id
    · rfl
    · exfalso
      apply ((canZombieMoveTo_iff _ _ _ _).1 h).2.2
      refine ⟨_, List.getElem?_mem hlj, rfl, rfl, ?_⟩
      show zi.id ≠ zj.id
      omega
  -- the higher-id pursuer did not start on the cell
  have hstart_j : ¬ (zj.x = c.x ∧ zj.y = c.y) := by
    rintro ⟨hx, hy⟩
    have hmem : (subStepUpTo e i).1.state.zombies[j]? = some zj :=
      (subStepUpTo_get_ge e i j (Nat.le_of_lt hij)).trans hzj
    exact hfree ⟨zj, List.getElem?_mem hmem, hx, hy⟩
  have hA : (minorDelta e zj ≠ 0 ∧
        canZombieMoveTo (subStepUpTo e j).1 (zj.x + (secondaryMove e zj).x)
          (zj.y + (secondaryMove e zj).y) zj.id = true) →
      (moveZombiesSingleStep e).1.state.zombies[j]? =
        some { x := zj.x + (secondaryMove e zj).x, y := zj.y + (secondaryMove e zj).y,
               id := zj.id } ∧
      trappedAt e j = false := by
    rintro ⟨hminor, hsec⟩
    refine ⟨final_of_secondary e j zj hzj hprim_j hminor hsec, ?_⟩
    have hne := secondaryMove_ne_zero_of_minor e zj hminor
    have h0 : ¬ ((secondaryMove e zj).x = 0 ∧ (secondaryMove e zj).y = 0) := by
      rintro ⟨ha, hb⟩
      rcases hne with h | h
      · exact h ha
      · exact h hb
    simp only [trappedAt, hzj, hsec, hprim_j]
    simp [h0]
  have hB : (¬ (minorDelta e zj ≠ 0 ∧
        canZombieMoveTo (subStepUpTo e j).1 (zj.x + (secondaryMove e zj).x)
          (zj.y + (secondaryMove e zj).y) zj.id = true)) →
      (moveZombiesSingleStep e).1.state.zombies[j]? = some zj ∧ trappedAt e j = true := by
    intro hno
    have ht : trappedAt e j = true := by
      simp only [trappedAt, hzj, hprim_j]
      by_cases hm : minorDelta e zj = 0
      · have h0 := secondaryMove_zero_of_minor e zj hm
        simp [h0.1, h0.2]
      · have hc2 : canZombieMoveTo (subStepUpTo e j).1 (zj.x + (secondaryMove e zj).x)
            (zj.y + (secondaryMove e zj).y) zj.id = false := by
          cases h : canZombieMoveTo (subStepUpTo e j).1 (zj.x + (secondaryMove e zj).x)
            (zj.y + (secondaryMove e zj).y) zj.id
          · rfl
          · exact absurd ⟨hm, h⟩ hno
        simp [hc2]
    refine ⟨?_, ht⟩
    rw [moveZombiesSingleStep_get e j zj hzj, (zombieStep_live_spec e j zj hzj).1 ht]
    exact (live_get_self e j).trans hzj
  refine ⟨hfinal_i, ?_, hA, hB⟩
  intro z hz
  by_cases hsec : minorDelta e zj ≠ 0 ∧
        canZombieMoveTo (subStepUpTo e j).1 (zj.x + (secondaryMove e zj).x)
          (zj.y + (secondaryMove e zj).y) zj.id = true
  · rw [(hA hsec).1] at hz
    injection hz with hz
    subst hz
    rintro ⟨hx, hy⟩
    apply secondary_cell_ne_primary e zj hsec.1
    exact ⟨hx.trans hcj.1.symm, hy.trans hcj.2.symm⟩
  · rw [(hB hsec).1] at hz
    injection hz with hz
    subst hz
    exact hstart_j

/-- Witness of C10: agent at `(2, 2)`, pursuer 0 at `(1, 0)` and pursuer 1 at
`(0, 1)` both want `(1, 1)`: pursuer 0 gets it, pursuer 1 falls back to `(0, 2)`;
with a wall on `(0, 2)` pursuer 1 stays and is counted trapped. -/
theorem substep_contested_cell_witness :
    IdOrdered (loaded [".Z.", "Z..", "..P"]) ∧
    (moveZombiesSingleStep (loaded [".Z.", "Z..", "..P"])).1.state.zombies[0]? =
      some { x := 1, y := 1, id := 0 } ∧
    (moveZombiesSingleStep (loaded [".Z.", "Z..", "..P"])).1.state.zombies[1]? =
      some { x := 0 + (secondaryMove (loaded [".Z.", "Z..", "..P"]) { x := 0, y := 1, id := 1 }).x,
             y := 1 + (secondaryMove (loaded [".Z.", "Z..", "..P"]) { x := 0, y := 1, id := 1 }).y,
             id := 1 } ∧
    (moveZombiesSingleStep (loaded [".Z.", "Z..", "..P"])).1.state.zombies =
      [{ x := 1, y := 1, id := 0 }, { x := 0, y := 2, id := 1 }] ∧
    (moveZombiesSingleStep (loaded [".Z.", "Z..", "#.P"])).1.state.zombies[1]? =
      some { x := 0, y := 1, id := 1 } ∧
    trappedAt (loaded [".Z.", "Z..", "#.P"]) 1 = true :=
  ⟨by decide,
   (substep_contested_cell (loaded [".Z.", "Z..", "..P"]) (by decide) 0 1
      { x := 1, y := 0, id := 0 } { x := 0, y := 1, id := 1 } { x := 1, y := 1 }
      (by decide) (by decide) (by decide) (by decide) (by decide) (by decide) (by decide)
      (by decide)).1,
   ((substep_contested_cell (loaded [".Z.", "Z..", "..P"]) (by decide) 0 1
      { x := 1, y := 0, id := 0 } { x := 0, y := 1, id := 1 } { x := 1, y := 1 }
      (by decide) (by decide) (by decide) (by decide) (by decide) (by decide) (by decide)
      (by decide)).2.2.1 (by decide)).1,
   by decide,
   ((substep_contested_cell (loaded [".Z.", "Z..", "#.P"]) (by decide) 0 1
      { x := 1, y := 0, id := 0 } { x := 0, y := 1, id := 1 } { x := 1, y := 1 }
      (by decide) (by decide) (by decide) (by decide) (by decide) (by decide) (by decide)
      (by decide)).2.2.2 (by decide)).1,
   ((substep_contested_cell (loaded [".Z.", "Z..", "#.P"]) (by decide) 0 1
      { x := 1, y := 0, id := 0 } { x := 0, y := 1, id := 1 } { x := 1, y := 1 }
      (by decide) (by decide) (by decide) (by decide) (by decide) (by decide) (by decide)
      (by decide)).2.2.2 (by decide)).2⟩

/-! ## Pursuer ids: assigned in scan order by the loader, never changed by a move -/

theorem map_id_set (l : List Zombie) (i : Nat) (z : Zombie) (m : Pos)
    (h : l[i]? = some z) :
    (l.set i (moved z m)).map (fun z => z.id) = l.map (fun z => z.id) := by
  apply List.ext_getElem?
  intro n
  rw [List.getElem?_map, List.getElem?_map]
  by_cases hn : i = n
  · subst hn
    rw [getElem?_set_self_of_some l i z _ h, h]
    rfl
  · rw [List.getElem?_set_ne hn]

theorem zombieStep_ids (acc : GameEngine × Nat) (i : Nat) :
    (zombieStep acc i).1.state.zombies.map (fun z => z.id) =
      acc.1.state.zombies.map (fun z => z.id) := by
  cases hz : acc.1.state.zombies[i]? with
  | none => rw [zombieStep_none acc i hz]
  | some z =>
    rcases zombieStep_cases acc i z hz with h | ⟨m, h⟩
    · rw [h]
    · rw [h]
      exact map_id_set _ i z m hz

theorem moveZombiesSingleStep_ids (e : GameEngine) :
    (moveZombiesSingleStep e).1.state.zombies.map (fun z => z.id) =
      e.state.zombies.map (fun z => z.id) := by
  unfold moveZombiesSingleStep subStepUpTo
  refine foldl_preserves
    (fun acc : GameEngine × Nat =>
      acc.1.state.zombies.map (fun z => z.id) = e.state.zombies.map (fun z => z.id))
    zombieStep ?_ _ (e, 0) rfl
  intro b a hb
  exact (zombieStep_ids b a).trans hb

theorem processZombieLoop_ids (n : Nat) (e : GameEngine) (t : Nat) :
    (processZombieLoop n e t).1.state.zombies.map (fun z => z.id) =
      e.state.zombies.map (fun z => z.id) := by
  induction n generalizing e t with
  | zero => rfl
  | succ n ih =>
    cases hg : e.state.isGameOver with
    | true => rw [processZombieLoop_over n e t hg]
    | false =>
      cases hl : checkLoss (moveZombiesSingleStep e).1 with
      | true =>
        rw [processZombieLoop_caught n e t hg hl]
        exact moveZombiesSingleStep_ids e
      | false =>
        rw [processZombieLoop_continue n e t hg hl, ih]
        exact moveZombiesSingleStep_ids e

theorem movePlayer_ids (e : GameEngine) (dx dy : Int) :
    (movePlayer e dx dy).1.state.zombies.map (fun z => z.id) =
      e.state.zombies.map (fun z => z.id) := by
  unfold movePlayer
  split
  · rfl
  · dsimp only
    split
    · rfl
    · split
      · rfl
      · split
        · rfl
        · split
          · exact processZombieLoop_ids _ _ _
          · exact processZombieLoop_ids _ _ _

theorem loadCell_ids (x y : Nat) (c : Option Char) (acc : State × Nat)
    (h : acc.1.zombies.map (fun z => z.id) = List.range acc.2) :
    (loadCell x y c acc).1.zombies.map (fun z => z.id) = List.range (loadCell x y c acc).2 := by
  unfold loadCell
  split
  · exact h
  · simp [h, List.range_succ]
  · exact h
  · exact h
  · exact h

theorem loadRows_ids (width height : Nat) (layout : Layout) (acc : State × Nat)
    (h : acc.1.zombies.map (fun z => z.id) = List.range acc.2) :
    (loadRows width height layout acc).1.zombies.map (fun z => z.id) =
      List.range (loadRows width height layout acc).2 := by
  unfold loadRows
  refine foldl_preserves
    (fun a : State × Nat => a.1.zombies.map (fun z => z.id) = List.range a.2) _ ?_ _ acc h
  intro b y hb
  dsimp only
  split
  · unfold loadRow
    refine foldl_preserves
      (fun a : State × Nat => a.1.zombies.map (fun z => z.id) = List.range a.2) _ ?_ _ b hb
    intro b2 x hb2
    exact loadCell_ids x y _ b2 hb2
  · exact hb

/-- After `loadLevel` the ids are `0, 1, ...` in list order. -/
theorem loadLevel_ids (e0 : GameEngine) (layout : Layout) (e : GameEngine)
    (h : loadLevel e0 layout = Except.ok e) :
    e.state.zombies.map (fun z => z.id) = List.range e.state.zombies.length := by
  unfold loadLevel at h
  split at h
  · cases h
  · injection h with h
    subst h
    have hf := loadRows_ids (List.length ‹List Char›)
      (List.length (‹List Char› :: ‹List (List Char)›))
      (‹List Char› :: ‹List (List Char)›) (getInitialState, 0) rfl
    have hlen := congrArg List.length hf
    rw [List.length_map, List.length_range] at hlen
    dsimp only
    rw [hlen]
    exact hf

/-- On every engine reachable from `loadLevel` the ids are `0, 1, ...` in list
order; in particular the list is id-ordered. -/
theorem reachable_ids (e : GameEngine) (h : Reachable e) :
    e.state.zombies.map (fun z => z.id) = List.range e.state.zombies.length := by
  induction h with
  | load e0 layout e hl => exact loadLevel_ids e0 layout e hl
  | move e dx dy _ ih =>
    have h1 := movePlayer_ids e dx dy
    have hlen := congrArg List.length h1
    rw [List.length_map, List.length_map] at hlen
    rw [h1, hlen]
    exact ih

theorem reachable_idOrdered (e : GameEngine) (h : Reachable e) : IdOrdered e := by
  unfold IdOrdered
  rw [reachable_ids e h]
  exact List.pairwise_lt_range _

/-- The agent's step and a sub-step keep the list id-ordered. -/
theorem idOrdered_substep (e : GameEngine) (x y : Int) (h : IdOrdered e) :
    IdOrdered (commitMove e x y) ∧ IdOrdered (moveZombiesSingleStep e).1 := by
  refine ⟨h, ?_⟩
  unfold IdOrdered
  rw [moveZombiesSingleStep_ids]
  exact h

/-! ## The two validators -/

theorem wallAt_iff_mem (e : GameEngine) (x y : Int) :
    WallAt e x y ↔ ({ x := x, y := y } : Pos) ∈ e.state.walls := by
  unfold WallAt
  constructor
  · rintro ⟨w, hw, hx, hy⟩
    have : w = { x := x, y := y } := by
      cases w
      simp only [Pos.mk.injEq]
      exact ⟨hx, hy⟩
    rw [← this]
    exact hw
  · intro h
    exact ⟨_, h, rfl, rfl⟩

/-- C17: `isValidMove(x, y)` is true exactly when `0 <= x < width`,
`0 <= y < height` and `(x, y)` is not in the wall list; so it is true for an
in-bounds non-wall cell on which a pursuer stands. -/
theorem isValidMove_spec (e : GameEngine) (x y : Int) :
    (isValidMove e x y = true ↔
      (0 ≤ x ∧ x < e.width) ∧ (0 ≤ y ∧ y < e.height) ∧
      ({ x := x, y := y } : Pos) ∉ e.state.walls) ∧
    ((0 ≤ x ∧ x < e.width) → (0 ≤ y ∧ y < e.height) →
      ({ x := x, y := y } : Pos) ∉ e.state.walls →
      (∃ z ∈ e.state.zombies, z.x = x ∧ z.y = y) → isValidMove e x y = true) := by
  have h : isValidMove e x y = true ↔
      (0 ≤ x ∧ x < e.width) ∧ (0 ≤ y ∧ y < e.height) ∧
      ({ x := x, y := y } : Pos) ∉ e.state.walls := by
    rw [isValidMove_iff, wallAt_iff_mem]
    unfold InBounds
    constructor
    · rintro ⟨⟨h1, h2, h3, h4⟩, h5⟩; exact ⟨⟨h1, h2⟩, ⟨h3, h4⟩, h5⟩
    · rintro ⟨⟨h1, h2⟩, ⟨h3, h4⟩, h5⟩; exact ⟨⟨h1, h2, h3, h4⟩, h5⟩
  exact ⟨h, fun hx hy hw _ => h.2 ⟨hx, hy, hw⟩⟩

/-- Witness of C17: in `["PZE"]` the cell `(1, 0)` holds the pursuer and is a
valid target for the agent. -/
theorem isValidMove_spec_witness :
    (∃ z ∈ (loaded ["PZE"]).state.zombies, z.x = 1 ∧ z.y = 0) ∧
    isValidMove (loaded ["PZE"]) 1 0 = true :=
  ⟨by decide,
   (isValidMove_spec (loaded ["PZE"]) 1 0).2 (by decide) (by decide) (by decide) (by decide)⟩

/-- C18: `canZombieMoveTo(x, y, m)` is true exactly when `(x, y)` is in bounds,
not in the wall list, and no pursuer with an id other than `m` is at `(x, y)`.
So the agent standing on an in-bounds non-wall cell does not block it, and a
pursuer is never blocked by itself on its own cell. -/
theorem canZombieMoveTo_spec (e : GameEngine) (x y : Int) (m : Nat) :
    (canZombieMoveTo e x y m = true ↔
      (0 ≤ x ∧ x < e.width) ∧ (0 ≤ y ∧ y < e.height) ∧
      ({ x := x, y := y } : Pos) ∉ e.state.walls ∧
      ¬ ∃ z ∈ e.state.zombies, z.id ≠ m ∧ z.x = x ∧ z.y = y) ∧
    (InBounds e e.state.player.x e.state.player.y →
      ¬ WallAt e e.state.player.x e.state.player.y →
      (¬ ∃ z ∈ e.state.zombies, z.id ≠ m ∧ z.x = e.state.player.x ∧ z.y = e.state.player.y) →
      canZombieMoveTo e e.state.player.x e.state.player.y m = true) ∧
    (∀ z ∈ e.state.zombies, InBounds e z.x z.y → ¬ WallAt e z.x z.y →
      (∀ w ∈ e.state.zombies, w.x = z.x → w.y = z.y → w.id = z.id) →
      canZombieMoveTo e z.x z.y z.id = true) := by
  refine ⟨?_, ?_, ?_⟩
  · rw [canZombieMoveTo_iff, wallAt_iff_mem]
    unfold InBounds
    constructor
    · rintro ⟨⟨h1, h2, h3, h4⟩, h5, h6⟩
      refine ⟨⟨h1, h2⟩, ⟨h3, h4⟩, h5, ?_⟩
      rintro ⟨z, hz, hid, hx, hy⟩
      exact h6 ⟨z, hz, hx, hy, hid⟩
    · rintro ⟨⟨h1, h2⟩, ⟨h3, h4⟩, h5, h6⟩
      refine ⟨⟨h1, h2, h3, h4⟩, h5, ?_⟩
      rintro ⟨z, hz, hx, hy, hid⟩
      exact h6 ⟨z, hz, hid, hx, hy⟩
  · intro hb hw hz
    rw [canZombieMoveTo_iff]
    refine ⟨hb, hw, ?_⟩
    rintro ⟨z, hz2, hx, hy, hid⟩
    exact hz ⟨z, hz2, hid, hx, hy⟩
  · intro z _ hb hw hsame
    rw [canZombieMoveTo_iff]
    refine ⟨hb, hw, ?_⟩
    rintro ⟨w, hw2, hx, hy, hid⟩
    exact hid (hsame w hw2 hx hy)

/-- Witness of C18: in `["P.Z"]`, after the agent's step to `(1, 0)`, pursuer 0
may enter the agent's cell; it may also "enter" its own cell `(2, 0)`. -/
theorem canZombieMoveTo_spec_witness :
    (commitMove (loaded ["P.Z"]) 1 0).state.player = { x := 1, y := 0 } ∧
    canZombieMoveTo (commitMove (loaded ["P.Z"]) 1 0)
      (commitMove (loaded ["P.Z"]) 1 0).state.player.x
      (commitMove (loaded ["P.Z"]) 1 0).state.player.y 0 = true ∧
    canZombieMoveTo (loaded ["P.Z"]) 2 0 0 = true :=
  ⟨by decide,
   (canZombieMoveTo_spec (commitMove (loaded ["P.Z"]) 1 0) 1 0 0).2.1
      (by decide) (by decide) (by decide),
   (canZombieMoveTo_spec (loaded ["P.Z"]) 2 0 0).2.2 { x := 2, y := 0, id := 0 }
      (by decide) (by decide) (by decide) (by decide)⟩

/-! ## The loader: what it returns and when it throws -/

theorem loadLevel_cons (e0 : GameEngine) (row0 : List Char) (rest : List (List Char)) :
    loadLevel e0 (row0 :: rest) =
      Except.ok
        { width := (row0.length : Int)
          height := ((row0 :: rest).length : Int)
          state := (loadRows row0.length (row0 :: rest).length (row0 :: rest)
            (getInitialState, 0)).1 } := rfl

/-- C14: after `loadLevel` of a well-formed layout, whatever the engine was
before, `height` is the number of rows, `width` the length of the first row,
`turn` is 0, the status is `'playing'` and `isGameOver` is false. -/
theorem loadLevel_fresh_state (e0 : GameEngine) (layout : Layout) (h : WellFormed layout) :
    ∃ e, loadLevel e0 layout = Except.ok e ∧
      e.height = (layout.length : Int) ∧
      e.width = ((layout.headD []).length : Int) ∧
      e.state.turn = 0 ∧
      e.state.status = Status.playing ∧
      e.state.isGameOver = false := by
  cases layout with
  | nil => exact absurd rfl h.1
  | cons row0 rest =>
    have hf := loadRows_flags row0.length (row0 :: rest).length (row0 :: rest) (getInitialState, 0)
    refine ⟨_, loadLevel_cons e0 row0 rest, rfl, rfl, ?_, ?_, ?_⟩
    · exact hf.2.2
    · exact hf.2.1
    · exact hf.1

/-- Witness of C14: loading `["P.#", ".Z#", "..E"]` into an engine on which a
game was already lost gives a 3 by 3 grid at turn 0, in progress. -/
theorem loadLevel_fresh_state_witness :
    WellFormed (layoutOf ["P.#", ".Z#", "..E"]) ∧
    (movePlayer (loaded ["PZE"]) 1 0).1.state.status = Status.lost ∧
    ∃ e, loadLevel (movePlayer (loaded ["PZE"]) 1 0).1 (layoutOf ["P.#", ".Z#", "..E"])
        = Except.ok e ∧
      e.height = ((layoutOf ["P.#", ".Z#", "..E"]).length : Int) ∧
      e.width = (((layoutOf ["P.#", ".Z#", "..E"]).headD []).length : Int) ∧
      e.state.turn = 0 ∧
      e.state.status = Status.playing ∧
      e.state.isGameOver = false :=
  ⟨by decide, by decide,
   loadLevel_fresh_state (movePlayer (loaded ["PZE"]) 1 0).1 (layoutOf ["P.#", ".Z#", "..E"])
     (by decide)⟩

theorem loadCell_player_of_ne (x y : Nat) (c : Option Char) (acc : State × Nat)
    (hc : c ≠ some 'P') : (loadCell x y c acc).1.player = acc.1.player := by
  unfold loadCell
  split
  · exact absurd rfl hc
  · rfl
  · rfl
  · rfl
  · rfl

theorem loadCell_exit_of_ne (x y : Nat) (c : Option Char) (acc : State × Nat)
    (hc : c ≠ some 'E') : (loadCell x y c acc).1.exit = acc.1.exit := by
  unfold loadCell
  split
  · rfl
  · rfl
  · rfl
  · exact absurd rfl hc
  · rfl

theorem getElem?_ne_of_not_mem (row : List Char) (x : Nat) (c : Char) (h : c ∉ row) :
    row[x]? ≠ some c := by
  intro hx
  exact h (List.getElem?_mem hx)

theorem loadRows_player_of_lacks (width height : Nat) (layout : Layout) (acc : State × Nat)
    (h : Lacks 'P' layout) :
    (loadRows width height layout acc).1.player = acc.1.player := by
  unfold loadRows
  refine foldl_preserves (fun a : State × Nat => a.1.player = acc.1.player) _ ?_ _ acc rfl
  intro b y hb
  dsimp only
  split
  · rename_i row hrow
    unfold loadRow
    refine foldl_preserves (fun a : State × Nat => a.1.player = acc.1.player) _ ?_ _ b hb
    intro b2 x hb2
    rw [loadCell_player_of_ne x y _ b2
      (getElem?_ne_of_not_mem row x 'P' (h row (List.getElem?_mem hrow)))]
    exact hb2
  · exact hb

theorem loadRows_exit_of_lacks (width height : Nat) (layout : Layout) (acc : State × Nat)
    (h : Lacks 'E' layout) :
    (loadRows width height layout acc).1.exit = acc.1.exit := by
  unfold loadRows
  refine foldl_preserves (fun a : State × Nat => a.1.exit = acc.1.exit) _ ?_ _ acc rfl
  intro b y hb
  dsimp only
  split
  · rename_i row hrow
    unfold loadRow
    refine foldl_preserves (fun a : State × Nat => a.1.exit = acc.1.exit) _ ?_ _ b hb
    intro b2 x hb2
    rw [loadCell_exit_of_ne x y _ b2
      (getElem?_ne_of_not_mem row x 'E' (h row (List.getElem?_mem hrow)))]
    exact hb2
  · exact hb

/-- C12, counterexample: the one-row layout `".Z"` holds neither `P` nor
`E`, and `loadLevel` returns an engine in progress instead of failing. -/
theorem loadLevel_missing_markers_counterexample :
    layoutOf [".Z"] ≠ [] ∧ Lacks 'P' (layoutOf [".Z"]) ∧ Lacks 'E' (layoutOf [".Z"]) ∧
    loadLevel fresh (layoutOf [".Z"]) =
      Except.ok
        { width := 2
          height := 1
          state :=
            { turn := 0
              player := { x := 0, y := 0 }
              exit := { x := 0, y := 0 }
              zombies := [{ x := 1, y := 0, id := 0 }]
              walls := []
              isGameOver := false
              status := Status.playing } } ∧
    loadLevel fresh (layoutOf [".Z"]) ≠ Except.error EngineError.levelFormatError :=
  ⟨by decide, by decide, by decide, rfl, fun h => Except.noConfusion h⟩

/-- C12, amended: for every layout with at least one row, also one without `P`
or without `E`, `loadLevel` does not fail and returns an engine in progress;
without `P` the agent is on the default cell `(0, 0)`, without `E` the exit is
on the default cell `(0, 0)`. -/
theorem loadLevel_missing_markers (e0 : GameEngine) (layout : Layout) (h : layout ≠ []) :
    ∃ e, loadLevel e0 layout = Except.ok e ∧ InProgress e ∧
      (Lacks 'P' layout → e.state.player = { x := 0, y := 0 }) ∧
      (Lacks 'E' layout → e.state.exit = { x := 0, y := 0 }) := by
  cases layout with
  | nil => exact absurd rfl h
  | cons row0 rest =>
    have hf := loadRows_flags row0.length (row0 :: rest).length (row0 :: rest) (getInitialState, 0)
    refine ⟨_, loadLevel_cons e0 row0 rest, ⟨hf.2.1, hf.1⟩, ?_, ?_⟩
    · intro hl
      exact loadRows_player_of_lacks _ _ _ _ hl
    · intro hl
      exact loadRows_exit_of_lacks _ _ _ _ hl

/-- Witness of C12 amended: `".Z"` loads, agent and exit both on `(0, 0)`. -/
theorem loadLevel_missing_markers_witness :
    layoutOf [".Z"] ≠ [] ∧
    ∃ e, loadLevel fresh (layoutOf [".Z"]) = Except.ok e ∧ InProgress e ∧
      (Lacks 'P' (layoutOf [".Z"]) → e.state.player = { x := 0, y := 0 }) ∧
      (Lacks 'E' (layoutOf [".Z"]) → e.state.exit = { x := 0, y := 0 }) :=
  ⟨by decide, loadLevel_missing_markers fresh (layoutOf [".Z"]) (by decide)⟩

/-- C13, counterexample: on the empty layout the error is the `TypeError`
thrown by `layout[0].length`, not a `LevelFormatError`. -/
theorem loadLevel_empty_counterexample :
    loadLevel fresh [] = Except.error EngineError.typeError ∧
    loadLevel fresh [] ≠ Except.error EngineError.levelFormatError :=
  ⟨rfl, fun h => EngineError.noConfusion (Except.error.inj h)⟩

/-- C13, amended: for the empty layout `loadLevel` fails, on every engine, with
the `TypeError` raised by reading `layout[0].length`; it returns no state. -/
theorem loadLevel_empty_throws (e0 : GameEngine) :
    loadLevel e0 [] = Except.error EngineError.typeError ∧
    ∀ e, loadLevel e0 [] ≠ Except.ok e := by
  refine ⟨rfl, ?_⟩
  intro e h
  cases h

/-! ## The loader scans the cells in row-major order -/

/-- What one `switch (char)` does to the pursuers, the agent, the exit and the walls. -/
theorem loadCell_view (x y : Nat) (c : Option Char) (acc : State × Nat) :
    (loadCell x y c acc).1.zombies.map (fun z => (z.x, z.y)) =
      acc.1.zombies.map (fun z => (z.x, z.y)) ++
        (if c = some 'Z' then [cellPos (x, y)] else []) ∧
    (loadCell x y c acc).1.player =
      (if c = some 'P' then { x := (x : Int), y := (y : Int) } else acc.1.player) ∧
    (loadCell x y c acc).1.exit =
      (if c = some 'E' then { x := (x : Int), y := (y : Int) } else acc.1.exit) ∧
    (loadCell x y c acc).1.walls =
      acc.1.walls ++ (if c = some '#' then [{ x := (x : Int), y := (y : Int) }] else []) := by
  unfold loadCell
  split
  · simp
  · simp [cellPos]
  · simp
  · simp
  · rename_i h1 h2 h3 h4
    have hP : c ≠ some 'P' := fun h => h1 h
    have hZ : c ≠ some 'Z' := fun h => h2 h
    have hW : c ≠ some '#' := fun h => h3 h
    have hE : c ≠ some 'E' := fun h => h4 h
    simp [hP, hZ, hW, hE]

theorem lastOr_nil (p : Pos) : lastOr p [] = p := rfl

theorem lastOr_cons (p : Pos) (c : Nat × Nat) (cs : List (Nat × Nat)) :
    lastOr p (c :: cs) = lastOr { x := (c.1 : Int), y := (c.2 : Int) } cs := rfl

theorem lastOr_append (p : Pos) (a b : List (Nat × Nat)) :
    lastOr p (a ++ b) = lastOr (lastOr p a) b := by
  unfold lastOr
  rw [List.foldl_append]

/-- The inner loop of the loader over any list `l` of columns. -/
theorem loadRow_fold_view (y : Nat) (row : List Char) (l : List Nat) (acc : State × Nat) :
    (l.foldl (fun a x => loadCell x y row[x]? a) acc).1.zombies.map (fun z => (z.x, z.y)) =
      acc.1.zombies.map (fun z => (z.x, z.y)) ++
        ((l.filter (fun x => decide (row[x]? = some 'Z'))).map (fun x => (x, y))).map cellPos ∧
    (l.foldl (fun a x => loadCell x y row[x]? a) acc).1.player =
      lastOr acc.1.player ((l.filter (fun x => decide (row[x]? = some 'P'))).map (fun x => (x, y))) ∧
    (l.foldl (fun a x => loadCell x y row[x]? a) acc).1.exit =
      lastOr acc.1.exit ((l.filter (fun x => decide (row[x]? = some 'E'))).map (fun x => (x, y))) ∧
    (l.foldl (fun a x => loadCell x y row[x]? a) acc).1.walls =
      acc.1.walls ++
        ((l.filter (fun x => decide (row[x]? = some '#'))).map (fun x => (x, y))).map
          (fun c => ({ x := (c.1 : Int), y := (c.2 : Int) } : Pos)) := by
  induction l generalizing acc with
  | nil => simp [lastOr_nil]
  | cons x t ih =>
    obtain ⟨hz, hp, he, hw⟩ := loadCell_view x y row[x]? acc
    obtain ⟨iz, ip, ie, iw⟩ := ih (loadCell x y row[x]? acc)
    rw [List.foldl_cons]
    refine ⟨?_, ?_, ?_, ?_⟩
    · rw [iz, hz, List.filter_cons]
      by_cases h : row[x]? = some 'Z'
      · simp [h]
      · simp [h]
    · rw [ip, hp, List.filter_cons]
      by_cases h : row[x]? = some 'P'
      · simp [h, lastOr_cons]
      · simp [h]
    · rw [ie, he, List.filter_cons]
      by_cases h : row[x]? = some 'E'
      · simp [h, lastOr_cons]
      · simp [h]
    · rw [iw, hw, List.filter_cons]
      by_cases h : row[x]? = some '#'
      · simp [h]
      · simp [h]

/-- The inner loop over a row as long as the grid is wide. -/
theorem loadRow_view (width y : Nat) (row : List Char) (acc : State × Nat)
    (hlen : row.length = width) :
    (loadRow width y row acc).1.zombies.map (fun z => (z.x, z.y)) =
      acc.1.zombies.map (fun z => (z.x, z.y)) ++ (rowCells 'Z' y row).map cellPos ∧
    (loadRow width y row acc).1.player = lastOr acc.1.player (rowCells 'P' y row) ∧
    (loadRow width y row acc).1.exit = lastOr acc.1.exit (rowCells 'E' y row) ∧
    (loadRow width y row acc).1.walls =
      acc.1.walls ++ (rowCells '#' y row).map
        (fun c => ({ x := (c.1 : Int), y := (c.2 : Int) } : Pos)) := by
  unfold loadRow rowCells
  rw [hlen]
  exact loadRow_fold_view y row (List.range width) acc

/-- The outer loop of the loader over any list `l` of rows, all of them as
long as the grid is wide. -/
theorem loadRows_fold_view (width : Nat) (layout : Layout) (l : List Nat) (acc : State × Nat)
    (hlen : ∀ y ∈ l, ∀ row, layout[y]? = some row → row.length = width) :
    (l.foldl (fun a y => match layout[y]? with
        | some row => loadRow width y row a
        | none => a) acc).1.zombies.map (fun z => (z.x, z.y)) =
      acc.1.zombies.map (fun z => (z.x, z.y)) ++
        (l.flatMap (fun y => match layout[y]? with
          | some row => rowCells 'Z' y row
          | none => [])).map cellPos ∧
    (l.foldl (fun a y => match layout[y]? with
        | some row => loadRow width y row a
        | none => a) acc).1.player =
      lastOr acc.1.player (l.flatMap (fun y => match layout[y]? with
          | some row => rowCells 'P' y row
          | none => [])) ∧
    (l.foldl (fun a y => match layout[y]? with
        | some row => loadRow width y row a
        | none => a) acc).1.exit =
      lastOr acc.1.exit (l.flatMap (fun y => match layout[y]? with
          | some row => rowCells 'E' y row
          | none => [])) ∧
    (l.foldl (fun a y => match layout[y]? with
        | some row => loadRow width y row a
        | none => a) acc).1.walls =
      acc.1.walls ++
        (l.flatMap (fun y => match layout[y]? with
          | some row => rowCells '#' y row
          | none => [])).map (fun c => ({ x := (c.1 : Int), y := (c.2 : Int) } : Pos)) := by
  induction l generalizing acc with
  | nil => simp [lastOr_nil]
  | cons y t ih =>
    have ht : ∀ y2 ∈ t, ∀ row, layout[y2]? = some row → row.length = width :=
      fun y2 hy2 row hrow => hlen y2 (List.mem_cons_of_mem _ hy2) row hrow
    rw [List.foldl_cons]
    cases hrow : layout[y]? with
    | none =>
      obtain ⟨iz, ip, ie, iw⟩ := ih acc ht
      simp only [List.flatMap_cons, hrow, List.nil_append]
      exact ⟨iz, ip, ie, iw⟩
    | some row =>
      obtain ⟨hz, hp, he, hw⟩ := loadRow_view width y row acc
        (hlen y (List.mem_cons_self _ _) row hrow)
      obtain ⟨iz, ip, ie, iw⟩ := ih (loadRow width y row acc) ht
      simp only [List.flatMap_cons, hrow]
      refine ⟨?_, ?_, ?_, ?_⟩
      · rw [iz, hz]; simp
      · rw [ip, hp, lastOr_append]
      · rw [ie, he, lastOr_append]
      · rw [iw, hw]; simp

/-- After `loadLevel` of a well-formed layout: where the pursuers, the agent,
the exit and the walls are, in terms of the cells of the layout. -/
theorem loadLevel_view (e0 : GameEngine) (layout : Layout) (h : WellFormed layout)
    (e : GameEngine) (hl : loadLevel e0 layout = Except.ok e) :
    e.state.zombies.map (fun z => (z.x, z.y)) = (cellsOf 'Z' layout).map cellPos ∧
    e.state.player = lastOr { x := 0, y := 0 } (cellsOf 'P' layout) ∧
    e.state.exit = lastOr { x := 0, y := 0 } (cellsOf 'E' layout) ∧
    e.state.walls = (cellsOf '#' layout).map
      (fun c => ({ x := (c.1 : Int), y := (c.2 : Int) } : Pos)) := by
  cases layout with
  | nil => exact absurd rfl h.1
  | cons row0 rest =>
    rw [loadLevel_cons] at hl
    injection hl with hl
    subst hl
    have hlen : ∀ y ∈ List.range (row0 :: rest).length, ∀ row,
        (row0 :: rest)[y]? = some row → row.length = row0.length := by
      intro y _ row hrow
      exact h.2 row (List.getElem?_mem hrow)
    obtain ⟨hz, hp, he, hw⟩ := loadRows_fold_view row0.length (row0 :: rest)
      (List.range (row0 :: rest).length) (getInitialState, 0) hlen
    unfold cellsOf
    refine ⟨?_, ?_, ?_, ?_⟩
    · show (loadRows _ _ _ _).1.zombies.map _ = _
      unfold loadRows
      rw [hz]; rfl
    · show (loadRows _ _ _ _).1.player = _
      unfold loadRows
      rw [hp]; rfl
    · show (loadRows _ _ _ _).1.exit = _
      unfold loadRows
      rw [he]; rfl
    · show (loadRows _ _ _ _).1.walls = _
      unfold loadRows
      rw [hw]; rfl

theorem loadLevel_ok_of_ne_nil (e0 : GameEngine) (layout : Layout) (h : layout ≠ []) :
    ∃ e, loadLevel e0 layout = Except.ok e := by
  cases layout with
  | nil => exact absurd rfl h
  | cons row0 rest => exact ⟨_, loadLevel_cons e0 row0 rest⟩

theorem id_of_ids_range (zs : List Zombie)
    (h : zs.map (fun z => z.id) = List.range zs.length) (k : Nat) (z : Zombie)
    (hz : zs[k]? = some z) : z.id = k := by
  have hk : k < zs.length := (List.getElem?_eq_some.1 hz).1
  have h1 : (zs.map (fun z => z.id))[k]? = some z.id := by
    rw [List.getElem?_map, hz]; rfl
  rw [h, List.getElem?_range hk] at h1
  injection h1 with h1
  exact h1.symm

theorem lastOr_of_getLast? (p : Pos) (cells : List (Nat × Nat)) (c : Nat × Nat)
    (h : cells.getLast? = some c) : lastOr p cells = { x := (c.1 : Int), y := (c.2 : Int) } := by
  obtain ⟨ys, rfl⟩ := List.getLast?_eq_some_iff.1 h
  rw [lastOr_append]
  rfl

/-- C15: after `loadLevel` of a well-formed layout the pursuers stand on
exactly the cells holding `Z`, listed in row-major scan order, and the entry
at index `k` has id `k`: the ids are `0 .. n - 1`, pairwise distinct, and the
list order is the id order. -/
theorem loadLevel_pursuers (e0 : GameEngine) (layout : Layout) (h : WellFormed layout) :
    ∃ e, loadLevel e0 layout = Except.ok e ∧
      e.state.zombies.map (fun z => (z.x, z.y)) = (cellsOf 'Z' layout).map cellPos ∧
      (∀ (k : Nat) (z : Zombie), e.state.zombies[k]? = some z → z.id = k) ∧
      e.state.zombies.map (fun z => z.id) = List.range (cellsOf 'Z' layout).length ∧
      (e.state.zombies.map (fun z => z.id)).Nodup ∧
      IdOrdered e := by
  obtain ⟨e, he⟩ := loadLevel_ok_of_ne_nil e0 layout h.1
  have hv := (loadLevel_view e0 layout h e he).1
  have hids := loadLevel_ids e0 layout e he
  have hlen : e.state.zombies.length = (cellsOf 'Z' layout).length := by
    have := congrArg List.length hv
    rw [List.length_map, List.length_map] at this
    exact this
  refine ⟨e, he, hv, id_of_ids_range _ hids, ?_, ?_, ?_⟩
  · rw [hids, hlen]
  · rw [hids]; exact List.nodup_range _
  · unfold IdOrdered
    rw [hids]; exact List.pairwise_lt_range _

/-- Witness of C15: the three `Z` of `["Z.Z", "P.E", ".Z."]` in scan order. -/
theorem loadLevel_pursuers_witness :
    WellFormed (layoutOf ["Z.Z", "P.E", ".Z."]) ∧
    cellsOf 'Z' (layoutOf ["Z.Z", "P.E", ".Z."]) = [(0, 0), (2, 0), (1, 2)] ∧
    (loaded ["Z.Z", "P.E", ".Z."]).state.zombies =
      [{ x := 0, y := 0, id := 0 }, { x := 2, y := 0, id := 1 }, { x := 1, y := 2, id := 2 }] ∧
    ∃ e, loadLevel fresh (layoutOf ["Z.Z", "P.E", ".Z."]) = Except.ok e ∧
      e.state.zombies.map (fun z => (z.x, z.y)) =
        (cellsOf 'Z' (layoutOf ["Z.Z", "P.E", ".Z."])).map cellPos ∧
      (∀ (k : Nat) (z : Zombie), e.state.zombies[k]? = some z → z.id = k) ∧
      e.state.zombies.map (fun z => z.id) =
        List.range (cellsOf 'Z' (layoutOf ["Z.Z", "P.E", ".Z."])).length ∧
      (e.state.zombies.map (fun z => z.id)).Nodup ∧
      IdOrdered e :=
  ⟨by decide, by decide, by decide,
   loadLevel_pursuers fresh (layoutOf ["Z.Z", "P.E", ".Z."]) (by decide)⟩

/-- C16: after `loadLevel` of a well-formed layout holding one or several `P`
(`E`), loading has not failed and the agent (the exit) is on the cell of the
last `P` (last `E`) in row-major scan order. -/
theorem loadLevel_last_marker (e0 : GameEngine) (layout : Layout) (h : WellFormed layout) :
    ∃ e, loadLevel e0 layout = Except.ok e ∧
      (∀ c, (cellsOf 'P' layout).getLast? = some c →
        e.state.player = { x := (c.1 : Int), y := (c.2 : Int) }) ∧
      (∀ c, (cellsOf 'E' layout).getLast? = some c →
        e.state.exit = { x := (c.1 : Int), y := (c.2 : Int) }) := by
  obtain ⟨e, he⟩ := loadLevel_ok_of_ne_nil e0 layout h.1
  obtain ⟨-, hp, hx, -⟩ := loadLevel_view e0 layout h e he
  refine ⟨e, he, ?_, ?_⟩
  · intro c hc
    rw [hp, lastOr_of_getLast? _ _ c hc]
  · intro c hc
    rw [hx, lastOr_of_getLast? _ _ c hc]

/-- Witness of C16: `["PEP", "E.P", "E.."]` holds three `P` and three `E`; the
agent ends on `(2, 1)` and the exit on `(0, 2)`. -/
theorem loadLevel_last_marker_witness :
    WellFormed (layoutOf ["PEP", "E.P", "E.."]) ∧
    cellsOf 'P' (layoutOf ["PEP", "E.P", "E.."]) = [(0, 0), (2, 0), (2, 1)] ∧
    cellsOf 'E' (layoutOf ["PEP", "E.P", "E.."]) = [(1, 0), (0, 1), (0, 2)] ∧
    (loaded ["PEP", "E.P", "E.."]).state.player = { x := 2, y := 1 } ∧
    (loaded ["PEP", "E.P", "E.."]).state.exit = { x := 0, y := 2 } ∧
    ∃ e, loadLevel fresh (layoutOf ["PEP", "E.P", "E.."]) = Except.ok e ∧
      (∀ c, (cellsOf 'P' (layoutOf ["PEP", "E.P", "E.."])).getLast? = some c →
        e.state.player = { x := (c.1 : Int), y := (c.2 : Int) }) ∧
      (∀ c, (cellsOf 'E' (layoutOf ["PEP", "E.P", "E.."])).getLast? = some c →
        e.state.exit = { x := (c.1 : Int), y := (c.2 : Int) }) :=
  ⟨by decide, by decide, by decide, by decide, by decide,
   loadLevel_last_marker fresh (layoutOf ["PEP", "E.P", "E.."]) (by decide)⟩

/-! ## The turn counter -/

theorem processZombieTurn_turn (e : GameEngine) :
    (processZombieTurn e).1.state.turn = e.state.turn := by
  obtain ⟨zs, h | h⟩ := processZombieTurn_shape e
  · rw [h]; rfl
  · rw [h]; rfl

/-- Every call either reports `moved` and adds 1 to `turn`, or reports not
`moved` and leaves `turn` alone. -/
theorem movePlayer_turn (e : GameEngine) (dx dy : Int) :
    ((movePlayer e dx dy).2.moved = true ∧
      (movePlayer e dx dy).1.state.turn = e.state.turn + 1) ∨
    ((movePlayer e dx dy).2.moved = false ∧
      (movePlayer e dx dy).1.state.turn = e.state.turn) := by
  cases hg : e.state.isGameOver with
  | true =>
    rw [movePlayer_over e dx dy hg]
    exact Or.inr ⟨rfl, rfl⟩
  | false =>
    cases hv : isValidMove e (e.state.player.x + dx) (e.state.player.y + dy) with
    | false =>
      rw [movePlayer_invalid e dx dy hv]
      exact Or.inr ⟨rfl, rfl⟩
    | true =>
      cases hz : isZombieAt e (e.state.player.x + dx) (e.state.player.y + dy) none with
      | true =>
        rw [movePlayer_onZombie e dx dy hg hv hz]
        exact Or.inl ⟨rfl, rfl⟩
      | false =>
        by_cases hx : e.state.player.x + dx = e.state.exit.x ∧
            e.state.player.y + dy = e.state.exit.y
        · rw [movePlayer_onExit e dx dy hg hv hz hx]
          exact Or.inl ⟨rfl, rfl⟩
        · rw [movePlayer_pursuit e dx dy hg hv hz hx]
          have ht := processZombieTurn_turn
            (commitMove e (e.state.player.x + dx) (e.state.player.y + dy))
          left
          split
          · exact ⟨rfl, ht⟩
          · exact ⟨rfl, ht⟩

theorem runMoves_turn (e : GameEngine) (intents : List (Int × Int)) :
    (runMoves e intents).1.state.turn =
      e.state.turn + ((runMoves e intents).2.filter (fun r => r.moved)).length := by
  induction intents generalizing e with
  | nil => rfl
  | cons d rest ih =>
    unfold runMoves
    dsimp only
    rw [ih (movePlayer e d.1 d.2).1, List.filter_cons]
    rcases movePlayer_turn e d.1 d.2 with ⟨hm, ht⟩ | ⟨hm, ht⟩
    · rw [ht, hm]
      simp only [if_true, List.length_cons]
      omega
    · rw [ht, hm]
      simp

/-- C19: `movePlayer` returns `moved == true` exactly when `turn` after the
call is `turn` before plus 1, and when `moved == false` `turn` is unchanged;
so after any sequence of calls `turn` has grown by the number of calls that
returned `moved == true`, and from a fresh load it equals that number. -/
theorem movePlayer_turn_counts (e : GameEngine) (dx dy : Int) :
    ((movePlayer e dx dy).2.moved = true ↔
      (movePlayer e dx dy).1.state.turn = e.state.turn + 1) ∧
    ((movePlayer e dx dy).2.moved = false →
      (movePlayer e dx dy).1.state.turn = e.state.turn) ∧
    (∀ intents : List (Int × Int), (runMoves e intents).1.state.turn =
      e.state.turn + ((runMoves e intents).2.filter (fun r => r.moved)).length) ∧
    (∀ (e0 : GameEngine) (layout : Layout) (e1 : GameEngine),
      loadLevel e0 layout = Except.ok e1 →
      ∀ intents : List (Int × Int), (runMoves e1 intents).1.state.turn =
        ((runMoves e1 intents).2.filter (fun r => r.moved)).length) := by
  refine ⟨?_, ?_, runMoves_turn e, ?_⟩
  · rcases movePlayer_turn e dx dy with ⟨hm, ht⟩ | ⟨hm, ht⟩
    · exact ⟨fun _ => ht, fun _ => hm⟩
    · constructor
      · intro h; rw [hm] at h; cases h
      · intro h; rw [ht] at h; omega
  · intro hf
    rcases movePlayer_turn e dx dy with ⟨hm, _⟩ | ⟨_, ht⟩
    · rw [hm] at hf; cases hf
    · exact ht
  · intro e0 layout e1 hl intents
    rw [runMoves_turn e1 intents]
    have h0 : e1.state.turn = 0 := by
      cases layout with
      | nil => cases hl
      | cons row0 rest =>
        rw [loadLevel_cons] at hl
        injection hl with hl
        subst hl
        exact (loadRows_flags _ _ _ _).2.2
    rw [h0]
    omega

/-- Witness of C19: on `["P..", "...", "..E"]` the calls right, up (rejected at
the border), right, then down give `turn = 3`. -/
theorem movePlayer_turn_counts_witness :
    ((runMoves (loaded ["P..", "...", "..E"]) [(1, 0), (0, -1), (1, 0), (0, 1)]).2.map
      (fun r => r.moved)) = [true, false, true, true] ∧
    (runMoves (loaded ["P..", "...", "..E"]) [(1, 0), (0, -1), (1, 0), (0, 1)]).1.state.turn = 3 ∧
    (runMoves (loaded ["P..", "...", "..E"]) [(1, 0), (0, -1), (1, 0), (0, 1)]).1.state.turn =
      ((runMoves (loaded ["P..", "...", "..E"]) [(1, 0), (0, -1), (1, 0), (0, 1)]).2.filter
        (fun r => r.moved)).length :=
  ⟨by decide, by decide,
   (movePlayer_turn_counts fresh 0 0).2.2.2 fresh (layoutOf ["P..", "...", "..E"])
     (loaded ["P..", "...", "..E"]) rfl [(1, 0), (0, -1), (1, 0), (0, 1)]⟩

/-! ## The trap count reported by `movePlayer` -/

theorem moveZombiesSingleStep_traps (e : GameEngine) :
    (moveZombiesSingleStep e).2 = trapsIn e :=
  subStepUpTo_count e _

/-- C11, counterexample: in `["P.Z", "###", ".#Z"]` the agent steps right;
in the only sub-step run pursuer 0 reaches the agent and pursuer 1, walled in,
is trapped, so the sum over the executed sub-steps is 1, but the result is
`{moved: true, status: 'lost'}` without any count. -/
theorem movePlayer_trap_report_counterexample :
    InProgress (loaded ["P.Z", "###", ".#Z"]) ∧
    InBounds (loaded ["P.Z", "###", ".#Z"]) 1 0 ∧
    ¬ WallAt (loaded ["P.Z", "###", ".#Z"]) 1 0 ∧
    ¬ PursuerAt (loaded ["P.Z", "###", ".#Z"]) 1 0 ∧
    (loaded ["P.Z", "###", ".#Z"]).state.exit ≠ { x := 1, y := 0 } ∧
    Caught (subSteps 1 (commitMove (loaded ["P.Z", "###", ".#Z"]) 1 0)) ∧
    trapsIn (commitMove (loaded ["P.Z", "###", ".#Z"]) 1 0) = 1 ∧
    (processZombieTurn (commitMove (loaded ["P.Z", "###", ".#Z"]) 1 0)).2 = 1 ∧
    (movePlayer (loaded ["P.Z", "###", ".#Z"]) 1 0).2 =
      { moved := true, status := Status.lost, trapEvents := none } ∧
    (movePlayer (loaded ["P.Z", "###", ".#Z"]) 1 0).2.trapEvents ≠ some 1 := by
  decide

/-- C11, amended: on an accepted move that reaches the pursuer phase the result
has `moved: true` and the final status, which is `'playing'` or `'lost'`.  When
it is `'playing'` the result carries the trap count, the number of pursuers
trapped in the first sub-step plus the number trapped in the second; when it
is `'lost'` the result is `{moved: true, status: 'lost'}` and carries no count. -/
theorem movePlayer_trap_report (e : GameEngine) (hp : InProgress e) (dx dy : Int)
    (hb : InBounds e (e.state.player.x + dx) (e.state.player.y + dy))
    (hw : ¬ WallAt e (e.state.player.x + dx) (e.state.player.y + dy))
    (hz : ¬ PursuerAt e (e.state.player.x + dx) (e.state.player.y + dy))
    (hx : ¬ (e.state.player.x + dx = e.state.exit.x ∧ e.state.player.y + dy = e.state.exit.y)) :
    (movePlayer e dx dy).2.moved = true ∧
    (movePlayer e dx dy).2.status = (movePlayer e dx dy).1.state.status ∧
    ((movePlayer e dx dy).1.state.status = Status.playing ∨
      (movePlayer e dx dy).1.state.status = Status.lost) ∧
    ((movePlayer e dx dy).1.state.status = Status.playing →
      (movePlayer e dx dy).2.trapEvents =
        some (trapsIn (subSteps 0 (commitMove e (e.state.player.x + dx) (e.state.player.y + dy))) +
              trapsIn (subSteps 1 (commitMove e (e.state.player.x + dx) (e.state.player.y + dy))))) ∧
    ((movePlayer e dx dy).1.state.status = Status.lost →
      (movePlayer e dx dy).2 = { moved := true, status := Status.lost, trapEvents := none }) := by
  have hv := (isValidMove_iff e _ _).2 ⟨hb, hw⟩
  have hz2 : isZombieAt e (e.state.player.x + dx) (e.state.player.y + dy) none = false := by
    cases h : isZombieAt e (e.state.player.x + dx) (e.state.player.y + dy) none
    · rfl
    · exact absurd ((isZombieAt_none_iff e _ _).1 h) hz
  have hg : (commitMove e (e.state.player.x + dx) (e.state.player.y + dy)).state.isGameOver
      = false := hp.2
  have hst : (commitMove e (e.state.player.x + dx) (e.state.player.y + dy)).state.status
      = Status.playing := hp.1
  rw [movePlayer_pursuit e dx dy hp.2 hv hz2 hx]
  generalize commitMove e (e.state.player.x + dx) (e.state.player.y + dy) = e1 at hg hst ⊢
  show _ ∧ _ ∧ _ ∧ (_ → _ = some (trapsIn e1 + trapsIn (moveZombiesSingleStep e1).1)) ∧ _
  cases hl : checkLoss (moveZombiesSingleStep e1).1 with
  | true =>
    rw [processZombieTurn_caught_first e1 hg hl]
    simp only [checkLoss_gameOver, hl, if_true]
    refine ⟨rfl, rfl, Or.inr rfl, ?_, fun _ => rfl⟩
    intro h; cases h
  | false =>
    cases hl2 : checkLoss (moveZombiesSingleStep (moveZombiesSingleStep e1).1).1 with
    | true =>
      rw [processZombieTurn_caught_second e1 hg hl hl2]
      simp only [checkLoss_gameOver, hl2, if_true]
      refine ⟨rfl, rfl, Or.inr rfl, ?_, fun _ => rfl⟩
      intro h; cases h
    | false =>
      rw [processZombieTurn_free e1 hg hl hl2]
      simp only [hl2]
      have h2 : (moveZombiesSingleStep (moveZombiesSingleStep e1).1).1.state.status
          = Status.playing := by
        rw [moveZombiesSingleStep_status, moveZombiesSingleStep_status]; exact hst
      refine ⟨rfl, rfl, Or.inl h2, ?_, ?_⟩
      · intro _
        show some (0 + (moveZombiesSingleStep e1).2 +
          (moveZombiesSingleStep (moveZombiesSingleStep e1).1).2) = _
        rw [moveZombiesSingleStep_traps, moveZombiesSingleStep_traps, Nat.zero_add]
      · intro h
        have h3 : (moveZombiesSingleStep (moveZombiesSingleStep e1).1).1.state.status
            = Status.lost := h
        rw [h2] at h3; cases h3

/-- Witness of C11 amended: in `["P..", "..#", ".#Z"]` the walled-in pursuer is
trapped in both sub-steps and the game goes on: the result carries the count 2. -/
theorem movePlayer_trap_report_witness :
    InProgress (loaded ["P..", "..#", ".#Z"]) ∧
    (movePlayer (loaded ["P..", "..#", ".#Z"]) 1 0).1.state.status = Status.playing ∧
    trapsIn (subSteps 0 (commitMove (loaded ["P..", "..#", ".#Z"])
      ((loaded ["P..", "..#", ".#Z"]).state.player.x + 1)
      ((loaded ["P..", "..#", ".#Z"]).state.player.y + 0))) = 1 ∧
    trapsIn (subSteps 1 (commitMove (loaded ["P..", "..#", ".#Z"])
      ((loaded ["P..", "..#", ".#Z"]).state.player.x + 1)
      ((loaded ["P..", "..#", ".#Z"]).state.player.y + 0))) = 1 ∧
    (movePlayer (loaded ["P..", "..#", ".#Z"]) 1 0).2.trapEvents =
      some (trapsIn (subSteps 0 (commitMove (loaded ["P..", "..#", ".#Z"])
              ((loaded ["P..", "..#", ".#Z"]).state.player.x + 1)
              ((loaded ["P..", "..#", ".#Z"]).state.player.y + 0))) +
            trapsIn (subSteps 1 (commitMove (loaded ["P..", "..#", ".#Z"])
              ((loaded ["P..", "..#", ".#Z"]).state.player.x + 1)
              ((loaded ["P..", "..#", ".#Z"]).state.player.y + 0)))) :=
  ⟨by decide, by decide, by decide, by decide,
   (movePlayer_trap_report (loaded ["P..", "..#", ".#Z"]) (by decide) 1 0 (by decide)
      (by decide) (by decide) (by decide)).2.2.2.1 (by decide)⟩

/-! ## No two pursuers on one cell -/

/-- The pursuer cells after the outer loop of the loader, for any layout. -/
theorem loadRows_fold_zombies (width : Nat) (layout : Layout) (l : List Nat) (acc : State × Nat) :
    (l.foldl (fun a y => match layout[y]? with
        | some row => loadRow width y row a
        | none => a) acc).1.zombies.map (fun z => (z.x, z.y)) =
      acc.1.zombies.map (fun z => (z.x, z.y)) ++ (l.flatMap (scannedZ width layout)).map cellPos := by
  induction l generalizing acc with
  | nil => simp
  | cons y t ih =>
    rw [List.foldl_cons, List.flatMap_cons]
    cases hrow : layout[y]? with
    | none =>
      have hs : scannedZ width layout y = [] := by simp [scannedZ, hrow]
      rw [hs, List.nil_append]
      exact ih acc
    | some row =>
      have hs : scannedZ width layout y =
          ((List.range width).filter (fun x => decide (row[x]? = some 'Z'))).map
            (fun x => (x, y)) := by
        simp [scannedZ, hrow]
      have hz := (loadRow_fold_view y row (List.range width) acc).1
      have hi := ih (loadRow width y row acc)
      dsimp only at hi ⊢
      rw [hi]
      unfold loadRow
      rw [hz, hs]
      simp

theorem scannedZ_snd (width : Nat) (layout : Layout) (y : Nat) (p : Nat × Nat)
    (hp : p ∈ scannedZ width layout y) : p.2 = y := by
  unfold scannedZ at hp
  split at hp
  · rw [List.mem_map] at hp
    obtain ⟨x, -, rfl⟩ := hp
    rfl
  · cases hp

theorem scannedZ_nodup (width : Nat) (layout : Layout) (y : Nat) :
    (scannedZ width layout y).Nodup := by
  unfold scannedZ
  split
  · refine List.Nodup.map ?_ (List.Nodup.filter _ (List.nodup_range width))
    intro a b hab
    exact congrArg Prod.fst hab
  · exact List.nodup_nil

theorem cellPos_injective : Function.Injective cellPos := by
  intro a b hab
  unfold cellPos at hab
  have h1 : (a.1 : Int) = (b.1 : Int) := congrArg Prod.fst hab
  have h2 : (a.2 : Int) = (b.2 : Int) := congrArg Prod.snd hab
  have h3 : a.1 = b.1 := by omega
  have h4 : a.2 = b.2 := by omega
  exact Prod.ext h3 h4

/-- After `loadLevel` of any layout no two pursuers share a cell. -/
theorem loadLevel_noStack (e0 : GameEngine) (layout : Layout) (e : GameEngine)
    (hl : loadLevel e0 layout = Except.ok e) : NoStack e := by
  cases layout with
  | nil => cases hl
  | cons row0 rest =>
    rw [loadLevel_cons] at hl
    injection hl with hl
    subst hl
    unfold NoStack
    show ((loadRows _ _ _ _).1.zombies.map _).Nodup
    unfold loadRows
    rw [loadRows_fold_zombies]
    show (([] : List (Int × Int)) ++ _).Nodup
    rw [List.nil_append]
    refine List.Nodup.map cellPos_injective ?_
    rw [List.nodup_flatMap]
    refine ⟨fun y _ => scannedZ_nodup _ _ y, ?_⟩
    refine List.Pairwise.imp ?_ (List.pairwise_lt_range _)
    intro a b hab
    show List.Disjoint (scannedZ _ _ a) (scannedZ _ _ b)
    intro p hpa hpb
    have h1 := scannedZ_snd _ _ _ p hpa
    have h2 := scannedZ_snd _ _ _ p hpb
    omega

theorem nodup_map_ne {α β : Type} (f : α → β) (l : List α) (h : (l.map f).Nodup)
    (a b : Nat) (x y : α) (ha : l[a]? = some x) (hb : l[b]? = some y) (hab : a ≠ b) :
    f x ≠ f y := by
  have key : ∀ (i j : Nat) (u v : α), l[i]? = some u → l[j]? = some v → i < j → f u ≠ f v := by
    intro i j u v hi hj hij huv
    have hjl : j < (l.map f).length := by
      rw [List.length_map]
      exact (List.getElem?_eq_some.1 hj).1
    have hne := (List.nodup_iff_getElem?_ne_getElem?.1 h) i j hij hjl
    apply hne
    rw [List.getElem?_map, List.getElem?_map, hi, hj]
    show some (f u) = some (f v)
    rw [huv]
  rcases Nat.lt_or_gt_of_ne hab with hlt | hgt
  · exact key a b x y ha hb hlt
  · exact fun hxy => key b a y x hb ha hgt hxy.symm

theorem nodup_map_of_ne {α β : Type} (f : α → β) (l : List α)
    (h : ∀ (a b : Nat) (x y : α), l[a]? = some x → l[b]? = some y → a < b → f x ≠ f y) :
    (l.map f).Nodup := by
  rw [List.nodup_iff_getElem?_ne_getElem?]
  intro i j hij hj
  rw [List.length_map] at hj
  have hi : i < l.length := by omega
  rw [List.getElem?_map, List.getElem?_map, List.getElem?_eq_getElem hi,
    List.getElem?_eq_getElem hj]
  intro heq
  have heq2 : f l[i] = f l[j] := Option.some.inj heq
  exact h i j l[i] l[j] (List.getElem?_eq_getElem hi) (List.getElem?_eq_getElem hj) hij heq2

/-- The outcomes of the callback, with the check that allowed a step. -/
theorem zombieStep_cases_can (acc : GameEngine × Nat) (i : Nat) (z : Zombie)
    (hz : acc.1.state.zombies[i]? = some z) :
    (zombieStep acc i = (acc.1, acc.2 + 1)) ∨
    (∃ m : Pos, canZombieMoveTo acc.1 (z.x + m.x) (z.y + m.y) z.id = true ∧
      zombieStep acc i =
        (setZombies acc.1 (acc.1.state.zombies.set i (moved z m)), acc.2)) := by
  cases hc : canZombieMoveTo acc.1 (z.x + (primaryMove acc.1 z).x) (z.y + (primaryMove acc.1 z).y) z.id
  · by_cases h0 : (secondaryMove acc.1 z).x ≠ 0 ∨ (secondaryMove acc.1 z).y ≠ 0
    · cases hc2 : canZombieMoveTo acc.1 (z.x + (secondaryMove acc.1 z).x)
        (z.y + (secondaryMove acc.1 z).y) z.id
      · exact Or.inl (zombieStep_trapped acc i z hz hc (Or.inr hc2))
      · exact Or.inr ⟨_, hc2, zombieStep_secondary acc i z hz hc h0 hc2⟩
    · refine Or.inl (zombieStep_trapped acc i z hz hc (Or.inl ?_))
      constructor
      · by_contra h; exact h0 (Or.inl h)
      · by_contra h; exact h0 (Or.inr h)
  · exact Or.inr ⟨_, hc, zombieStep_primary acc i z hz hc⟩

/-- One callback keeps the pursuers on pairwise distinct cells when the ids
are pairwise distinct. -/
theorem zombieStep_noStack (acc : GameEngine × Nat) (i : Nat)
    (hid : (acc.1.state.zombies.map (fun z => z.id)).Nodup) (hns : NoStack acc.1) :
    NoStack (zombieStep acc i).1 := by
  cases hz : acc.1.state.zombies[i]? with
  | none => rw [zombieStep_none acc i hz]; exact hns
  | some z =>
    rcases zombieStep_cases_can acc i z hz with h | ⟨m, hcan, h⟩
    · rw [h]; exact hns
    · rw [h]
      have hfree := ((canZombieMoveTo_iff _ _ _ _).1 hcan).2.2
      have hother : ∀ (b : Nat) (y : Zombie), acc.1.state.zombies[b]? = some y → b ≠ i →
          ¬ (y.x = z.x + m.x ∧ y.y = z.y + m.y) := by
        intro b y hb hbi hpos
        apply hfree
        refine ⟨y, List.getElem?_mem hb, hpos.1, hpos.2, ?_⟩
        exact nodup_map_ne (fun z => z.id) _ hid b i y z hb hz hbi
      unfold NoStack
      show ((acc.1.state.zombies.set i (moved z m)).map (fun z => (z.x, z.y))).Nodup
      apply nodup_map_of_ne
      intro a b x y ha hb hab hxy
      have hx1 : x.x = y.x := congrArg Prod.fst hxy
      have hx2 : x.y = y.y := congrArg Prod.snd hxy
      by_cases hai : a = i
      · subst hai
        rw [getElem?_set_self_of_some _ _ _ _ hz] at ha
        injection ha with ha
        subst ha
        rw [List.getElem?_set_ne (by omega)] at hb
        exact hother b y hb (by omega) ⟨hx1.symm, hx2.symm⟩
      · rw [List.getElem?_set_ne (fun h => hai h.symm)] at ha
        by_cases hbi : b = i
        · subst hbi
          rw [getElem?_set_self_of_some _ _ _ _ hz] at hb
          injection hb with hb
          subst hb
          exact hother a x ha hai ⟨hx1, hx2⟩
        · rw [List.getElem?_set_ne (fun h => hbi h.symm)] at hb
          exact nodup_map_ne (fun z : Zombie => (z.x, z.y)) acc.1.state.zombies hns a b x y ha hb
            (by omega) hxy

/-- A sub-step keeps the pursuers on pairwise distinct cells when the ids are
pairwise distinct. -/
theorem moveZombiesSingleStep_noStack (e : GameEngine)
    (hid : (e.state.zombies.map (fun z => z.id)).Nodup) (hns : NoStack e) :
    NoStack (moveZombiesSingleStep e).1 := by
  unfold moveZombiesSingleStep subStepUpTo
  refine (foldl_preserves
    (fun acc : GameEngine × Nat =>
      (acc.1.state.zombies.map (fun z => z.id)).Nodup ∧ NoStack acc.1)
    zombieStep ?_ _ (e, 0) ⟨hid, hns⟩).2
  intro b a hb
  refine ⟨?_, zombieStep_noStack b a hb.1 hb.2⟩
  rw [zombieStep_ids]
  exact hb.1

theorem processZombieLoop_noStack (n : Nat) (e : GameEngine) (t : Nat)
    (hid : (e.state.zombies.map (fun z => z.id)).Nodup) (hns : NoStack e) :
    NoStack (processZombieLoop n e t).1 := by
  induction n generalizing e t with
  | zero => exact hns
  | succ n ih =>
    cases hg : e.state.isGameOver with
    | true => rw [processZombieLoop_over n e t hg]; exact hns
    | false =>
      have h1 := moveZombiesSingleStep_noStack e hid hns
      cases hl : checkLoss (moveZombiesSingleStep e).1 with
      | true =>
        rw [processZombieLoop_caught n e t hg hl]
        exact h1
      | false =>
        rw [processZombieLoop_continue n e t hg hl]
        apply ih
        · rw [moveZombiesSingleStep_ids]; exact hid
        · exact h1

theorem movePlayer_noStack (e : GameEngine) (dx dy : Int)
    (hid : (e.state.zombies.map (fun z => z.id)).Nodup) (hns : NoStack e) :
    NoStack (movePlayer e dx dy).1 := by
  unfold movePlayer
  split
  · exact hns
  · dsimp only
    split
    · exact hns
    · split
      · exact hns
      · split
        · exact hns
        · split
          · exact processZombieLoop_noStack _ _ _ hid hns
          · exact processZombieLoop_noStack _ _ _ hid hns

theorem reachable_ids_nodup (e : GameEngine) (h : Reachable e) :
    (e.state.zombies.map (fun z => z.id)).Nodup := by
  rw [reachable_ids e h]
  exact List.nodup_range _

/-- C20: on every engine reachable from `loadLevel` of any layout by
`movePlayer` calls no two pursuers stand on the same cell; and a sub-step
started on any engine with pairwise distinct ids and pairwise distinct
pursuer cells ends with pairwise distinct pursuer cells. -/
theorem reachable_noStack (e : GameEngine) (h : Reachable e) :
    NoStack e ∧
    (∀ (a b : Nat) (za zb : Zombie), e.state.zombies[a]? = some za →
      e.state.zombies[b]? = some zb → a ≠ b → ¬ (za.x = zb.x ∧ za.y = zb.y)) ∧
    (∀ s : GameEngine, (s.state.zombies.map (fun z => z.id)).Nodup → NoStack s →
      NoStack (moveZombiesSingleStep s).1) := by
  have hns : NoStack e := by
    induction h with
    | load e0 layout e hl => exact loadLevel_noStack e0 layout e hl
    | move e dx dy hr ih => exact movePlayer_noStack e dx dy (reachable_ids_nodup e hr) ih
  refine ⟨hns, ?_, moveZombiesSingleStep_noStack⟩
  intro a b za zb ha hb hab hpos
  refine nodup_map_ne (fun z : Zombie => (z.x, z.y)) e.state.zombies hns a b za zb ha hb hab ?_
  show (za.x, za.y) = (zb.x, zb.y)
  rw [hpos.1, hpos.2]

/-- Witness of C20: after two turns on `["ZZ...", ".....", "....P"]` the two
pursuers, which started side by side, are still on different cells. -/
theorem reachable_noStack_witness :
    Reachable (runMoves (loaded ["ZZ...", ".....", "....P"]) [(-1, 0), (-1, 0)]).1 ∧
    (runMoves (loaded ["ZZ...", ".....", "....P"]) [(-1, 0), (-1, 0)]).1.state.zombies =
      [{ x := 1, y := 2, id := 0 }, { x := 2, y := 2, id := 1 }] ∧
    NoStack (runMoves (loaded ["ZZ...", ".....", "....P"]) [(-1, 0), (-1, 0)]).1 :=
  ⟨Reachable.move _ (-1) 0 (Reachable.move _ (-1) 0
      (Reachable.load fresh (layoutOf ["ZZ...", ".....", "....P"]) _ rfl)),
   by decide,
   (reachable_noStack (runMoves (loaded ["ZZ...", ".....", "....P"]) [(-1, 0), (-1, 0)]).1
      (Reachable.move _ (-1) 0 (Reachable.move _ (-1) 0
        (Reachable.load fresh (layoutOf ["ZZ...", ".....", "....P"]) _ rfl)))).1⟩

/-! ## The flag `isGameOver` and the status -/

theorem consistent_iff (e : GameEngine) :
    Consistent e ↔
      (e.state.isGameOver = true ↔
        (e.state.status = Status.won ∨ e.state.status = Status.lost)) := by
  unfold Consistent
  cases e.state.status <;> simp

theorem reachableFrom_reachable (layout : Layout) (e : GameEngine)
    (h : ReachableFrom layout e) : Reachable e := by
  induction h with
  | load e0 e hl => exact Reachable.load e0 layout e hl
  | move e dx dy _ ih => exact Reachable.move e dx dy ih

/-- C28: on every engine reachable from a new engine or from `loadLevel` by
`movePlayer` calls, `isGameOver` is true exactly when the status is `'won'` or
`'lost'`; so the test on `isGameOver` at the head of `movePlayer` is the test
for a terminal status. -/
theorem reachableAny_flag_iff_terminal (e : GameEngine) (h : ReachableAny e) :
    (e.state.isGameOver = true ↔
      (e.state.status = Status.won ∨ e.state.status = Status.lost)) ∧
    (e.state.isGameOver = false ↔ e.state.status = Status.playing) := by
  have hc : Consistent e := by
    induction h with
    | new width height => simp [Consistent, GameEngine.new, getInitialState]
    | load e0 layout e hl => exact loadLevel_consistent e0 layout e hl
    | move e dx dy _ ih => exact movePlayer_consistent e dx dy ih
  refine ⟨(consistent_iff e).1 hc, ?_⟩
  unfold Consistent at hc
  cases hg : e.state.isGameOver
  · constructor
    · intro _
      by_contra hs
      have := hc.2 hs
      rw [hg] at this
      cases this
    · intro _; rfl
  · constructor
    · intro h; cases h
    · intro hs
      exact absurd hs (hc.1 hg)

/-- Witness of C28: a new engine is not over and `'playing'`; after the capture
on `["PZE"]` the flag is set and the status is `'lost'`. -/
theorem reachableAny_flag_iff_terminal_witness :
    ReachableAny (movePlayer (loaded ["PZE"]) 1 0).1 ∧
    (movePlayer (loaded ["PZE"]) 1 0).1.state.isGameOver = true ∧
    (movePlayer (loaded ["PZE"]) 1 0).1.state.status = Status.lost ∧
    ((movePlayer (loaded ["PZE"]) 1 0).1.state.isGameOver = true ↔
      ((movePlayer (loaded ["PZE"]) 1 0).1.state.status = Status.won ∨
       (movePlayer (loaded ["PZE"]) 1 0).1.state.status = Status.lost)) ∧
    (fresh.state.isGameOver = false ↔ fresh.state.status = Status.playing) :=
  ⟨ReachableAny.move _ 1 0 (ReachableAny.load fresh (layoutOf ["PZE"]) _ rfl),
   by decide, by decide,
   (reachableAny_flag_iff_terminal (movePlayer (loaded ["PZE"]) 1 0).1
     (ReachableAny.move _ 1 0 (ReachableAny.load fresh (layoutOf ["PZE"]) _ rfl))).1,
   (reachableAny_flag_iff_terminal fresh (ReachableAny.new none none)).2⟩

/-! ## What `movePlayer` never touches -/

theorem processZombieTurn_fixed (e : GameEngine) :
    (processZombieTurn e).1.width = e.width ∧
    (processZombieTurn e).1.height = e.height ∧
    (processZombieTurn e).1.state.walls = e.state.walls ∧
    (processZombieTurn e).1.state.exit = e.state.exit ∧
    (processZombieTurn e).1.state.player = e.state.player := by
  obtain ⟨zs, h | h⟩ := processZombieTurn_shape e
  · rw [h]; exact ⟨rfl, rfl, rfl, rfl, rfl⟩
  · rw [h]; exact ⟨rfl, rfl, rfl, rfl, rfl⟩

theorem movePlayer_fixed (e : GameEngine) (dx dy : Int) :
    (movePlayer e dx dy).1.width = e.width ∧
    (movePlayer e dx dy).1.height = e.height ∧
    (movePlayer e dx dy).1.state.walls = e.state.walls ∧
    (movePlayer e dx dy).1.state.exit = e.state.exit := by
  unfold movePlayer
  split
  · exact ⟨rfl, rfl, rfl, rfl⟩
  · dsimp only
    split
    · exact ⟨rfl, rfl, rfl, rfl⟩
    · split
      · exact ⟨rfl, rfl, rfl, rfl⟩
      · split
        · exact ⟨rfl, rfl, rfl, rfl⟩
        · have h := processZombieTurn_fixed
            (commitMove e (e.state.player.x + dx) (e.state.player.y + dy))
          split
          · exact ⟨h.1, h.2.1, h.2.2.1, h.2.2.2.1⟩
          · exact ⟨h.1, h.2.1, h.2.2.1, h.2.2.2.1⟩

/-- C22: `movePlayer` leaves the wall list, the exit, `width`, `height` and
the number, order and ids of the pursuers as they were, for every engine and
intent. -/
theorem movePlayer_frame (e : GameEngine) (dx dy : Int) :
    (movePlayer e dx dy).1.state.walls = e.state.walls ∧
    (movePlayer e dx dy).1.state.exit = e.state.exit ∧
    (movePlayer e dx dy).1.width = e.width ∧
    (movePlayer e dx dy).1.height = e.height ∧
    (movePlayer e dx dy).1.state.zombies.length = e.state.zombies.length ∧
    (movePlayer e dx dy).1.state.zombies.map (fun z => z.id) =
      e.state.zombies.map (fun z => z.id) ∧
    (∀ (k : Nat) (z : Zombie), e.state.zombies[k]? = some z →
      ∃ z2 : Zombie, (movePlayer e dx dy).1.state.zombies[k]? = some z2 ∧ z2.id = z.id) := by
  have hf := movePlayer_fixed e dx dy
  have hids := movePlayer_ids e dx dy
  have hlen : (movePlayer e dx dy).1.state.zombies.length = e.state.zombies.length := by
    have := congrArg List.length hids
    rw [List.length_map, List.length_map] at this
    exact this
  refine ⟨hf.2.2.1, hf.2.2.2, hf.1, hf.2.1, hlen, hids, ?_⟩
  intro k z hz
  have hk : k < e.state.zombies.length := (List.getElem?_eq_some.1 hz).1
  have hk2 : k < (movePlayer e dx dy).1.state.zombies.length := by omega
  refine ⟨(movePlayer e dx dy).1.state.zombies[k], List.getElem?_eq_getElem hk2, ?_⟩
  have h1 : ((movePlayer e dx dy).1.state.zombies.map (fun z => z.id))[k]? =
      some ((movePlayer e dx dy).1.state.zombies[k]).id := by
    rw [List.getElem?_map, List.getElem?_eq_getElem hk2]; rfl
  have h2 : (e.state.zombies.map (fun z => z.id))[k]? = some z.id := by
    rw [List.getElem?_map, hz]; rfl
  rw [hids, h2] at h1
  injection h1 with h1
  exact h1.symm

/-! ## Pursuers only ever step toward the agent -/

theorem sign_step (d : Int) (h : d ≠ 0) :
    (d - Int.sign d).natAbs + 1 = d.natAbs ∧ (Int.sign d).natAbs = 1 := by
  rcases lt_trichotomy d 0 with h1 | h1 | h1
  · rw [Int.sign_eq_neg_one_of_neg h1]; omega
  · exact absurd h1 h
  · rw [Int.sign_eq_one_of_pos h1]; omega

theorem moved_zero (z : Zombie) : moved z { x := 0, y := 0 } = z := by
  cases z
  simp [moved]

/-- The first candidate is no step at all or one cell toward the agent. -/
theorem primaryMove_toward (e : GameEngine) (z : Zombie) :
    primaryMove e z = { x := 0, y := 0 } ∨ StepsToward e z (primaryMove e z) := by
  unfold primaryMove StepsToward dist moved
  by_cases hc : (e.state.player.x - z.x).natAbs > (e.state.player.y - z.y).natAbs
  · simp only [hc, if_true]
    right
    have hd : e.state.player.x - z.x ≠ 0 := by omega
    have hs := sign_step _ hd
    refine ⟨Or.inr ⟨trivial, hs.2⟩, ?_⟩
    have : e.state.player.x - (z.x + Int.sign (e.state.player.x - z.x)) =
        e.state.player.x - z.x - Int.sign (e.state.player.x - z.x) := by omega
    simp only [this, add_zero]
    omega
  · simp only [hc, if_false]
    by_cases hd : e.state.player.y - z.y = 0
    · left
      rw [hd]; rfl
    · right
      have hs := sign_step _ hd
      refine ⟨Or.inl ⟨trivial, hs.2⟩, ?_⟩
      have : e.state.player.y - (z.y + Int.sign (e.state.player.y - z.y)) =
          e.state.player.y - z.y - Int.sign (e.state.player.y - z.y) := by omega
      simp only [this, add_zero]
      omega

/-- The second candidate, when there is one, is one cell toward the agent. -/
theorem secondaryMove_toward (e : GameEngine) (z : Zombie)
    (h : (secondaryMove e z).x ≠ 0 ∨ (secondaryMove e z).y ≠ 0) :
    StepsToward e z (secondaryMove e z) := by
  have hm : minorDelta e z ≠ 0 := by
    intro h0
    have hz := secondaryMove_zero_of_minor e z h0
    rcases h with h | h
    · exact h hz.1
    · exact h hz.2
  rw [secondaryMove_eq_of_minor e z hm]
  unfold minorDelta at hm
  unfold StepsToward dist moved
  by_cases hc : (e.state.player.x - z.x).natAbs > (e.state.player.y - z.y).natAbs
  · simp only [hc, if_true] at hm ⊢
    have hs := sign_step _ hm
    refine ⟨Or.inl ⟨trivial, hs.2⟩, ?_⟩
    have : e.state.player.y - (z.y + Int.sign (e.state.player.y - z.y)) =
        e.state.player.y - z.y - Int.sign (e.state.player.y - z.y) := by omega
    simp only [this, add_zero]
    omega
  · simp only [hc, if_false] at hm ⊢
    have hs := sign_step _ hm
    refine ⟨Or.inr ⟨trivial, hs.2⟩, ?_⟩
    have : e.state.player.x - (z.x + Int.sign (e.state.player.x - z.x)) =
        e.state.player.x - z.x - Int.sign (e.state.player.x - z.x) := by omega
    simp only [this, add_zero]
    omega

/-- The outcomes of the callback, with the candidate that was taken. -/
theorem zombieStep_cases_move (acc : GameEngine × Nat) (i : Nat) (z : Zombie)
    (hz : acc.1.state.zombies[i]? = some z) :
    (zombieStep acc i = (acc.1, acc.2 + 1)) ∨
    (∃ m : Pos, (m = { x := 0, y := 0 } ∨ StepsToward acc.1 z m) ∧
      zombieStep acc i =
        (setZombies acc.1 (acc.1.state.zombies.set i (moved z m)), acc.2)) := by
  cases hc : canZombieMoveTo acc.1 (z.x + (primaryMove acc.1 z).x) (z.y + (primaryMove acc.1 z).y) z.id
  · by_cases h0 : (secondaryMove acc.1 z).x ≠ 0 ∨ (secondaryMove acc.1 z).y ≠ 0
    · cases hc2 : canZombieMoveTo acc.1 (z.x + (secondaryMove acc.1 z).x)
        (z.y + (secondaryMove acc.1 z).y) z.id
      · exact Or.inl (zombieStep_trapped acc i z hz hc (Or.inr hc2))
      · exact Or.inr ⟨_, Or.inr (secondaryMove_toward acc.1 z h0),
          zombieStep_secondary acc i z hz hc h0 hc2⟩
    · refine Or.inl (zombieStep_trapped acc i z hz hc (Or.inl ?_))
      constructor
      · by_contra h; exact h0 (Or.inl h)
      · by_contra h; exact h0 (Or.inr h)
  · exact Or.inr ⟨_, primaryMove_toward acc.1 z, zombieStep_primary acc i z hz hc⟩

theorem stepsToward_live (e : GameEngine) (k : Nat) (z : Zombie) (m : Pos)
    (h : StepsToward (subStepUpTo e k).1 z m) : StepsToward e z m := by
  unfold StepsToward dist at h ⊢
  rw [subStepUpTo_player] at h
  exact h

/-- Where pursuer `i` is after a sub-step: where it was, or one orthogonal
cell away and one cell closer to the agent. -/
theorem moveZombiesSingleStep_toward (e : GameEngine) (i : Nat) (z : Zombie)
    (hz : e.state.zombies[i]? = some z) :
    (moveZombiesSingleStep e).1.state.zombies[i]? = some z ∨
    ∃ m : Pos, StepsToward e z m ∧
      (moveZombiesSingleStep e).1.state.zombies[i]? = some (moved z m) := by
  have hlive : (subStepUpTo e i).1.state.zombies[i]? = some z := (live_get_self e i).trans hz
  rw [moveZombiesSingleStep_get e i z hz]
  rcases zombieStep_cases_move (subStepUpTo e i) i z hlive with h | ⟨m, hm, h⟩
  · rw [h]; exact Or.inl hlive
  · rw [h]
    have hget : (setZombies (subStepUpTo e i).1
        ((subStepUpTo e i).1.state.zombies.set i (moved z m))).state.zombies[i]? =
        some (moved z m) := getElem?_set_self_of_some _ _ _ _ hlive
    rcases hm with hm | hm
    · left
      rw [hget, hm, moved_zero]
    · right
      exact ⟨m, stepsToward_live e i z m hm, hget⟩

/-- The pursuers after `movePlayer` are those before the call, or those after
one or after two sub-steps on the engine with the agent's step committed. -/
theorem movePlayer_zombies_cases (e : GameEngine) (dx dy : Int) :
    (movePlayer e dx dy).1.state.zombies = e.state.zombies ∨
    (movePlayer e dx dy).1.state.zombies =
      (subSteps 1 (commitMove e (e.state.player.x + dx) (e.state.player.y + dy))).state.zombies ∨
    (movePlayer e dx dy).1.state.zombies =
      (subSteps 2 (commitMove e (e.state.player.x + dx) (e.state.player.y + dy))).state.zombies := by
  cases hg : e.state.isGameOver with
  | true => rw [movePlayer_over e dx dy hg]; exact Or.inl rfl
  | false =>
    cases hv : isValidMove e (e.state.player.x + dx) (e.state.player.y + dy) with
    | false => rw [movePlayer_invalid e dx dy hv]; exact Or.inl rfl
    | true =>
      cases hz : isZombieAt e (e.state.player.x + dx) (e.state.player.y + dy) none with
      | true => rw [movePlayer_onZombie e dx dy hg hv hz]; exact Or.inl rfl
      | false =>
        by_cases hx : e.state.player.x + dx = e.state.exit.x ∧
            e.state.player.y + dy = e.state.exit.y
        · rw [movePlayer_onExit e dx dy hg hv hz hx]; exact Or.inl rfl
        · rw [movePlayer_pursuit e dx dy hg hv hz hx]
          have hg1 : (commitMove e (e.state.player.x + dx)
              (e.state.player.y + dy)).state.isGameOver = false := hg
          generalize commitMove e (e.state.player.x + dx) (e.state.player.y + dy) = e1 at hg1 ⊢
          right
          cases hl : checkLoss (moveZombiesSingleStep e1).1 with
          | true =>
            left
            rw [processZombieTurn_caught_first e1 hg1 hl]
            simp only [checkLoss_gameOver, hl, if_true]
            rfl
          | false =>
            right
            cases hl2 : checkLoss (moveZombiesSingleStep (moveZombiesSingleStep e1).1).1 with
            | true =>
              rw [processZombieTurn_caught_second e1 hg1 hl hl2]
              simp only [checkLoss_gameOver, hl2, if_true]
              rfl
            | false =>
              rw [processZombieTurn_free e1 hg1 hl hl2]
              simp only [hl2]
              rfl

/-- A sub-step moves pursuer `i` by at most one cell and keeps its id. -/
theorem moveZombiesSingleStep_disp (e : GameEngine) (i : Nat) (z : Zombie)
    (hz : e.state.zombies[i]? = some z) :
    ∃ z2 : Zombie, (moveZombiesSingleStep e).1.state.zombies[i]? = some z2 ∧
      (z2.x - z.x).natAbs + (z2.y - z.y).natAbs ≤ 1 := by
  rcases moveZombiesSingleStep_toward e i z hz with h | ⟨m, hm, h⟩
  · exact ⟨z, h, by omega⟩
  · refine ⟨moved z m, h, ?_⟩
    unfold StepsToward at hm
    unfold moved
    dsimp only
    rcases hm.1 with ⟨h1, h2⟩ | ⟨h1, h2⟩
    · rw [h1]; omega
    · rw [h1]; omega

/-- C26: after one `moveZombiesSingleStep`, on any engine, every pursuer is
where it was, at the same Manhattan distance from the agent, or exactly one
orthogonal cell away and exactly one cell closer to the agent; it never moves
away, diagonally or by more than one cell.  After a whole `movePlayer` call it
is at most two cells from where it was. -/
theorem substep_manhattan (e : GameEngine) (i : Nat) (z : Zombie)
    (hz : e.state.zombies[i]? = some z) :
    (∃ z2 : Zombie, (moveZombiesSingleStep e).1.state.zombies[i]? = some z2 ∧
      z2.id = z.id ∧
      ((z2.x = z.x ∧ z2.y = z.y ∧ dist e z2 = dist e z) ∨
       (((z2.x = z.x ∧ (z2.y - z.y).natAbs = 1) ∨ (z2.y = z.y ∧ (z2.x - z.x).natAbs = 1)) ∧
        dist e z2 + 1 = dist e z))) ∧
    (∀ dx dy : Int, ∃ z3 : Zombie, (movePlayer e dx dy).1.state.zombies[i]? = some z3 ∧
      (z3.x - z.x).natAbs + (z3.y - z.y).natAbs ≤ 2) := by
  constructor
  · rcases moveZombiesSingleStep_toward e i z hz with h | ⟨m, hm, h⟩
    · exact ⟨z, h, rfl, Or.inl ⟨rfl, rfl, rfl⟩⟩
    · refine ⟨moved z m, h, rfl, Or.inr ⟨?_, hm.2⟩⟩
      unfold moved
      dsimp only
      rcases hm.1 with ⟨h1, h2⟩ | ⟨h1, h2⟩
      · left
        rw [h1]
        constructor
        · omega
        · omega
      · right
        rw [h1]
        constructor
        · omega
        · omega
  · intro dx dy
    have hz1 : (commitMove e (e.state.player.x + dx)
        (e.state.player.y + dy)).state.zombies[i]? = some z := hz
    obtain ⟨z2, h2, d2⟩ := moveZombiesSingleStep_disp _ i z hz1
    obtain ⟨z3, h3, d3⟩ := moveZombiesSingleStep_disp _ i z2 h2
    rcases movePlayer_zombies_cases e dx dy with h | h | h
    · rw [h]; exact ⟨z, hz, by omega⟩
    · rw [h]; exact ⟨z2, h2, by omega⟩
    · rw [h]; exact ⟨z3, h3, by omega⟩

/-- Witness of C26: on the open grid `["Z..", "...", "..P"]` the pursuer goes
from distance 4 to distance 3 in one sub-step, straight down. -/
theorem substep_manhattan_witness :
    (loaded ["Z..", "...", "..P"]).state.zombies[0]? = some { x := 0, y := 0, id := 0 } ∧
    dist (loaded ["Z..", "...", "..P"]) { x := 0, y := 0, id := 0 } = 4 ∧
    (moveZombiesSingleStep (loaded ["Z..", "...", "..P"])).1.state.zombies[0]? =
      some { x := 0, y := 1, id := 0 } ∧
    dist (loaded ["Z..", "...", "..P"]) { x := 0, y := 1, id := 0 } = 3 ∧
    (∃ z2 : Zombie,
      (moveZombiesSingleStep (loaded ["Z..", "...", "..P"])).1.state.zombies[0]? = some z2 ∧
      z2.id = 0 ∧
      ((z2.x = 0 ∧ z2.y = 0 ∧ dist (loaded ["Z..", "...", "..P"]) z2 =
          dist (loaded ["Z..", "...", "..P"]) { x := 0, y := 0, id := 0 }) ∨
       (((z2.x = 0 ∧ (z2.y - 0).natAbs = 1) ∨ (z2.y = 0 ∧ (z2.x - 0).natAbs = 1)) ∧
        dist (loaded ["Z..", "...", "..P"]) z2 + 1 =
          dist (loaded ["Z..", "...", "..P"]) { x := 0, y := 0, id := 0 }))) :=
  ⟨by decide, by decide, by decide, by decide,
   (substep_manhattan (loaded ["Z..", "...", "..P"]) 0 { x := 0, y := 0, id := 0 }
      (by decide)).1⟩

/-! ## The display grid -/

theorem foldl_push {α β : Type} (f : α → β) (l : List α) (init : List β) :
    l.foldl (fun acc x => acc ++ [f x]) init = init ++ l.map f := by
  induction l generalizing init with
  | nil => simp
  | cons a t ih => rw [List.foldl_cons, ih]; simp

theorem serializeRow_eq (e : GameEngine) (y : Nat) :
    serializeRow e y = (List.range e.width.toNat).map (fun x => serializeCell e x y) := by
  unfold serializeRow
  rw [foldl_push]
  rfl

theorem serialize_eq (e : GameEngine) :
    serialize e = (List.range e.height.toNat).map (fun y => serializeRow e y) := by
  unfold serialize
  rw [foldl_push]
  rfl

theorem pos_eq_iff (p : Pos) (x y : Int) : p = { x := x, y := y } ↔ p.x = x ∧ p.y = y := by
  cases p
  simp

theorem serializeCell_eq_labelOf (e : GameEngine) (x y : Nat) :
    serializeCell e x y = labelOf e x y := by
  unfold serializeCell labelOf
  have hz : (e.state.zombies.any (fun z => decide (z.x = (x : Int)) && decide (z.y = (y : Int)))
      = true) ↔ PursuerAt e (x : Int) (y : Int) := by
    simp [PursuerAt, List.any_eq_true]
  have hw : (e.state.walls.any (fun w => decide (w.x = (x : Int)) && decide (w.y = (y : Int)))
      = true) ↔ WallAt e (x : Int) (y : Int) := by
    simp [WallAt, List.any_eq_true]
  simp only [hz, hw, pos_eq_iff]

/-- C23: `serialize()` returns `height` rows of `width` characters, and the
character at `(x, y)` is `P` if the agent is there, otherwise `Z` if a pursuer
is there, otherwise `#` if the cell is a wall, otherwise `E` if it is the
exit, otherwise `.`. -/
theorem serialize_spec (e : GameEngine) :
    (serialize e).length = e.height.toNat ∧
    (∀ y : Nat, y < e.height.toNat →
      ∃ row : List Char, (serialize e)[y]? = some row ∧ row.length = e.width.toNat ∧
        ∀ x : Nat, x < e.width.toNat →
          row[x]? = some
            (if e.state.player = { x := (x : Int), y := (y : Int) } then 'P'
             else if PursuerAt e (x : Int) (y : Int) then 'Z'
             else if WallAt e (x : Int) (y : Int) then '#'
             else if e.state.exit = { x := (x : Int), y := (y : Int) } then 'E'
             else '.')) := by
  rw [serialize_eq]
  constructor
  · rw [List.length_map, List.length_range]
  · intro y hy
    refine ⟨serializeRow e y, ?_, ?_, ?_⟩
    · rw [List.getElem?_map, List.getElem?_range hy]; rfl
    · rw [serializeRow_eq, List.length_map, List.length_range]
    · intro x hx
      rw [serializeRow_eq, List.getElem?_map, List.getElem?_range hx]
      show some (serializeCell e x y) = some (labelOf e x y)
      rw [serializeCell_eq_labelOf]

/-- Witness of C23: after the capture on `["ZP"]` the agent, the pursuer and the
exit are all on `(0, 0)`; the display shows `P` there. -/
theorem serialize_spec_witness :
    (movePlayer (loaded ["ZP"]) (-1) 0).1.state.player = { x := 0, y := 0 } ∧
    PursuerAt (movePlayer (loaded ["ZP"]) (-1) 0).1 0 0 ∧
    (movePlayer (loaded ["ZP"]) (-1) 0).1.state.exit = { x := 0, y := 0 } ∧
    serialize (movePlayer (loaded ["ZP"]) (-1) 0).1 = layoutOf ["P."] ∧
    serialize (loaded ["P.#", ".Z#", "..E"]) = layoutOf ["P.#", ".Z#", "..E"] ∧
    (serialize (movePlayer (loaded ["ZP"]) (-1) 0).1).length =
      (movePlayer (loaded ["ZP"]) (-1) 0).1.height.toNat :=
  ⟨by decide, by decide, by decide, by decide, by decide,
   (serialize_spec (movePlayer (loaded ["ZP"]) (-1) 0).1).1⟩

/-! ## Transposing a layout (`game.js`) -/

theorem foldl_concat {α β : Type} (f : α → List β) (l : List α) (init : List β) :
    l.foldl (fun acc x => acc ++ f x) init = init ++ l.flatMap f := by
  induction l generalizing init with
  | nil => simp
  | cons a t ih => rw [List.foldl_cons, ih]; simp

theorem transposeLayout_eq (layout : Layout) (h : layout ≠ []) :
    transposeLayout layout =
      Except.ok ((List.range (layout.headD []).length).map
        (fun x => (List.range layout.length).flatMap (fun y => cellText layout x y))) := by
  cases layout with
  | nil => exact absurd rfl h
  | cons row0 rest =>
    unfold transposeLayout
    dsimp only
    rw [foldl_push (fun x => (List.range (row0 :: rest).length).foldl
      (fun row y => row ++ cellText (row0 :: rest) x y) [])]
    congr 1
    rw [List.nil_append]
    apply List.map_congr_left
    intro x _
    rw [foldl_concat]
    rfl

theorem grid_length (r c : Nat) (g : Nat → Nat → Char) : (grid r c g).length = r := by
  unfold grid
  rw [List.length_map, List.length_range]

theorem grid_getElem? (r c : Nat) (g : Nat → Nat → Char) (y : Nat) (hy : y < r) :
    (grid r c g)[y]? = some ((List.range c).map (fun x => g x y)) := by
  unfold grid
  rw [List.getElem?_map, List.getElem?_range hy]
  rfl

theorem grid_ne_nil (r c : Nat) (g : Nat → Nat → Char) (hr : 0 < r) : grid r c g ≠ [] := by
  intro h
  have := grid_length r c g
  rw [h] at this
  simp at this
  omega

theorem grid_headD (r c : Nat) (g : Nat → Nat → Char) (hr : 0 < r) :
    ((grid r c g).headD []).length = c := by
  have h0 := grid_getElem? r c g 0 hr
  have : (grid r c g).headD [] = (List.range c).map (fun x => g x 0) := by
    rw [List.headD_eq_head?_getD, List.head?_eq_getElem?, h0]
    rfl
  rw [this, List.length_map, List.length_range]

theorem cellText_grid (r c : Nat) (g : Nat → Nat → Char) (x y : Nat) (hx : x < c) (hy : y < r) :
    cellText (grid r c g) x y = [g x y] := by
  unfold cellText
  rw [grid_getElem? r c g y hy]
  dsimp only
  rw [List.getElem?_map, List.getElem?_range hx]
  rfl

theorem flatMap_singleton_eq_map {α β : Type} (f : α → List β) (g : α → β) (l : List α)
    (h : ∀ a ∈ l, f a = [g a]) : l.flatMap f = l.map g := by
  induction l with
  | nil => rfl
  | cons a t ih =>
    rw [List.flatMap_cons, List.map_cons, h a (List.mem_cons_self _ _),
      ih (fun b hb => h b (List.mem_cons_of_mem _ hb))]
    rfl

/-- Transposing the `r` by `c` grid of `g` gives the `c` by `r` grid of `g`
with the coordinates swapped. -/
theorem transposeLayout_grid (r c : Nat) (g : Nat → Nat → Char) (hr : 0 < r) :
    transposeLayout (grid r c g) = Except.ok (grid c r (fun y x => g x y)) := by
  rw [transposeLayout_eq _ (grid_ne_nil r c g hr), grid_headD r c g hr, grid_length]
  congr 1
  unfold grid
  apply List.map_congr_left
  intro x hx
  apply flatMap_singleton_eq_map
  intro y hy
  exact cellText_grid r c g x y (List.mem_range.1 hx) (List.mem_range.1 hy)

/-- A rectangular layout is the grid of its own characters. -/
theorem rect_eq_grid (r c : Nat) (layout : Layout) (h : Rect r c layout) :
    layout = grid r c (fun x y => (charAt layout x y).getD '.') := by
  apply List.ext_getElem?
  intro y
  by_cases hy : y < r
  · rw [grid_getElem? r c _ y hy]
    have hyl : y < layout.length := by rw [h.1]; exact hy
    rw [List.getElem?_eq_getElem hyl]
    congr 1
    have hlen : (layout[y]).length = c := h.2 _ (List.getElem_mem _)
    apply List.ext_getElem?
    intro x
    by_cases hx : x < c
    · rw [List.getElem?_map, List.getElem?_range hx]
      have hxl : x < (layout[y]).length := by rw [hlen]; exact hx
      rw [List.getElem?_eq_getElem hxl]
      show some _ = some ((charAt layout x y).getD '.')
      unfold charAt
      rw [List.getElem?_eq_getElem hyl]
      dsimp only
      rw [List.getElem?_eq_getElem hxl]
      rfl
    · rw [List.getElem?_eq_none (by rw [hlen]; omega),
        List.getElem?_eq_none (by rw [List.length_map, List.length_range]; omega)]
  · rw [List.getElem?_eq_none (by rw [h.1]; omega),
      List.getElem?_eq_none (by rw [grid_length]; omega)]

theorem rect_grid (r c : Nat) (g : Nat → Nat → Char) : Rect r c (grid r c g) := by
  refine ⟨grid_length r c g, ?_⟩
  intro row hrow
  unfold grid at hrow
  rw [List.mem_map] at hrow
  obtain ⟨y, -, rfl⟩ := hrow
  rw [List.length_map, List.length_range]

/-- The transpose of an `r` by `c` layout exists and is `c` by `r`. -/
theorem transposeLayout_rect (r c : Nat) (layout : Layout) (hr : 1 ≤ r)
    (h : Rect r c layout) :
    ∃ t : Layout, transposeLayout layout = Except.ok t ∧ Rect c r t := by
  have hg := rect_eq_grid r c layout h
  generalize (fun x y => (charAt layout x y).getD '.') = g at hg
  subst hg
  exact ⟨grid c r (fun y x => g x y), transposeLayout_grid r c g hr, rect_grid c r _⟩

/-- C29: for a layout of `r >= 1` rows of equal length `c >= 1`,
`transposeLayout` returns `c` rows of length `r` whose character at column `y`
of row `x` is the character of the layout at column `x` of row `y`; and
transposing the result gives the layout back. -/
theorem transposeLayout_spec (r c : Nat) (layout : Layout) (hr : 1 ≤ r) (hc : 1 ≤ c)
    (h : Rect r c layout) :
    ∃ t : Layout, transposeLayout layout = Except.ok t ∧
      t.length = c ∧ (∀ row ∈ t, row.length = r) ∧
      (∀ x y : Nat, x < c → y < r →
        ∃ (trow lrow : List Char) (ch : Char),
          t[x]? = some trow ∧ layout[y]? = some lrow ∧ trow[y]? = some ch ∧ lrow[x]? = some ch) ∧
      transposeLayout t = Except.ok layout := by
  have hg := rect_eq_grid r c layout h
  generalize (fun x y => (charAt layout x y).getD '.') = g at hg
  subst hg
  refine ⟨grid c r (fun y x => g x y), transposeLayout_grid r c g hr, grid_length _ _ _,
    (rect_grid c r _).2, ?_, ?_⟩
  · intro x y hx hy
    refine ⟨(List.range r).map (fun y => g x y), (List.range c).map (fun x => g x y), g x y,
      grid_getElem? c r _ x hx, grid_getElem? r c g y hy, ?_, ?_⟩
    · rw [List.getElem?_map, List.getElem?_range hy]; rfl
    · rw [List.getElem?_map, List.getElem?_range hx]; rfl
  · exact transposeLayout_grid c r (fun y x => g x y) hc

/-- Witness of C29: the 2 by 3 layout `["P.#", "ZE."]` and its transpose. -/
theorem transposeLayout_spec_witness :
    Rect 2 3 (layoutOf ["P.#", "ZE."]) ∧
    (∃ t : Layout, transposeLayout (layoutOf ["P.#", "ZE."]) = Except.ok t ∧
      t = layoutOf ["PZ", ".E", "#."]) ∧
    ∃ t : Layout, transposeLayout (layoutOf ["P.#", "ZE."]) = Except.ok t ∧
      t.length = 3 ∧ (∀ row ∈ t, row.length = 2) ∧
      (∀ x y : Nat, x < 3 → y < 2 →
        ∃ (trow lrow : List Char) (ch : Char),
          t[x]? = some trow ∧ (layoutOf ["P.#", "ZE."])[y]? = some lrow ∧
          trow[y]? = some ch ∧ lrow[x]? = some ch) ∧
      transposeLayout t = Except.ok (layoutOf ["P.#", "ZE."]) :=
  ⟨by decide, ⟨_, rfl, by decide⟩,
   transposeLayout_spec 2 3 (layoutOf ["P.#", "ZE."]) (by decide) (by decide) (by decide)⟩

/-! ## Fitting a layout to the screen (`game.js`) -/

theorem fitLayoutToScreen_eq (screenW screenH : Int) (layout : Layout) (h : layout ≠ []) :
    fitLayoutToScreen screenW screenH layout =
      if (layout.headD []).length = layout.length then Except.ok layout
      else if screenW = screenH then Except.ok layout
      else if decide ((layout.headD []).length > layout.length) ≠ decide (screenW > screenH)
        then transposeLayout layout
      else Except.ok layout := by
  cases layout with
  | nil => exact absurd rfl h
  | cons row0 rest => rfl

theorem rect_ne_nil (r c : Nat) (layout : Layout) (hr : 1 ≤ r) (h : Rect r c layout) :
    layout ≠ [] := by
  intro hl
  have := h.1
  rw [hl] at this
  simp at this
  omega

theorem rect_headD (r c : Nat) (layout : Layout) (hr : 1 ≤ r) (h : Rect r c layout) :
    (layout.headD []).length = c := by
  cases layout with
  | nil => exact absurd rfl (rect_ne_nil r c [] hr h)
  | cons row0 rest => exact h.2 row0 (List.mem_cons_self _ _)

/-- C30: for a layout of `r >= 1` rows of equal length `c >= 1` and a screen
`screenW` by `screenH`: when `c ≠ r` and `screenW ≠ screenH` the layout
returned by `fitLayoutToScreen` is wider than tall exactly when the screen is,
being the input when the orientations agree and its transpose otherwise; when
`c = r` or `screenW = screenH` the input is returned unchanged. -/
theorem fitLayoutToScreen_spec (screenW screenH : Int) (r c : Nat) (layout : Layout)
    (hr : 1 ≤ r) (hc : 1 ≤ c) (h : Rect r c layout) :
    (c ≠ r → screenW ≠ screenH →
      ∃ out : Layout, fitLayoutToScreen screenW screenH layout = Except.ok out ∧
        (WiderThanTall out ↔ screenW > screenH) ∧
        ((c > r ↔ screenW > screenH) → out = layout) ∧
        (¬ (c > r ↔ screenW > screenH) → transposeLayout layout = Except.ok out)) ∧
    ((c = r ∨ screenW = screenH) →
      fitLayoutToScreen screenW screenH layout = Except.ok layout) := by
  have hne := rect_ne_nil r c layout hr h
  have hhd := rect_headD r c layout hr h
  rw [fitLayoutToScreen_eq screenW screenH layout hne, hhd, h.1]
  constructor
  · intro hcr hs
    simp only [hcr, hs, if_false]
    by_cases hag : (c > r ↔ screenW > screenH)
    · have hd : decide (c > r) = decide (screenW > screenH) := by
        rw [decide_eq_decide]; exact hag
      simp only [hd, ne_eq, not_true_eq_false, if_false]
      refine ⟨layout, rfl, ?_, fun _ => rfl, fun hn => absurd hag hn⟩
      unfold WiderThanTall
      rw [hhd, h.1]
      exact hag
    · have hd : decide (c > r) ≠ decide (screenW > screenH) := by
        rw [ne_eq, decide_eq_decide]; exact hag
      rw [if_pos hd]
      obtain ⟨t, ht, htr⟩ := transposeLayout_rect r c layout hr h
      refine ⟨t, ht, ?_, fun hy => absurd hy hag, fun _ => ht⟩
      unfold WiderThanTall
      rw [rect_headD c r t hc htr, htr.1]
      constructor
      · intro hrc
        by_contra hns
        apply hag
        constructor
        · intro h1; omega
        · intro h1; exact absurd h1 hns
      · intro hsw
        by_contra hrc
        apply hag
        constructor
        · intro _; exact hsw
        · intro _; omega
  · intro hor
    rcases hor with hcr | hs
    · simp only [hcr, if_true]
    · by_cases hcr : c = r
      · simp only [hcr, if_true]
      · simp only [hcr, hs, if_true, if_false]

/-- Witness of C30: the 2 by 3 layout `["P.#", "ZE."]` on a 400 by 800 screen
is returned transposed, 3 rows of 2; on an 800 by 400 screen it is returned
as it is. -/
theorem fitLayoutToScreen_spec_witness :
    Rect 2 3 (layoutOf ["P.#", "ZE."]) ∧
    (∃ out : Layout, fitLayoutToScreen 400 800 (layoutOf ["P.#", "ZE."]) = Except.ok out ∧
      out = layoutOf ["PZ", ".E", "#."]) ∧
    (∃ out : Layout, fitLayoutToScreen 800 400 (layoutOf ["P.#", "ZE."]) = Except.ok out ∧
      out = layoutOf ["P.#", "ZE."]) ∧
    ∃ out : Layout, fitLayoutToScreen 400 800 (layoutOf ["P.#", "ZE."]) = Except.ok out ∧
      (WiderThanTall out ↔ (400 : Int) > 800) ∧
      ((3 > 2 ↔ (400 : Int) > 800) → out = layoutOf ["P.#", "ZE."]) ∧
      (¬ (3 > 2 ↔ (400 : Int) > 800) →
        transposeLayout (layoutOf ["P.#", "ZE."]) = Except.ok out) :=
  ⟨by decide, ⟨_, rfl, by decide⟩, ⟨_, rfl, by decide⟩,
   (fitLayoutToScreen_spec 400 800 2 3 (layoutOf ["P.#", "ZE."]) (by decide) (by decide)
      (by decide)).1 (by decide) (by decide)⟩

/-! ## The loaded engine, cell by cell -/

theorem loadLevel_dims (e0 : GameEngine) (layout : Layout) (e : GameEngine)
    (hl : loadLevel e0 layout = Except.ok e) :
    e.width = ((layout.headD []).length : Int) ∧ e.height = (layout.length : Int) := by
  cases layout with
  | nil => cases hl
  | cons row0 rest =>
    rw [loadLevel_cons] at hl
    injection hl with hl
    subst hl
    exact ⟨rfl, rfl⟩

theorem mem_rowCells (c : Char) (y : Nat) (row : List Char) (p : Nat × Nat) :
    p ∈ rowCells c y row ↔ p.2 = y ∧ row[p.1]? = some c := by
  unfold rowCells
  rw [List.mem_map]
  constructor
  · rintro ⟨x, hx, rfl⟩
    rw [List.mem_filter] at hx
    exact ⟨rfl, of_decide_eq_true hx.2⟩
  · rintro ⟨hy, hc⟩
    refine ⟨p.1, ?_, ?_⟩
    · rw [List.mem_filter]
      refine ⟨List.mem_range.2 (List.getElem?_eq_some.1 hc).1, decide_eq_true hc⟩
    · rw [← hy]

theorem mem_cellsOf (c : Char) (layout : Layout) (p : Nat × Nat) :
    p ∈ cellsOf c layout ↔ charAt layout p.1 p.2 = some c := by
  unfold cellsOf charAt
  rw [List.mem_flatMap]
  constructor
  · rintro ⟨y, -, hp⟩
    cases hrow : layout[y]? with
    | none => rw [hrow] at hp; cases hp
    | some row =>
      rw [hrow] at hp
      have h2 := (mem_rowCells c y row p).1 hp
      rw [h2.1, hrow]
      exact h2.2
  · intro h
    cases hrow : layout[p.2]? with
    | none => rw [hrow] at h; cases h
    | some row =>
      rw [hrow] at h
      refine ⟨p.2, List.mem_range.2 (List.getElem?_eq_some.1 hrow).1, ?_⟩
      rw [hrow]
      exact (mem_rowCells c p.2 row p).2 ⟨rfl, h⟩

theorem charAt_bounds (layout : Layout) (hwf : WellFormed layout) (x y : Nat) (c : Char)
    (h : charAt layout x y = some c) :
    x < (layout.headD []).length ∧ y < layout.length := by
  unfold charAt at h
  cases hrow : layout[y]? with
  | none => rw [hrow] at h; cases h
  | some row =>
    rw [hrow] at h
    have hx := (List.getElem?_eq_some.1 h).1
    have hy := (List.getElem?_eq_some.1 hrow).1
    have hlen := hwf.2 row (List.getElem?_mem hrow)
    exact ⟨by omega, hy⟩

theorem contains_cellsOf (c : Char) (layout : Layout) (h : Contains c layout) :
    ∃ p : Nat × Nat, p ∈ cellsOf c layout := by
  obtain ⟨row, hrow, hc⟩ := h
  obtain ⟨y, hy⟩ := List.mem_iff_getElem?.1 hrow
  obtain ⟨x, hx⟩ := List.mem_iff_getElem?.1 hc
  refine ⟨(x, y), (mem_cellsOf c layout (x, y)).2 ?_⟩
  unfold charAt
  rw [hy]
  exact hx

theorem lastOr_mem (q : Pos) (cells : List (Nat × Nat)) (h : cells ≠ []) :
    ∃ p ∈ cells, lastOr q cells = { x := (p.1 : Int), y := (p.2 : Int) } := by
  cases hlast : cells.getLast? with
  | none => exact absurd (List.getLast?_eq_none_iff.1 hlast) h
  | some p =>
    refine ⟨p, ?_, lastOr_of_getLast? q cells p hlast⟩
    obtain ⟨ys, rfl⟩ := List.getLast?_eq_some_iff.1 hlast
    simp

/-- After `loadLevel` of a well-formed layout: the pursuers, the walls, the
agent and the exit in terms of the characters of the layout. -/
theorem loadLevel_cells (e0 : GameEngine) (layout : Layout) (hwf : WellFormed layout)
    (e : GameEngine) (hl : loadLevel e0 layout = Except.ok e) :
    (∀ x y : Int, PursuerAt e x y ↔
      ∃ p : Nat × Nat, charAt layout p.1 p.2 = some 'Z' ∧ x = (p.1 : Int) ∧ y = (p.2 : Int)) ∧
    (∀ x y : Int, WallAt e x y ↔
      ∃ p : Nat × Nat, charAt layout p.1 p.2 = some '#' ∧ x = (p.1 : Int) ∧ y = (p.2 : Int)) ∧
    (Contains 'P' layout →
      ∃ p : Nat × Nat, charAt layout p.1 p.2 = some 'P' ∧
        e.state.player = { x := (p.1 : Int), y := (p.2 : Int) }) ∧
    (Contains 'E' layout →
      ∃ p : Nat × Nat, charAt layout p.1 p.2 = some 'E' ∧
        e.state.exit = { x := (p.1 : Int), y := (p.2 : Int) }) := by
  obtain ⟨hz, hp, hx, hw⟩ := loadLevel_view e0 layout hwf e hl
  refine ⟨?_, ?_, ?_, ?_⟩
  · intro x y
    unfold PursuerAt
    constructor
    · rintro ⟨z, hzm, rfl, rfl⟩
      have hm : (z.x, z.y) ∈ e.state.zombies.map (fun z => (z.x, z.y)) :=
        List.mem_map.2 ⟨z, hzm, rfl⟩
      rw [hz, List.mem_map] at hm
      obtain ⟨p, hpm, hpe⟩ := hm
      refine ⟨p, (mem_cellsOf 'Z' layout p).1 hpm, ?_, ?_⟩
      · exact (congrArg Prod.fst hpe).symm
      · exact (congrArg Prod.snd hpe).symm
    · rintro ⟨p, hpc, rfl, rfl⟩
      have hm : cellPos p ∈ (cellsOf 'Z' layout).map cellPos :=
        List.mem_map.2 ⟨p, (mem_cellsOf 'Z' layout p).2 hpc, rfl⟩
      rw [← hz, List.mem_map] at hm
      obtain ⟨z, hzm, hze⟩ := hm
      exact ⟨z, hzm, congrArg Prod.fst hze, congrArg Prod.snd hze⟩
  · intro x y
    unfold WallAt
    rw [hw]
    constructor
    · rintro ⟨w, hwm, rfl, rfl⟩
      rw [List.mem_map] at hwm
      obtain ⟨p, hpm, rfl⟩ := hwm
      exact ⟨p, (mem_cellsOf '#' layout p).1 hpm, rfl, rfl⟩
    · rintro ⟨p, hpc, rfl, rfl⟩
      exact ⟨_, List.mem_map.2 ⟨p, (mem_cellsOf '#' layout p).2 hpc, rfl⟩, rfl, rfl⟩
  · intro hc
    obtain ⟨p0, hp0⟩ := contains_cellsOf 'P' layout hc
    obtain ⟨p, hpm, hpe⟩ := lastOr_mem { x := 0, y := 0 } (cellsOf 'P' layout)
      (List.ne_nil_of_mem hp0)
    exact ⟨p, (mem_cellsOf 'P' layout p).1 hpm, hp.trans hpe⟩
  · intro hc
    obtain ⟨p0, hp0⟩ := contains_cellsOf 'E' layout hc
    obtain ⟨p, hpm, hpe⟩ := lastOr_mem { x := 0, y := 0 } (cellsOf 'E' layout)
      (List.ne_nil_of_mem hp0)
    exact ⟨p, (mem_cellsOf 'E' layout p).1 hpm, hx.trans hpe⟩

/-! ## Everyone stays inside the grid and off the walls -/

theorem cell_inBounds (e0 : GameEngine) (layout : Layout) (hwf : WellFormed layout)
    (e : GameEngine) (hl : loadLevel e0 layout = Except.ok e) (p : Nat × Nat) (c : Char)
    (hc : charAt layout p.1 p.2 = some c) : InBounds e (p.1 : Int) (p.2 : Int) := by
  obtain ⟨hw, hh⟩ := loadLevel_dims e0 layout e hl
  have hb := charAt_bounds layout hwf p.1 p.2 c hc
  unfold InBounds
  rw [hw, hh]
  omega

theorem cell_not_wall (e0 : GameEngine) (layout : Layout) (hwf : WellFormed layout)
    (e : GameEngine) (hl : loadLevel e0 layout = Except.ok e) (p : Nat × Nat) (c : Char)
    (hc : charAt layout p.1 p.2 = some c) (hne : c ≠ '#') :
    ¬ WallAt e (p.1 : Int) (p.2 : Int) := by
  intro hw
  obtain ⟨q, hq, hx, hy⟩ := ((loadLevel_cells e0 layout hwf e hl).2.1 _ _).1 hw
  have h1 : p.1 = q.1 := by omega
  have h2 : p.2 = q.2 := by omega
  rw [h1, h2, hq] at hc
  injection hc with hc
  exact hne hc.symm

/-- After `loadLevel` of a well-formed layout holding a `P`, the agent and the
pursuers are inside the grid and off the walls. -/
theorem loadLevel_safe (e0 : GameEngine) (layout : Layout) (hwf : WellFormed layout)
    (hP : Contains 'P' layout) (e : GameEngine) (hl : loadLevel e0 layout = Except.ok e) :
    AgentSafe e ∧ ZSafe e := by
  obtain ⟨hz, -, hp, -⟩ := loadLevel_cells e0 layout hwf e hl
  constructor
  · obtain ⟨p, hpc, hpe⟩ := hp hP
    unfold AgentSafe
    rw [hpe]
    exact ⟨cell_inBounds e0 layout hwf e hl p 'P' hpc,
      cell_not_wall e0 layout hwf e hl p 'P' hpc (by decide)⟩
  · intro z hzm
    obtain ⟨p, hpc, hx, hy⟩ := (hz z.x z.y).1 ⟨z, hzm, rfl, rfl⟩
    rw [hx, hy]
    exact ⟨cell_inBounds e0 layout hwf e hl p 'Z' hpc,
      cell_not_wall e0 layout hwf e hl p 'Z' hpc (by decide)⟩

theorem zombieStep_zsafe (acc : GameEngine × Nat) (i : Nat) (h : ZSafe acc.1) :
    ZSafe (zombieStep acc i).1 := by
  cases hz : acc.1.state.zombies[i]? with
  | none => rw [zombieStep_none acc i hz]; exact h
  | some z =>
    rcases zombieStep_cases_can acc i z hz with h1 | ⟨m, hcan, h1⟩
    · rw [h1]; exact h
    · rw [h1]
      have hc := (canZombieMoveTo_iff _ _ _ _).1 hcan
      intro w hw
      have hw2 : w ∈ acc.1.state.zombies.set i (moved z m) := hw
      rcases List.mem_or_eq_of_mem_set hw2 with hmem | heq
      · exact h w hmem
      · rw [heq]
        exact ⟨hc.1, hc.2.1⟩

theorem moveZombiesSingleStep_zsafe (e : GameEngine) (h : ZSafe e) :
    ZSafe (moveZombiesSingleStep e).1 := by
  unfold moveZombiesSingleStep subStepUpTo
  exact foldl_preserves (fun acc : GameEngine × Nat => ZSafe acc.1) zombieStep
    (fun b a hb => zombieStep_zsafe b a hb) _ (e, 0) h

theorem processZombieLoop_zsafe (n : Nat) (e : GameEngine) (t : Nat) (h : ZSafe e) :
    ZSafe (processZombieLoop n e t).1 := by
  induction n generalizing e t with
  | zero => exact h
  | succ n ih =>
    cases hg : e.state.isGameOver with
    | true => rw [processZombieLoop_over n e t hg]; exact h
    | false =>
      have h1 := moveZombiesSingleStep_zsafe e h
      cases hl : checkLoss (moveZombiesSingleStep e).1 with
      | true => rw [processZombieLoop_caught n e t hg hl]; exact h1
      | false => rw [processZombieLoop_continue n e t hg hl]; exact ih _ _ h1

theorem movePlayer_safe (e : GameEngine) (dx dy : Int) (h : AgentSafe e ∧ ZSafe e) :
    AgentSafe (movePlayer e dx dy).1 ∧ ZSafe (movePlayer e dx dy).1 := by
  cases hg : e.state.isGameOver with
  | true => rw [movePlayer_over e dx dy hg]; exact h
  | false =>
    cases hv : isValidMove e (e.state.player.x + dx) (e.state.player.y + dy) with
    | false => rw [movePlayer_invalid e dx dy hv]; exact h
    | true =>
      have hbw := (isValidMove_iff e _ _).1 hv
      have ha1 : AgentSafe (commitMove e (e.state.player.x + dx) (e.state.player.y + dy)) := hbw
      have hz1 : ZSafe (commitMove e (e.state.player.x + dx) (e.state.player.y + dy)) := h.2
      cases hz : isZombieAt e (e.state.player.x + dx) (e.state.player.y + dy) none with
      | true => rw [movePlayer_onZombie e dx dy hg hv hz]; exact ⟨ha1, hz1⟩
      | false =>
        by_cases hx : e.state.player.x + dx = e.state.exit.x ∧
            e.state.player.y + dy = e.state.exit.y
        · rw [movePlayer_onExit e dx dy hg hv hz hx]; exact ⟨ha1, hz1⟩
        · rw [movePlayer_pursuit e dx dy hg hv hz hx]
          have hf := processZombieTurn_fixed
            (commitMove e (e.state.player.x + dx) (e.state.player.y + dy))
          have hz2 : ZSafe (processZombieTurn
              (commitMove e (e.state.player.x + dx) (e.state.player.y + dy))).1 :=
            processZombieLoop_zsafe _ _ _ hz1
          have ha2 : AgentSafe (processZombieTurn
              (commitMove e (e.state.player.x + dx) (e.state.player.y + dy))).1 := by
            unfold AgentSafe InBounds WallAt
            rw [hf.1, hf.2.1, hf.2.2.1, hf.2.2.2.2]
            exact ha1
          split
          · exact ⟨ha2, hz2⟩
          · exact ⟨ha2, hz2⟩

/-- C21: on every engine reachable from `loadLevel` of a well-formed layout
holding a `P` by `movePlayer` calls with any integer intents, the agent and
every pursuer are inside the grid (`0 <= x < width`, `0 <= y < height`) and
none of them stands on a wall cell. -/
theorem reachableFrom_safe (layout : Layout) (hwf : WellFormed layout)
    (hP : Contains 'P' layout) (e : GameEngine) (h : ReachableFrom layout e) :
    ((0 ≤ e.state.player.x ∧ e.state.player.x < e.width) ∧
      (0 ≤ e.state.player.y ∧ e.state.player.y < e.height)) ∧
    e.state.player ∉ e.state.walls ∧
    (∀ z ∈ e.state.zombies,
      ((0 ≤ z.x ∧ z.x < e.width) ∧ (0 ≤ z.y ∧ z.y < e.height)) ∧
      ({ x := z.x, y := z.y } : Pos) ∉ e.state.walls) := by
  have hs : AgentSafe e ∧ ZSafe e := by
    induction h with
    | load e0 e hl => exact loadLevel_safe e0 layout hwf hP e hl
    | move e dx dy _ ih => exact movePlayer_safe e dx dy ih
  obtain ⟨⟨⟨h1, h2, h3, h4⟩, hw⟩, hz⟩ := hs
  refine ⟨⟨⟨h1, h2⟩, ⟨h3, h4⟩⟩, ?_, ?_⟩
  · intro hmem
    exact hw ((wallAt_iff_mem e _ _).2 hmem)
  · intro z hzm
    obtain ⟨⟨z1, z2, z3, z4⟩, zw⟩ := hz z hzm
    exact ⟨⟨⟨z1, z2⟩, ⟨z3, z4⟩⟩, fun hmem => zw ((wallAt_iff_mem e _ _).2 hmem)⟩

/-- Witness of C21: two calls on `["P.#", ".Z#", "..E"]`, a step down and then
a jump of five cells, which changes nothing. -/
theorem reachableFrom_safe_witness :
    WellFormed (layoutOf ["P.#", ".Z#", "..E"]) ∧
    Contains 'P' (layoutOf ["P.#", ".Z#", "..E"]) ∧
    ReachableFrom (layoutOf ["P.#", ".Z#", "..E"])
      (movePlayer (movePlayer (loaded ["P.#", ".Z#", "..E"]) 0 1).1 5 0).1 ∧
    ((0 ≤ (movePlayer (movePlayer (loaded ["P.#", ".Z#", "..E"]) 0 1).1 5 0).1.state.player.x ∧
      (movePlayer (movePlayer (loaded ["P.#", ".Z#", "..E"]) 0 1).1 5 0).1.state.player.x <
        (movePlayer (movePlayer (loaded ["P.#", ".Z#", "..E"]) 0 1).1 5 0).1.width) ∧
     (0 ≤ (movePlayer (movePlayer (loaded ["P.#", ".Z#", "..E"]) 0 1).1 5 0).1.state.player.y ∧
      (movePlayer (movePlayer (loaded ["P.#", ".Z#", "..E"]) 0 1).1 5 0).1.state.player.y <
        (movePlayer (movePlayer (loaded ["P.#", ".Z#", "..E"]) 0 1).1 5 0).1.height)) :=
  ⟨by decide, by decide,
   ReachableFrom.move _ 5 0 (ReachableFrom.move _ 0 1 (ReachableFrom.load fresh _ rfl)),
   (reachableFrom_safe (layoutOf ["P.#", ".Z#", "..E"]) (by decide) (by decide) _
     (ReachableFrom.move _ 5 0 (ReachableFrom.move _ 0 1 (ReachableFrom.load fresh _ rfl)))).1⟩

/-! ## The status and the board -/

theorem cast_cell_eq (p q : Nat × Nat) (hx : (p.1 : Int) = (q.1 : Int))
    (hy : (p.2 : Int) = (q.2 : Int)) : p = q := by
  have h1 : p.1 = q.1 := by omega
  have h2 : p.2 = q.2 := by omega
  exact Prod.ext h1 h2

/-- After `loadLevel` of a well-formed layout holding a `P` and an `E` the
status `'playing'` matches the board. -/
theorem loadLevel_statusMatches (e0 : GameEngine) (layout : Layout) (hwf : WellFormed layout)
    (hP : Contains 'P' layout) (hE : Contains 'E' layout) (e : GameEngine)
    (hl : loadLevel e0 layout = Except.ok e) : StatusMatches e := by
  obtain ⟨hz, -, hp, hx⟩ := loadLevel_cells e0 layout hwf e hl
  obtain ⟨p, hpc, hpe⟩ := hp hP
  obtain ⟨q, hqc, hqe⟩ := hx hE
  have hst : e.state.status = Status.playing := by
    cases layout with
    | nil => cases hl
    | cons row0 rest =>
      rw [loadLevel_cons] at hl
      injection hl with hl
      subst hl
      exact (loadRows_flags _ _ _ _).2.1
  have hnc : ¬ Caught e := by
    intro hc
    unfold Caught at hc
    obtain ⟨r, hrc, hrx, hry⟩ := (hz _ _).1 hc
    rw [hpe] at hrx hry
    have : p = r := cast_cell_eq p r hrx hry
    rw [this, hrc] at hpc
    injection hpc with hpc
    exact absurd hpc (by decide)
  have hne : ¬ OnExit e := by
    intro ho
    unfold OnExit at ho
    rw [hpe, hqe] at ho
    have : p = q := cast_cell_eq p q ho.1 ho.2
    rw [this, hqc] at hpc
    injection hpc with hpc
    exact absurd hpc (by decide)
  refine ⟨?_, ?_, fun _ => ⟨hnc, hne⟩⟩
  · intro h; rw [hst] at h; cases h
  · intro h; rw [hst] at h; cases h

theorem movePlayer_statusMatches (e : GameEngine) (dx dy : Int) (hc : Consistent e)
    (h : StatusMatches e) : StatusMatches (movePlayer e dx dy).1 := by
  cases hg : e.state.isGameOver with
  | true => rw [movePlayer_over e dx dy hg]; exact h
  | false =>
    cases hv : isValidMove e (e.state.player.x + dx) (e.state.player.y + dy) with
    | false => rw [movePlayer_invalid e dx dy hv]; exact h
    | true =>
      have hst : e.state.status = Status.playing := by
        by_contra hs
        have := hc.2 hs
        rw [hg] at this
        cases this
      cases hz : isZombieAt e (e.state.player.x + dx) (e.state.player.y + dy) none with
      | true =>
        rw [movePlayer_onZombie e dx dy hg hv hz]
        have hcaught : Caught (gameOver (commitMove e (e.state.player.x + dx)
            (e.state.player.y + dy)) false).1 := (isZombieAt_none_iff e _ _).1 hz
        refine ⟨fun _ => hcaught, ?_, ?_⟩
        · intro h1; cases h1
        · intro h1; cases h1
      | false =>
        have hnz : ¬ PursuerAt e (e.state.player.x + dx) (e.state.player.y + dy) := by
          intro hp
          rw [(isZombieAt_none_iff e _ _).2 hp] at hz
          cases hz
        by_cases hx : e.state.player.x + dx = e.state.exit.x ∧
            e.state.player.y + dy = e.state.exit.y
        · rw [movePlayer_onExit e dx dy hg hv hz hx]
          refine ⟨?_, fun _ => ⟨hx, hnz⟩, ?_⟩
          · intro h1; cases h1
          · intro h1; cases h1
        · rw [movePlayer_pursuit e dx dy hg hv hz hx]
          have hg1 : (commitMove e (e.state.player.x + dx)
              (e.state.player.y + dy)).state.isGameOver = false := hg
          have hst1 : (commitMove e (e.state.player.x + dx)
              (e.state.player.y + dy)).state.status = Status.playing := hst
          have hx1 : ¬ OnExit (commitMove e (e.state.player.x + dx) (e.state.player.y + dy)) := hx
          generalize commitMove e (e.state.player.x + dx) (e.state.player.y + dy) = e1
            at hg1 hst1 hx1 ⊢
          cases hl : checkLoss (moveZombiesSingleStep e1).1 with
          | true =>
            rw [processZombieTurn_caught_first e1 hg1 hl]
            simp only [checkLoss_gameOver, hl, if_true]
            have hcaught : Caught (moveZombiesSingleStep e1).1 := (checkLoss_iff _).1 hl
            refine ⟨fun _ => hcaught, ?_, ?_⟩
            · intro h1; cases h1
            · intro h1; cases h1
          | false =>
            cases hl2 : checkLoss (moveZombiesSingleStep (moveZombiesSingleStep e1).1).1 with
            | true =>
              rw [processZombieTurn_caught_second e1 hg1 hl hl2]
              simp only [checkLoss_gameOver, hl2, if_true]
              have hcaught : Caught (moveZombiesSingleStep (moveZombiesSingleStep e1).1).1 :=
                (checkLoss_iff _).1 hl2
              refine ⟨fun _ => hcaught, ?_, ?_⟩
              · intro h1; cases h1
              · intro h1; cases h1
            | false =>
              rw [processZombieTurn_free e1 hg1 hl hl2]
              simp only [hl2]
              have hs2 : (moveZombiesSingleStep (moveZombiesSingleStep e1).1).1.state.status
                  = Status.playing := by
                rw [moveZombiesSingleStep_status, moveZombiesSingleStep_status]; exact hst1
              have hnc : ¬ Caught (moveZombiesSingleStep (moveZombiesSingleStep e1).1).1 := by
                intro hcg
                rw [(checkLoss_iff _).2 hcg] at hl2
                cases hl2
              have hne : ¬ OnExit (moveZombiesSingleStep (moveZombiesSingleStep e1).1).1 := by
                have f1 := moveZombiesSingleStep_frame e1
                have f2 := moveZombiesSingleStep_frame (moveZombiesSingleStep e1).1
                rw [f2, f1]
                exact hx1
              refine ⟨?_, ?_, fun _ => ⟨hnc, hne⟩⟩
              · intro h1
                have h2 : (moveZombiesSingleStep (moveZombiesSingleStep e1).1).1.state.status
                    = Status.lost := h1
                rw [hs2] at h2; cases h2
              · intro h1
                have h2 : (moveZombiesSingleStep (moveZombiesSingleStep e1).1).1.state.status
                    = Status.won := h1
                rw [hs2] at h2; cases h2

/-- C25: on every engine reachable from `loadLevel` of a well-formed layout
holding a `P` and an `E`, the status is `'lost'` exactly when some pursuer is
on the agent's cell, `'won'` exactly when the agent is on the exit with no
pursuer on its cell, and `'playing'` exactly when neither holds. -/
theorem reachableFrom_status_iff (layout : Layout) (hwf : WellFormed layout)
    (hP : Contains 'P' layout) (hE : Contains 'E' layout) (e : GameEngine)
    (h : ReachableFrom layout e) :
    (e.state.status = Status.lost ↔ Caught e) ∧
    (e.state.status = Status.won ↔ (OnExit e ∧ ¬ Caught e)) ∧
    (e.state.status = Status.playing ↔ (¬ Caught e ∧ ¬ (OnExit e ∧ ¬ Caught e))) := by
  have hm : StatusMatches e := by
    induction h with
    | load e0 e hl => exact loadLevel_statusMatches e0 layout hwf hP hE e hl
    | move e dx dy hr ih =>
      exact movePlayer_statusMatches e dx dy
        (reachable_consistent e (reachableFrom_reachable layout e hr)) ih
  obtain ⟨h1, h2, h3⟩ := hm
  cases hs : e.state.status with
  | playing =>
    have := h3 hs
    refine ⟨⟨fun h => Status.noConfusion h, fun hc => absurd hc this.1⟩,
      ⟨fun h => Status.noConfusion h, fun hc => absurd hc.1 this.2⟩,
      ⟨fun _ => ⟨this.1, fun hc => this.2 hc.1⟩, fun _ => rfl⟩⟩
  | lost =>
    have := h1 hs
    refine ⟨⟨fun _ => this, fun _ => rfl⟩,
      ⟨fun h => Status.noConfusion h, fun hc => absurd this hc.2⟩,
      ⟨fun h => Status.noConfusion h, fun hc => absurd this hc.1⟩⟩
  | won =>
    have := h2 hs
    refine ⟨⟨fun h => Status.noConfusion h, fun hc => absurd hc this.2⟩,
      ⟨fun _ => this, fun _ => rfl⟩,
      ⟨fun h => Status.noConfusion h, fun hc => absurd this hc.2⟩⟩

/-- Witness of C25: on `["P.E"]` two steps right reach the exit; the status is
`'won'`, the agent is on the exit and no pursuer is on its cell. -/
theorem reachableFrom_status_iff_witness :
    WellFormed (layoutOf ["P.E"]) ∧ Contains 'P' (layoutOf ["P.E"]) ∧
    Contains 'E' (layoutOf ["P.E"]) ∧
    (movePlayer (movePlayer (loaded ["P.E"]) 1 0).1 1 0).1.state.status = Status.won ∧
    (OnExit (movePlayer (movePlayer (loaded ["P.E"]) 1 0).1 1 0).1 ∧
      ¬ Caught (movePlayer (movePlayer (loaded ["P.E"]) 1 0).1 1 0).1) :=
  ⟨by decide, by decide, by decide, by decide,
   (reachableFrom_status_iff (layoutOf ["P.E"]) (by decide) (by decide) (by decide) _
     (ReachableFrom.move _ 1 0 (ReachableFrom.move _ 1 0
       (ReachableFrom.load fresh _ rfl)))).2.1.1 (by decide)⟩

/-! ## `serialize` after `loadLevel` -/

theorem wellFormed_rect (layout : Layout) (hwf : WellFormed layout) :
    Rect layout.length (layout.headD []).length layout :=
  ⟨rfl, hwf.2⟩

theorem charAt_some_of_lt (layout : Layout) (hwf : WellFormed layout) (x y : Nat)
    (hx : x < (layout.headD []).length) (hy : y < layout.length) :
    ∃ (row : List Char) (ch : Char), row ∈ layout ∧ ch ∈ row ∧ charAt layout x y = some ch := by
  have hrow := List.getElem?_eq_getElem hy
  have hmem : layout[y] ∈ layout := List.getElem_mem _
  have hlen := hwf.2 _ hmem
  have hxl : x < (layout[y]).length := by omega
  refine ⟨layout[y], (layout[y])[x], hmem, List.getElem_mem _, ?_⟩
  unfold charAt
  rw [hrow]
  exact List.getElem?_eq_getElem hxl

theorem singleton_of_length_one {α : Type} (l : List α) (h : l.length = 1) :
    ∃ a, l = [a] := by
  cases l with
  | nil => cases h
  | cons a t =>
    cases t with
    | nil => exact ⟨a, rfl⟩
    | cons b u => simp at h

/-- On the engine loaded from a well-formed layout over the alphabet, with
exactly one `P` and one `E`, every cell is labelled by its own character. -/
theorem labelOf_loaded (e0 : GameEngine) (layout : Layout) (hwf : WellFormed layout)
    (ha : Alphabet layout) (hP : (cellsOf 'P' layout).length = 1)
    (hE : (cellsOf 'E' layout).length = 1) (e : GameEngine)
    (hl : loadLevel e0 layout = Except.ok e) (x y : Nat)
    (hx : x < (layout.headD []).length) (hy : y < layout.length) :
    labelOf e x y = (charAt layout x y).getD '.' := by
  obtain ⟨row, ch, hrow, hch, hc⟩ := charAt_some_of_lt layout hwf x y hx hy
  have hal := ha row hrow ch hch
  obtain ⟨hz, hw, -, -⟩ := loadLevel_cells e0 layout hwf e hl
  obtain ⟨-, hp, hex, -⟩ := loadLevel_view e0 layout hwf e hl
  obtain ⟨p0, hp0⟩ := singleton_of_length_one _ hP
  obtain ⟨q0, hq0⟩ := singleton_of_length_one _ hE
  have hplayer : e.state.player = { x := (p0.1 : Int), y := (p0.2 : Int) } := by
    rw [hp, hp0]; rfl
  have hexit : e.state.exit = { x := (q0.1 : Int), y := (q0.2 : Int) } := by
    rw [hex, hq0]; rfl
  have hPiff : e.state.player = { x := (x : Int), y := (y : Int) } ↔ ch = 'P' := by
    rw [hplayer]
    constructor
    · intro h
      have h1 : (p0.1 : Int) = (x : Int) := congrArg Pos.x h
      have h2 : (p0.2 : Int) = (y : Int) := congrArg Pos.y h
      have h3 : p0 = (x, y) := cast_cell_eq p0 (x, y) h1 h2
      have h4 : p0 ∈ cellsOf 'P' layout := by rw [hp0]; exact List.mem_singleton.2 rfl
      have h5 := (mem_cellsOf 'P' layout p0).1 h4
      rw [h3, hc] at h5
      injection h5
    · intro h
      have h4 : (x, y) ∈ cellsOf 'P' layout := by
        apply (mem_cellsOf 'P' layout (x, y)).2
        rw [hc, h]
      rw [hp0] at h4
      rw [← List.mem_singleton.1 h4]
  have hEiff : e.state.exit = { x := (x : Int), y := (y : Int) } ↔ ch = 'E' := by
    rw [hexit]
    constructor
    · intro h
      have h1 : (q0.1 : Int) = (x : Int) := congrArg Pos.x h
      have h2 : (q0.2 : Int) = (y : Int) := congrArg Pos.y h
      have h3 : q0 = (x, y) := cast_cell_eq q0 (x, y) h1 h2
      have h4 : q0 ∈ cellsOf 'E' layout := by rw [hq0]; exact List.mem_singleton.2 rfl
      have h5 := (mem_cellsOf 'E' layout q0).1 h4
      rw [h3, hc] at h5
      injection h5
    · intro h
      have h4 : (x, y) ∈ cellsOf 'E' layout := by
        apply (mem_cellsOf 'E' layout (x, y)).2
        rw [hc, h]
      rw [hq0] at h4
      rw [← List.mem_singleton.1 h4]
  have hZiff : PursuerAt e (x : Int) (y : Int) ↔ ch = 'Z' := by
    rw [hz]
    constructor
    · rintro ⟨p, hpc, h1, h2⟩
      have h3 : (x, y) = p := cast_cell_eq (x, y) p h1 h2
      rw [← h3, hc] at hpc
      injection hpc
    · intro h
      exact ⟨(x, y), by rw [hc, h], rfl, rfl⟩
  have hWiff : WallAt e (x : Int) (y : Int) ↔ ch = '#' := by
    rw [hw]
    constructor
    · rintro ⟨p, hpc, h1, h2⟩
      have h3 : (x, y) = p := cast_cell_eq (x, y) p h1 h2
      rw [← h3, hc] at hpc
      injection hpc
    · intro h
      exact ⟨(x, y), by rw [hc, h], rfl, rfl⟩
  unfold labelOf
  rw [hc]
  simp only [hPiff, hEiff, hZiff, hWiff, Option.getD_some]
  rcases hal with h | h | h | h | h <;> subst h <;> decide

/-- C27: for a layout with at least one row, rows of equal length, every
character in `{P, Z, #, E, .}`, exactly one `P` and exactly one `E`,
`serialize()` right after `loadLevel(layout)` returns the layout itself. -/
theorem serialize_loadLevel (e0 : GameEngine) (layout : Layout) (hwf : WellFormed layout)
    (ha : Alphabet layout) (hP : (cellsOf 'P' layout).length = 1)
    (hE : (cellsOf 'E' layout).length = 1) :
    ∃ e, loadLevel e0 layout = Except.ok e ∧ serialize e = layout := by
  obtain ⟨e, he⟩ := loadLevel_ok_of_ne_nil e0 layout hwf.1
  refine ⟨e, he, ?_⟩
  obtain ⟨hw, hh⟩ := loadLevel_dims e0 layout e he
  have hg := rect_eq_grid _ _ layout (wellFormed_rect layout hwf)
  rw [serialize_eq, hh, Int.toNat_ofNat]
  conv => rhs; rw [hg]
  unfold grid
  apply List.map_congr_left
  intro y hy
  rw [serializeRow_eq, hw, Int.toNat_ofNat]
  apply List.map_congr_left
  intro x hx
  rw [serializeCell_eq_labelOf]
  exact labelOf_loaded e0 layout hwf ha hP hE e he x y (List.mem_range.1 hx) (List.mem_range.1 hy)

/-- Witness of C27: `["P.#", ".Z#", "..E"]` survives the round trip. -/
theorem serialize_loadLevel_witness :
    WellFormed (layoutOf ["P.#", ".Z#", "..E"]) ∧ Alphabet (layoutOf ["P.#", ".Z#", "..E"]) ∧
    cellsOf 'P' (layoutOf ["P.#", ".Z#", "..E"]) = [(0, 0)] ∧
    cellsOf 'E' (layoutOf ["P.#", ".Z#", "..E"]) = [(2, 2)] ∧
    ∃ e, loadLevel fresh (layoutOf ["P.#", ".Z#", "..E"]) = Except.ok e ∧
      serialize e = layoutOf ["P.#", ".Z#", "..E"] :=
  ⟨by decide, by decide, by decide, by decide,
   serialize_loadLevel fresh (layoutOf ["P.#", ".Z#", "..E"]) (by decide) (by decide)
     (by decide) (by decide)⟩

/-! ## The order of handling decides who advances -/

theorem idOrdered_nodup (e : GameEngine) (h : IdOrdered e) :
    (e.state.zombies.map (fun z => z.id)).Nodup := by
  unfold IdOrdered at h
  exact List.Pairwise.imp (fun hab => Nat.ne_of_lt hab) h

theorem id_lt_of_index_lt (e : GameEngine) (hord : IdOrdered e) (i j : Nat) (zi zj : Zombie)
    (hzi : e.state.zombies[i]? = some zi) (hzj : e.state.zombies[j]? = some zj)
    (hij : i < j) : zi.id < zj.id := by
  unfold IdOrdered at hord
  rw [List.pairwise_map] at hord
  rcases List.getElem?_eq_some.1 hzi with ⟨hi, hi2⟩
  rcases List.getElem?_eq_some.1 hzj with ⟨hj, hj2⟩
  have := (List.pairwise_iff_getElem.1 hord) i j hi hj hij
  rw [hi2, hj2] at this
  exact this

/-- Where pursuer `i` ends when its first candidate is accepted. -/
theorem final_of_primary (e : GameEngine) (i : Nat) (z : Zombie)
    (hz : e.state.zombies[i]? = some z)
    (hcan : canZombieMoveTo (subStepUpTo e i).1 (z.x + (primaryMove e z).x)
      (z.y + (primaryMove e z).y) z.id = true) :
    (subStepUpTo e (i + 1)).1.state.zombies[i]? = some (moved z (primaryMove e z)) ∧
    (moveZombiesSingleStep e).1.state.zombies[i]? = some (moved z (primaryMove e z)) := by
  have hlive : (subStepUpTo e i).1.state.zombies[i]? = some z := (live_get_self e i).trans hz
  have hp := primaryMove_live e i z
  have h := zombieStep_primary (subStepUpTo e i) i z hlive (by rw [hp]; exact hcan)
  rw [hp] at h
  have h1 : (subStepUpTo e (i + 1)).1.state.zombies[i]? = some (moved z (primaryMove e z)) := by
    rw [subStepUpTo_succ, h]
    exact getElem?_set_self_of_some _ _ _ _ hlive
  refine ⟨h1, ?_⟩
  rw [moveZombiesSingleStep_get e i z hz, ← subStepUpTo_succ]
  exact h1

/-- Until pursuer `i` is handled no other pursuer gets onto its cell. -/
theorem cell_kept (e : GameEngine) (hid : (e.state.zombies.map (fun z => z.id)).Nodup)
    (hns : NoStack e) (i : Nat) (za : Zombie) (hza : e.state.zombies[i]? = some za)
    (m : Nat) (hm : m ≤ i) (k : Nat) (w : Zombie) (hk : k ≠ i)
    (hw : (subStepUpTo e m).1.state.zombies[k]? = some w) :
    ¬ (w.x = za.x ∧ w.y = za.y) := by
  induction m generalizing k w with
  | zero =>
    intro hpos
    refine nodup_map_ne (fun z : Zombie => (z.x, z.y)) e.state.zombies hns k i w za hw hza hk ?_
    show (w.x, w.y) = (za.x, za.y)
    rw [hpos.1, hpos.2]
  | succ m ih =>
    have hmi : m ≤ i := by omega
    rw [subStepUpTo_succ] at hw
    by_cases hkm : k = m
    · subst hkm
      cases hz : (subStepUpTo e k).1.state.zombies[k]? with
      | none =>
        rw [zombieStep_none _ k hz, hz] at hw
        cases hw
      | some z =>
        rcases zombieStep_cases_can (subStepUpTo e k) k z hz with h | ⟨mv, hcan, h⟩
        · rw [h] at hw
          exact ih hmi k w hk hw
        · rw [h] at hw
          have hw2 : ((subStepUpTo e k).1.state.zombies.set k (moved z mv))[k]? = some w := hw
          rw [getElem?_set_self_of_some _ _ _ _ hz] at hw2
          injection hw2 with hw2
          subst hw2
          intro hpos
          have hlive_i : (subStepUpTo e k).1.state.zombies[i]? = some za :=
            (subStepUpTo_get_ge e k i hmi).trans hza
          have hzk : e.state.zombies[k]? = some z := (live_get_self e k).symm.trans hz
          apply ((canZombieMoveTo_iff _ _ _ _).1 hcan).2.2
          refine ⟨za, List.getElem?_mem hlive_i, hpos.1.symm, hpos.2.symm, ?_⟩
          exact nodup_map_ne (fun z : Zombie => z.id) e.state.zombies hid i k za z hza hzk
            (fun h => hk h.symm)
    · rw [zombieStep_get_ne _ m k (fun h => hkm h.symm)] at hw
      exact ih hmi k w hk hw

/-- A pursuer that is not on the agent's cell has a first candidate that is a
real step. -/
theorem primaryMove_steps (e : GameEngine) (z : Zombie)
    (hoff : ¬ (z.x = e.state.player.x ∧ z.y = e.state.player.y)) :
    StepsToward e z (primaryMove e z) := by
  rcases primaryMove_toward e z with h | h
  · exfalso
    unfold primaryMove at h
    by_cases hc : (e.state.player.x - z.x).natAbs > (e.state.player.y - z.y).natAbs
    · simp only [hc, if_true] at h
      have h1 : Int.sign (e.state.player.x - z.x) = 0 := congrArg Pos.x h
      have h2 := Int.sign_eq_zero_iff_zero.1 h1
      omega
    · simp only [hc, if_false] at h
      have h1 : Int.sign (e.state.player.y - z.y) = 0 := congrArg Pos.y h
      have h2 := Int.sign_eq_zero_iff_zero.1 h1
      apply hoff
      constructor <;> omega
  · exact h

theorem stepsToward_ne (e : GameEngine) (z : Zombie) (m : Pos) (h : StepsToward e z m) :
    ¬ ((moved z m).x = z.x ∧ (moved z m).y = z.y) := by
  unfold StepsToward at h
  unfold moved
  dsimp only
  rcases h.1 with ⟨_, h2⟩ | ⟨_, h2⟩
  · rintro ⟨-, hy⟩; omega
  · rintro ⟨hx, -⟩; omega

/-- C24, counterexample: in `[".P.", "..#", ".ZZ", ".Z."]` pursuer 0 at `(1, 2)`
is in front of pursuer 2 at `(1, 3)`, both in the agent's column, and its
first candidate `(1, 1)` is free.  Pursuer 1 at `(2, 2)`, handled between them,
finds a wall on `(2, 1)` and falls back onto the cell pursuer 0 has just left;
pursuer 2 then stays and is counted trapped although its id is the larger. -/
theorem substep_order_dependent_counterexample :
    IdOrdered (loaded [".P.", "..#", ".ZZ", ".Z."]) ∧
    NoStack (loaded [".P.", "..#", ".ZZ", ".Z."]) ∧
    (loaded [".P.", "..#", ".ZZ", ".Z."]).state.player = { x := 1, y := 0 } ∧
    (loaded [".P.", "..#", ".ZZ", ".Z."]).state.zombies =
      [{ x := 1, y := 2, id := 0 }, { x := 2, y := 2, id := 1 }, { x := 1, y := 3, id := 2 }] ∧
    primaryMove (loaded [".P.", "..#", ".ZZ", ".Z."]) { x := 1, y := 3, id := 2 } =
      { x := 0, y := -1 } ∧
    minorDelta (loaded [".P.", "..#", ".ZZ", ".Z."]) { x := 1, y := 3, id := 2 } = 0 ∧
    canZombieMoveTo (subStepUpTo (loaded [".P.", "..#", ".ZZ", ".Z."]) 0).1 1 1 0 = true ∧
    (moveZombiesSingleStep (loaded [".P.", "..#", ".ZZ", ".Z."])).1.state.zombies =
      [{ x := 1, y := 1, id := 0 }, { x := 1, y := 2, id := 1 }, { x := 1, y := 3, id := 2 }] ∧
    trappedAt (loaded [".P.", "..#", ".ZZ", ".Z."]) 2 = true := by
  decide

/-- C24, amended: in a sub-step on an id-ordered pursuer list with no two
pursuers on one cell, let `B`'s only candidate cell be the cell of `A` (`B` has
no second candidate), `A` stand on an in-bounds non-wall cell other than the
agent's, and `A`'s first candidate pass `canZombieMoveTo` when `A` is handled.
If `B` is handled right after `A` (then `id(A) < id(B)`; always so when they
are the only two pursuers and `id(A) < id(B)`), both advance one cell: `A` to
its candidate, `B` onto the cell `A` left.  If `id(A) > id(B)`, only `A`
advances; `B` stays and is counted trapped, although `A` leaves the cell later
in the same sub-step. -/
theorem substep_order_dependent (e : GameEngine) (hord : IdOrdered e) (hns : NoStack e)
    (i j : Nat) (za zb : Zombie)
    (hza : e.state.zombies[i]? = some za) (hzb : e.state.zombies[j]? = some zb)
    (hbehind : zb.x + (primaryMove e zb).x = za.x ∧ zb.y + (primaryMove e zb).y = za.y)
    (hnosec : minorDelta e zb = 0)
    (hcell : InBounds e za.x za.y ∧ ¬ WallAt e za.x za.y)
    (hoff : ¬ (za.x = e.state.player.x ∧ za.y = e.state.player.y))
    (hA : canZombieMoveTo (subStepUpTo e i).1 (za.x + (primaryMove e za).x)
      (za.y + (primaryMove e za).y) za.id = true) :
    StepsToward e za (primaryMove e za) ∧
    (e.state.zombies.length = 2 → za.id < zb.id → j = i + 1) ∧
    (j = i + 1 →
      za.id < zb.id ∧
      (moveZombiesSingleStep e).1.state.zombies[i]? = some (moved za (primaryMove e za)) ∧
      (moveZombiesSingleStep e).1.state.zombies[j]? =
        some { x := za.x, y := za.y, id := zb.id } ∧
      trappedAt e j = false) ∧
    (zb.id < za.id →
      (moveZombiesSingleStep e).1.state.zombies[i]? = some (moved za (primaryMove e za)) ∧
      (moveZombiesSingleStep e).1.state.zombies[j]? = some zb ∧
      trappedAt e j = true) := by
  have hid := idOrdered_nodup e hord
  have hstepA := primaryMove_steps e za hoff
  obtain ⟨hnextA, hfinalA⟩ := final_of_primary e i za hza hA
  refine ⟨hstepA, ?_, ?_, ?_⟩
  · intro hlen hlt
    have hij := index_lt_of_id_lt e hord i j za zb hza hzb hlt
    have hj : j < e.state.zombies.length := (List.getElem?_eq_some.1 hzb).1
    omega
  · intro hj
    subst hj
    have hlt := id_lt_of_index_lt e hord i (i + 1) za zb hza hzb (by omega)
    -- when `B` is handled nobody stands on the cell `A` left
    have hempty : ¬ ∃ w ∈ (subStepUpTo e (i + 1)).1.state.zombies,
        w.x = za.x ∧ w.y = za.y ∧ w.id ≠ zb.id := by
      rintro ⟨w, hw, hx, hy, -⟩
      obtain ⟨k, hk⟩ := List.mem_iff_getElem?.1 hw
      by_cases hki : k = i
      · subst hki
        rw [hnextA] at hk
        injection hk with hk
        subst hk
        exact stepsToward_ne e za _ hstepA ⟨hx, hy⟩
      · rw [subStepUpTo_succ, zombieStep_get_ne _ i k (fun h => hki h.symm)] at hk
        exact cell_kept e hid hns i za hza i (le_refl i) k w hki hk ⟨hx, hy⟩
    have hcanB : canZombieMoveTo (subStepUpTo e (i + 1)).1 (zb.x + (primaryMove e zb).x)
        (zb.y + (primaryMove e zb).y) zb.id = true := by
      rw [hbehind.1, hbehind.2, canZombieMoveTo_iff]
      exact ⟨(inBounds_live e _ _ _).2 hcell.1, fun h => hcell.2 ((wallAt_live e _ _ _).1 h),
        hempty⟩
    refine ⟨hlt, hfinalA, ?_, ?_⟩
    · rw [(final_of_primary e (i + 1) zb hzb hcanB).2]
      unfold moved
      rw [hbehind.1, hbehind.2]
    · simp only [trappedAt, hzb, hcanB]
      rfl
  · intro hlt
    have hji := index_lt_of_id_lt e hord j i zb za hzb hza hlt
    have hlive_i : (subStepUpTo e j).1.state.zombies[i]? = some za :=
      (subStepUpTo_get_ge e j i (Nat.le_of_lt hji)).trans hza
    have hcanB : canZombieMoveTo (subStepUpTo e j).1 (zb.x + (primaryMove e zb).x)
        (zb.y + (primaryMove e zb).y) zb.id = false := by
      rw [hbehind.1, hbehind.2]
      cases h : canZombieMoveTo (subStepUpTo e j).1 za.x za.y zb.id
      · rfl
      · exfalso
        apply ((canZombieMoveTo_iff _ _ _ _).1 h).2.2
        refine ⟨za, List.getElem?_mem hlive_i, rfl, rfl, ?_⟩
        omega
    have h0 := secondaryMove_zero_of_minor e zb hnosec
    have ht : trappedAt e j = true := by
      simp only [trappedAt, hzb, hcanB]
      simp [h0.1, h0.2]
    refine ⟨hfinalA, ?_, ht⟩
    rw [moveZombiesSingleStep_get e j zb hzb, (zombieStep_live_spec e j zb hzb).1 ht]
    exact (live_get_self e j).trans hzb

/-- Witness of C24 amended: on the row `"ZZ..P"` the pursuer in front, at `(1, 0)`, has
id 1 and is handled last: only it advances, pursuer 0 behind it stays and is
trapped.  On the mirrored row `"P..ZZ"` the pursuer in front, at `(3, 0)`, has
id 0 and is handled first: both advance. -/
theorem substep_order_dependent_witness :
    (moveZombiesSingleStep (loaded ["ZZ..P"])).1.state.zombies =
      [{ x := 0, y := 0, id := 0 }, { x := 2, y := 0, id := 1 }] ∧
    (moveZombiesSingleStep (loaded ["ZZ..P"])).2 = 1 ∧
    ((moveZombiesSingleStep (loaded ["ZZ..P"])).1.state.zombies[1]? =
        some (moved { x := 1, y := 0, id := 1 }
          (primaryMove (loaded ["ZZ..P"]) { x := 1, y := 0, id := 1 })) ∧
      (moveZombiesSingleStep (loaded ["ZZ..P"])).1.state.zombies[0]? =
        some { x := 0, y := 0, id := 0 } ∧
      trappedAt (loaded ["ZZ..P"]) 0 = true) ∧
    (moveZombiesSingleStep (loaded ["P..ZZ"])).1.state.zombies =
      [{ x := 2, y := 0, id := 0 }, { x := 3, y := 0, id := 1 }] ∧
    (moveZombiesSingleStep (loaded ["P..ZZ"])).2 = 0 ∧
    ((0 : Nat) < 1 ∧
      (moveZombiesSingleStep (loaded ["P..ZZ"])).1.state.zombies[0]? =
        some (moved { x := 3, y := 0, id := 0 }
          (primaryMove (loaded ["P..ZZ"]) { x := 3, y := 0, id := 0 })) ∧
      (moveZombiesSingleStep (loaded ["P..ZZ"])).1.state.zombies[0 + 1]? =
        some { x := 3, y := 0, id := 1 } ∧
      trappedAt (loaded ["P..ZZ"]) (0 + 1) = false) :=
  ⟨by decide, by decide,
   (substep_order_dependent (loaded ["ZZ..P"]) (by decide) (by decide) 1 0
      { x := 1, y := 0, id := 1 } { x := 0, y := 0, id := 0 }
      (by decide) (by decide) (by decide) (by decide) (by decide) (by decide)
      (by decide)).2.2.2 (by decide),
   by decide, by decide,
   (substep_order_dependent (loaded ["P..ZZ"]) (by decide) (by decide) 0 (0 + 1)
      { x := 3, y := 0, id := 0 } { x := 4, y := 0, id := 1 }
      (by decide) (by decide) (by decide) (by decide) (by decide) (by decide)
      (by decide)).2.2.1 rfl⟩

end ZombieEscape
